import Mathlib

/-!
Verification of the BibleLM context-retrieval pipeline.

This file gives a shallow embedding, in Lean 4, of the dominant version of
`src/lib/retrieval.ts` (topic guards, curated topical lists, the direct
reference extractor, the store-backed retrieval pipeline with vector search
and TSK cross-references, the Redis-backed cache layer, and the pure-API
fallback path), plus the model-fallback loop of `src/app/api/chat/route.ts`.
External effects (Postgres, the HF embedding endpoint, Redis, HelloAO,
bolls.life, Groq) are modelled by an environment record and a deterministic
state-and-trace monad, so that every pipeline run is an executable Lean value.
-/

set_option autoImplicit false

namespace BibleLM

/-! ## JavaScript string primitives -/

/-- Boolean test that `needle` is a prefix of `haystack` (character lists). -/
def startsSeq : List Char → List Char → Bool
  | _, [] => true
  | [], _ :: _ => false
  | h :: t, n :: ns => h = n && startsSeq t ns

/-- Boolean substring containment on character lists, like JS `includes`. -/
def containsSeq : List Char → List Char → Bool
  | l, [] => (fun _ => true) l
  | [], _ :: _ => false
  | h :: t, n :: ns => startsSeq (h :: t) (n :: ns) || containsSeq t (n :: ns)

/-- JS `haystack.includes(needle)` (substring containment). -/
def strContains (haystack needle : String) : Bool :=
  containsSeq haystack.data needle.data

/-- JS word character class `\w` = `[A-Za-z0-9_]`. -/
def wordChar (c : Char) : Bool :=
  c.isAlpha || c.isDigit || c = '_'

/-- JS whitespace class `\s` (restricted to the ASCII whitespace that occurs
in this corpus). -/
def wsChar (c : Char) : Bool :=
  c = ' ' || c = '\t' || c = '\n' || c = '\r'

/-- JS `toLowerCase` (character-list based, so that it evaluates in proofs). -/
def jsToLower (s : String) : String := String.mk (s.data.map Char.toLower)

/-- JS `toUpperCase`. -/
def jsToUpper (s : String) : String := String.mk (s.data.map Char.toUpper)

/-- JS `trim` (leading and trailing whitespace removed). -/
def jsTrim (s : String) : String :=
  String.mk (((s.data.dropWhile wsChar).reverse.dropWhile wsChar).reverse)

/-! ## Data model: `VerseContext` (from `src/lib/bible-fetch.ts`) -/

/-- One original-language word tag attached to a verse. -/
structure OriginalWord where
  word : String
  strongs : String
  gloss : Option String := none
  transliteration : Option String := none
  deriving Repr, DecidableEq

/-- The unit of retrieval (`VerseContext` in `bible-fetch.ts`); the
`isCrossReference` flag is added ad hoc by the retrieval module. -/
structure VerseContext where
  reference : String
  translation : String
  text : String
  original : List OriginalWord := []
  isCrossReference : Bool := false
  deriving Repr, DecidableEq

/-! ## Topic guards (`TOPIC_GUARDS` in `retrieval.ts`) -/

/-- Topic guard configuration. -/
structure TopicGuard where
  keywords : List String
  priority : List VerseContext
  excludePatterns : List String
  conditionalPriority : Option (String → List VerseContext) := none

/-- A priority verse literal: all guard verses are BSB with no originals. -/
def pv (ref text : String) : VerseContext :=
  { reference := ref, text := text, translation := "BSB", original := [] }

def murderGuard : TopicGuard where
  keywords := ["murder", "kill", "slay", "take life", "shed blood", "homicide", "killing"]
  priority := [
    pv "EXO 20:13" "You shall not murder.",
    pv "GEN 9:6" "Whoever sheds the blood of man, by man shall his blood be shed; for in the image of God has He made man.",
    pv "NUM 35:16" "But if anyone strikes another with an iron object so that death results, he is a murderer; the murderer must be put to death.",
    pv "NUM 35:17" "Or if anyone strikes another with a stone in his hand that could cause death, and death results, he is a murderer; the murderer must be put to death.",
    pv "NUM 35:30" "If anyone kills a person, the murderer must be put to death on the evidence of witnesses; but no one shall be put to death on the testimony of only one witness."]
  excludePatterns := ["refuge", "cities of refuge", "unintentional", "accidentally", "without premeditation", "manslaughter", "avenger of blood", "flees"]

def lyingGuard : TopicGuard where
  keywords := ["lying", "false witness", "lie", "deceive", "deception", "deceit", "liar", "falsehood", "perjury"]
  priority := [
    pv "EXO 20:16" "You shall not bear false witness against your neighbor.",
    pv "PRO 6:16-19" "There are six things that the LORD hates, seven that are detestable to Him: haughty eyes, a lying tongue, hands that shed innocent blood, a heart that devises wicked schemes, feet that run swiftly to evil, a false witness who gives false testimony, and one who stirs up discord among brothers.",
    pv "EPH 4:25" "Therefore each of you must put off falsehood and speak truthfully to his neighbor, for we are all members of one another.",
    pv "PRO 12:22" "Lying lips are detestable to the LORD, but those who deal faithfully are His delight."]
  excludePatterns := ["rahab", "midwives", "shipphrah", "puah", "lying in wait"]

def theftGuard : TopicGuard where
  keywords := ["theft", "steal", "stealing", "rob", "robbery", "thief", "restitution"]
  priority := [
    pv "EXO 20:15" "You shall not steal.",
    pv "LEV 19:11" "You must not steal. You must not lie or deceive one another.",
    pv "EXO 22:1" "If a man steals an ox or a sheep and slaughters or sells it, he must repay five oxen for an ox and four sheep for a sheep.",
    pv "EXO 22:4" "If what was stolen is actually found alive in his possession—whether ox or donkey or sheep—he must pay back double."]
  excludePatterns := ["property laws", "boundary marker", "restoring"]

def adulteryGuard : TopicGuard where
  keywords := ["adultery", "adulterous", "adulterer", "cheating", "infidelity", "lustful", "unfaithful"]
  priority := [
    pv "EXO 20:14" "You shall not commit adultery.",
    pv "LEV 20:10" "If a man commits adultery with another man’s wife—with the wife of his neighbor—both the adulterer and the adulteress must surely be put to death.",
    pv "MAT 5:27-28" "You have heard that it was said, ‘Do not commit adultery.’ But I tell you that anyone who looks at a woman to lust after her has already committed adultery with her in his heart.",
    pv "HEB 13:4" "Marriage should be honored by all and the marriage bed kept undefiled, for God will judge the sexually immoral and adulterers.",
    pv "PRO 6:32-33" "He who commits adultery lacks judgment; whoever does so destroys himself. Wounds and dishonor will befall him, and his reproach will never be wiped away."]
  excludePatterns := ["except for sexual immorality", "forgiven", "restored", "woman caught in adultery"]

def idolatryGuard : TopicGuard where
  keywords := ["idolatry", "idols", "idolater", "graven image", "false gods", "worshiping gods", "pagan worship"]
  priority := [
    pv "EXO 20:3-5" "You shall have no other gods before Me. You shall not make for yourself an idol in the form of anything in the heavens above, on the earth below, or in the waters beneath. You shall not bow down to them or worship them; for I, the LORD your God, am a jealous God, visiting the iniquity of the fathers on their children to the third and fourth generations of those who hate Me,",
    pv "DEU 5:7-9" "You shall have no other gods before Me. You shall not make for yourself an idol in the form of anything in the heavens above, or on the earth beneath, or in the water under the earth. You shall not bow down to them or worship them; for I, the LORD your God, am a jealous God, visiting the iniquity of the fathers on their children to the third and fourth generations of those who hate Me,",
    pv "1CO 10:14" "Therefore, my beloved, flee from idolatry.",
    pv "EPH 5:5" "For of this you can be sure: No immoral, impure, or greedy person (that is, an idolater), has any inheritance in the kingdom of Christ and of God.",
    pv "COL 3:5" "Put to death, therefore, the components of your earthly nature: sexual immorality, impurity, lust, evil desires, and greed, which is idolatry.",
    pv "REV 21:8" "But to the cowardly and unbelieving and abominable and murderers and sexually immoral and sorcerers and idolaters and all liars, their place will be in the lake that burns with fire and sulfur. This is the second death."]
  excludePatterns := ["metaphorical", "judgment tool", "using nations"]

def divorceGuard : TopicGuard where
  keywords := ["divorce", "remarriage", "separate", "marital faithfulness", "adultery"]
  priority := [
    pv "MAL 2:16" "“For I hate divorce,” says the LORD, the God of Israel. “He who divorces his wife covers his garment with violence,” says the LORD of Hosts.",
    pv "MAT 19:6" "So they are no longer two, but one flesh. Therefore what God has joined together, let man not separate.",
    pv "GEN 2:24" "For this reason a man will leave his father and mother and be united to his wife, and they will become one flesh."]
  excludePatterns := ["hardness of heart"]
  conditionalPriority := some (fun query =>
    let q := jsToLower query
    if strContains q "except for immorality" || strContains q "except for sexual immorality" then
      [pv "MAT 19:9" "And I say to you, whoever divorces his wife, except for sexual immorality, and marries another woman commits adultery."]
    else [])

def feminismGuard : TopicGuard where
  keywords := ["feminism", "gender roles", "women in ministry", "women in bible", "strong women", "submission", "headship", "equality", "female", "wife", "husbands", "wives"]
  priority := [
    pv "GAL 3:28" "There is neither Jew nor Greek, slave nor free, male nor female, for you are all one in Christ Jesus.",
    pv "EPH 5:22" "Wives, submit to your husbands as to the Lord.",
    pv "EPH 5:25" "Husbands, love your wives, just as Christ loved the church and gave Himself up for her.",
    pv "COL 3:18" "Wives, submit to your husbands, as is fitting in the Lord.",
    pv "COL 3:19" "Husbands, love your wives and do not be harsh with them.",
    pv "GEN 2:24" "For this reason a man will leave his father and mother and be united to his wife, and they will become one flesh.",
    pv "JDG 4:4" "Now Deborah, a prophetess, the wife of Lappidoth, was judging Israel at that time.",
    pv "JDG 4:21" "But as he lay sleeping from exhaustion, Heber's wife Jael took a tent peg, grabbed a hammer, and went silently to Sisera. She drove the peg through his temple and into the ground, and he died.",
    pv "RUT 3:11" "And now do not be afraid, my daughter. I will do for you whatever you request, since all my fellow townspeople know that you are a woman of noble character.",
    pv "PRO 31:10" "A wife of noble character, who can find? She is far more precious than rubies."]
  excludePatterns := []

def homosexualityGuard : TopicGuard where
  keywords := ["homosexual", "homosexuality", "same sex", "same-sex", "gay", "lesbian", "men who have sex with men", "arsenokoit", "malakoi", "lie with a man"]
  priority := [
    pv "LEV 18:22" "You must not lie with a man as with a woman; that is an abomination.",
    pv "LEV 20:13" "If a man lies with a man as with a woman, they have both committed an abomination. They must surely be put to death; their blood is upon them.",
    pv "ROM 1:26-27" "For this reason God gave them over to dishonorable passions. Even their women exchanged natural relations for unnatural ones. In the same way the men also abandoned natural relations with women and were inflamed with lust for one another. Men committed shameful acts with other men, and received in themselves the due penalty for their error.",
    pv "1CO 6:9-11" "Do you not know that the wicked will not inherit the kingdom of God? Do not be deceived: Neither the sexually immoral, nor idolaters, nor adulterers, nor men who have sex with men, nor thieves, nor the greedy, nor drunkards, nor slanderers, nor swindlers will inherit the kingdom of God. And that is what some of you were. But you were washed, you were sanctified, you were justified in the name of the Lord Jesus Christ and by the Spirit of our God.",
    pv "1TI 1:9-10" "We also know that the law is made not for the righteous but for lawbreakers and rebels, the ungodly and sinful, the unholy and irreligious, for those who kill their fathers or mothers, for murderers, for the sexually immoral, for those practicing homosexuality, for slave traders and liars and perjurers—and for whatever else is contrary to the sound doctrine."]
  excludePatterns := ["pharisee", "hypocrit", "woe to you", "eunuch", "genealogy", "1ch 6", "scribe", "daughter of zion", "babylon", "jer 50", "mic 4"]

def blasphemyGuard : TopicGuard where
  keywords := ["blasphemy", "blaspheme", "take lords name in vain", "curse god", "speak against holy spirit", "unforgivable sin"]
  priority := [
    pv "EXO 20:7" "You shall not take the name of the LORD your God in vain, for the LORD will not hold anyone guiltless who misuses his name.",
    pv "LEV 24:16" "Anyone who blasphemes the name of the LORD is to be put to death. The entire assembly must stone them. Whether foreigner or native-born, when they blaspheme the Name they are to be put to death.",
    pv "MAT 12:31-32" "And so I tell you, every kind of sin and slander can be forgiven, but blasphemy against the Spirit will not be forgiven. Anyone who speaks a word against the Son of Man will be forgiven, but anyone who speaks against the Holy Spirit will not be forgiven, either in this age or in the age to come.",
    pv "MAR 3:28-29" "Truly I tell you, people can be forgiven all their sins and every slander they utter, but whoever blasphemes against the Holy Spirit will never be forgiven; they are guilty of an eternal sin."]
  excludePatterns := ["praise", "worship", "glorify"]

def sexualImmoralityGuard : TopicGuard where
  keywords := ["porn", "pornography", "lust", "fornication", "sexual immorality", "sexually immoral", "porneia", "masturbation", "adultery in heart"]
  priority := [
    pv "MAT 5:27-28" "You have heard that it was said, ‘You shall not commit adultery.’ But I tell you that anyone who looks at a woman lustfully has already committed adultery with her in his heart.",
    pv "1CO 6:18" "Flee from sexual immorality. All other sins a person commits are outside the body, but whoever sins sexually, sins against their own body.",
    pv "EPH 5:3" "But among you there must not be even a hint of sexual immorality, or of any kind of impurity, or of greed, because these are improper for God’s holy people.",
    pv "GAL 5:19" "The acts of the flesh are obvious: sexual immorality, impurity and debauchery;",
    pv "COL 3:5" "Put to death, therefore, whatever belongs to your earthly nature: sexual immorality, impurity, lust, evil desires and greed, which is idolatry.",
    pv "1TH 4:3" "It is God’s will that you should be sanctified: that you should avoid sexual immorality;",
    pv "HEB 13:4" "Marriage should be honored by all, and the marriage bed kept pure, for God will judge the adulterer and all the sexually immoral."]
  excludePatterns := ["song of solomon", "song of songs", "romantic", "marriage bed"]

/-- `TOPIC_GUARDS`, in object-key declaration order. -/
def topicGuards : List TopicGuard :=
  [murderGuard, lyingGuard, theftGuard, adulteryGuard, idolatryGuard,
   divorceGuard, feminismGuard, homosexualityGuard, blasphemyGuard,
   sexualImmoralityGuard]

/-! ## Curated topical lists (`CURATED_TOPICAL_LISTS` in `retrieval.ts`) -/

/-- Curated topical list configuration. -/
structure CuratedTopicalList where
  keywords : List String
  verses : List VerseContext
  deriving Repr

def womenList : CuratedTopicalList where
  keywords := ["women in bible", "women in the bible", "biblical women", "heroic women", "women of the bible", "strong women bible"]
  verses := [
    pv "LUK 1:26-28" "In the sixth month, God sent the angel Gabriel to a town in Galilee called Nazareth, to a virgin pledged in marriage to a man named Joseph, of the house of David. The virgin’s name was Mary. The angel went to her and said, “Greetings, you who are highly favored! The Lord is with you.”",
    pv "LUK 1:46-49" "Then Mary said: “My soul magnifies the Lord, and my spirit rejoices in God my Savior! For He has looked with favor on the humble state of His servant. From now on all generations will call me blessed. For the Mighty One has done great things for me. Holy is His name.\"",
    pv "JDG 4:4" "Now Deborah, a prophetess, the wife of Lappidoth, was judging Israel at that time.",
    pv "JDG 5:7" "Life in the villages ceased; it ended in Israel, until I, Deborah, arose, a mother in Israel.",
    pv "JDG 4:21" "But as he lay sleeping from exhaustion, Heber’s wife Jael took a tent peg, grabbed a hammer, and went silently to Sisera. She drove the peg through his temple and into the ground, and he died.",
    pv "RUT 1:16-17" "But Ruth replied: “Do not urge me to leave you or to turn from following you. For wherever you go, I will go, and wherever you live, I will live; your people will be my people, and your God will be my God. Where you die, I will die, and there I will be buried. May the LORD punish me, and ever so severely, if anything but death separates you and me.”",
    pv "EST 4:14" "For if you remain silent at this time, relief and deliverance for the Jews will arise from another place, but you and your father’s house will perish. And who knows if perhaps you have come to the kingdom for such a time as this?”",
    pv "EST 4:16" "“Go and assemble all the Jews who can be found in Susa, and fast for me. Do not eat or drink for three days, night or day, and I and my maidens will fast as you do. After that, I will go to the king, even though it is against the law. And if I perish, I perish!”",
    pv "PRO 31:10" "A wife of noble character, who can find? She is far more precious than rubies.",
    pv "PRO 31:25-26" "Strength and honor are her clothing, and she can laugh at the days to come. She opens her mouth with wisdom, and faithful instruction is on her tongue.",
    pv "PRO 31:30" "Charm is deceptive and beauty is fleeting, but a woman who fears the LORD is to be praised.",
    pv "HEB 11:11" "By faith even Sarah herself received ability to conceive, even beyond the proper time of life, since she regarded Him faithful who had promised.",
    pv "1SA 1:27-28" "I prayed for this boy, and since the LORD has granted me what I asked of Him, I now dedicate the boy to the LORD. For as long as he lives, he is dedicated to the LORD.”",
    pv "1SA 2:1-2" "At that time Hannah prayed: “My heart rejoices in the LORD, in whom my horn is exalted. My mouth speaks boldly against my enemies, for I rejoice in Your salvation. There is no one holy like the LORD. Indeed, there is no one besides You! And there is no Rock like our God.",
    pv "GAL 3:28" "There is neither Jew nor Greek, slave nor free, male nor female, for you are all one in Christ Jesus.",
    pv "EPH 5:22-25" "Wives, submit to your husbands as to the Lord. For the husband is the head of the wife as Christ is the head of the church, His body, of which He is the Savior. Now as the church submits to Christ, so also wives should submit to their husbands in everything. Husbands, love your wives, just as Christ loved the church and gave Himself up for her",
    pv "EPH 5:33" "Nevertheless, each one of you also must love his wife as he loves himself, and the wife must respect her husband.",
    pv "COL 3:18-19" "Wives, submit to your husbands, as is fitting in the Lord. Husbands, love your wives and do not be harsh with them."]

def canaaniteConquestList : CuratedTopicalList where
  keywords := [
    "canaanite", "amorite", "hittite", "perizzite", "hivite", "jebusite", "amalekite", "girgashite",
    "conquest of canaan", "destroy the canaanites", "utterly destroy", "devote to destruction", "herem",
    "genocide", "why did god kill the canaanites", "why did god command to kill", "god commanded genocide",
    "is the conquest genocide", "god evil for killing canaanites", "justify the destruction of canaan"]
  verses := [
    pv "GEN 15:16" "In the fourth generation your descendants will return here, for the iniquity of the Amorites is not yet complete.",
    pv "GEN 15:18-21" "On that day the LORD made a covenant with Abram, saying, “To your descendants I have given this land—from the river of Egypt to the great River Euphrates— the land of the Kenites, Kenizzites, Kadmonites, Hittites, Perizzites, Rephaites, Amorites, Canaanites, Girgashites, and Jebusites.”",
    pv "LEV 18:24-30" "Do not defile yourselves by any of these practices, for by all these things the nations I am driving out before you have defiled themselves. Even the land has become defiled, so I am punishing it for its sin, and the land will vomit out its inhabitants... For the men who were in the land before you committed all these abominations, and the land has become defiled. So if you defile the land, it will vomit you out as it spewed out the nations before you... You must keep My charge not to practice any of the abominable customs that were practiced before you...",
    pv "DEU 12:31" "You must not worship the LORD your God in this way, because they practice for their gods every abomination which the LORD hates. They even burn their sons and daughters in the fire as sacrifices to their gods.",
    pv "DEU 18:9-12" "When you enter the land that the LORD your God is giving you, do not imitate the detestable ways of the nations there. Let no one be found among you who sacrifices his son or daughter in the fire, practices divination or conjury, interprets omens, practices sorcery, casts spells, consults a medium or spiritist, or inquires of the dead. For whoever does these things is detestable to the LORD. And because of these detestable things, the LORD your God is driving out the nations before you.",
    pv "DEU 7:1-5" "When the LORD your God brings you into the land that you are entering to possess, and He drives out before you many nations... then you must devote them to complete destruction. Make no treaty with them and show them no mercy. Do not intermarry with them... properly: tear down their altars, smash their sacred pillars, cut down their Asherah poles, and burn their idols in the fire.",
    pv "DEU 9:4-5" "When the LORD your God has driven them out before you, do not say in your heart, “Because of my righteousness the LORD has brought me in to possess this land.” Rather, the LORD is driving out these nations before you because of their wickedness. It is not because of your righteousness or uprightness of heart... but it is because of their wickedness that the LORD your God is driving out these nations before you, to keep the promise He swore to your fathers, to Abraham, Isaac, and Jacob.",
    pv "DEU 20:16-18" "However, in the cities of the nations that the LORD your God is giving you as an inheritance, you must not leave alive anything that breathes. For you must devote them to complete destruction... as the LORD your God has commanded you, so that they cannot teach you to do all the detestable things they do for their gods, and so cause you to sin against the LORD your God.",
    pv "JOS 6:17-21" "Now the city and everything in it must be devoted to the LORD for destruction... So the people shouted, and the trumpets were blown... and the wall fell down flat, so that the people went up into the city... and they captured the city. Then they devoted to destruction everything in the city—man and woman, young and old, oxen, sheep, and donkeys—with the edge of the sword.",
    pv "1SA 15:2-3" "This is what the LORD of Hosts says: ‘I witnessed what the Amalekites did to the Israelites when they opposed them on their way up from Egypt. Now go and attack the Amalekites and devote to destruction all that belongs to them. Do not spare them, but put to death men and women, children and infants, oxen and sheep, camels and donkeys.’",
    pv "MAT 26:52" "“Put your sword back in its place,” Jesus said to him. “For all who draw the sword will die by the sword.\""]

/-- `CURATED_TOPICAL_LISTS`, with its object keys, in declaration order. -/
def curatedTopicalLists : List (String × CuratedTopicalList) :=
  [("women", womenList), ("canaanite_conquest", canaaniteConquestList)]

/-! ## Guard and curated stages -/

/-- Inner loop of `applyCuratedTopicalLists`: first matching list wins. -/
def applyCuratedAux (normalizedQuery : String) (verses : List VerseContext) :
    List (String × CuratedTopicalList) → List VerseContext
  | [] => verses
  | (key, list) :: rest =>
    if list.keywords.any (fun k => strContains normalizedQuery k) then
      if key = "canaanite_conquest" then
        list.verses
      else
        let curatedRefs := list.verses.map (·.reference)
        list.verses ++ verses.filter (fun v => ¬ curatedRefs.contains v.reference)
    else applyCuratedAux normalizedQuery verses rest

/-- `applyCuratedTopicalLists(query, verses)` from `retrieval.ts`. -/
def applyCuratedTopicalLists (query : String) (verses : List VerseContext) : List VerseContext :=
  applyCuratedAux (jsToLower query) verses curatedTopicalLists

/-- Push each verse of `vs` onto `acc` unless a verse with the same reference
is already queued (the `forEach` push loops inside `applyTopicGuards`). -/
def dedupAppend (acc : List VerseContext) (vs : List VerseContext) : List VerseContext :=
  vs.foldl (fun a v => if a.any (fun w => w.reference = v.reference) then a else a ++ [v]) acc

/-- The guards whose keyword set matches the lower-cased query. -/
def firedGuards (query : String) : List TopicGuard :=
  topicGuards.filter (fun g => g.keywords.any (fun k => strContains (jsToLower query) k))

/-- One guard's contribution to the priority prefix: its `priority` verses,
then its `conditionalPriority` verses, each deduplicated by reference. -/
def guardStep (query : String) (acc : List VerseContext) (g : TopicGuard) :
    List VerseContext :=
  let acc' := dedupAppend acc g.priority
  match g.conditionalPriority with
  | some f => dedupAppend acc' (f query)
  | none => acc'

/-- The merged priority verses of all fired guards: for each fired guard in
declaration order, its `priority` then its `conditionalPriority` results,
deduplicated by reference against everything queued earlier. -/
def mergedPriority (query : String) : List VerseContext :=
  (firedGuards query).foldl (guardStep query) []

/-- The union of the exclusion patterns of all fired guards. -/
def combinedExclusions (query : String) : List String :=
  (firedGuards query).foldl (fun acc g => acc ++ g.excludePatterns) []

/-- The retrieved verses that survive the guard pass: not already queued as a
priority verse, and not matching any exclusion pattern. -/
def guardSurvivors (query : String) (verses : List VerseContext) : List VerseContext :=
  let priorityRefs := (mergedPriority query).map (·.reference)
  verses.filter (fun v =>
    let lowerText := jsToLower v.text
    ¬ priorityRefs.contains v.reference
      && ¬ (combinedExclusions query).any (fun p => strContains lowerText p))

/-- `applyTopicGuards(query, verses)` from `retrieval.ts`. -/
def applyTopicGuards (query : String) (verses : List VerseContext) : List VerseContext :=
  if (mergedPriority query).length = 0 && (combinedExclusions query).length = 0 then
    verses
  else
    mergedPriority query ++ guardSurvivors query verses

/-! ## Reference extractor (`extractDirectReferences` in `retrieval.ts`)

The source matches the global regex
`\b(Gen|Exo|...|Rev)[a-z]*\s+(\d+)\s*:\s*(\d+)(?:\s*-\s*(\d+))?\b`
repeatedly over the query.  The scanner below reproduces `RegExp.exec`
semantics for this particular pattern.  Backtracking across alternatives is
not needed: two distinct alternatives matching at the same position must be
prefix-comparable, the only such pair is `Phil`/`Philemon`, and the trailing
`[a-z]*` run makes both consume the same span with the same 3-letter code.
Backtracking into the greedy `[a-z]*`, `\s+` and `\d+` runs is impossible
because each is followed by a disjoint character class; the one real
backtracking point, the optional `(?:\s*-\s*(\d+))?` group before the final
`\b`, is modelled explicitly. -/

/-- A parsed direct reference. -/
structure ParsedRef where
  book : String
  chapter : Nat
  verse : Nat
  endVerse : Option Nat := none
  deriving Repr, DecidableEq

/-- The regex alternatives for book names, in source order. -/
def bookAlts : List String :=
  ["Gen", "Exo", "Lev", "Num", "Deu", "Jos", "Jdg", "Rut", "Sa", "Ki", "Ch",
   "Ezr", "Neh", "Est", "Job", "Ps", "Pro", "Ecc", "Song", "Isa", "Jer",
   "Lam", "Ezk", "Dan", "Hos", "Joel", "Amos", "Obad", "Jonah", "Mic",
   "Nahum", "Hab", "Zeph", "Hag", "Zech", "Mal", "Matt", "Mark", "Luke",
   "John", "Rom", "Cor", "Gal", "Eph", "Phil", "Col", "Thess", "Tim",
   "Titus", "Philemon", "Heb", "James", "Pet", "John", "Jude", "Rev"]

/-- The abbreviation-to-canonical-code table (`bookMap` in the source). -/
def bookMapLookup (bookRaw : String) : Option String :=
  (([("GEN", "GEN"), ("EXO", "EXO"), ("LEV", "LEV"), ("NUM", "NUM"),
     ("DEU", "DEU"), ("JOS", "JOS"), ("JDG", "JDG"), ("RUT", "RUT"),
     ("SA", "1SA"), ("KI", "1KI"), ("CH", "1CH"), ("Psa", "PSA"),
     ("PSA", "PSA"), ("PRO", "PRO"), ("ISA", "ISA"), ("MAT", "MAT"),
     ("MAR", "MRK"), ("LUK", "LUK"), ("JOH", "JHN"), ("ROM", "ROM"),
     ("COR", "1CO"), ("GAL", "GAL"), ("EPH", "EPH"), ("PHI", "PHP"),
     ("COL", "COL"), ("THE", "1TH"), ("TIM", "1TI"), ("HEB", "HEB"),
     ("JAM", "JAS"), ("PET", "1PE"), ("REV", "REV")] :
    List (String × String)).find? (fun p => p.1 = bookRaw)).map (·.2)

/-- Strip an exact word from the head of the input. -/
def stripWord : List Char → List Char → Option (List Char)
  | [], l => some l
  | _ :: _, [] => none
  | p :: ps, c :: cs => if p = c then stripWord ps cs else none

/-- Try the book alternatives in order; return the matched alternative and
the remaining input. -/
def findAlt : List String → List Char → Option (String × List Char)
  | [], _ => none
  | a :: as, cs =>
    match stripWord a.data cs with
    | some rest => some (a, rest)
    | none => findAlt as cs

/-- `parseInt` on a digit run. -/
def digitsToNat (ds : List Char) : Nat :=
  ds.foldl (fun a c => a * 10 + (c.toNat - 48)) 0

/-- The final `\b` of the pattern: the previous character is a digit, so the
boundary holds exactly when the input ends or continues with a non-word
character. -/
def boundaryAfterDigit (rest : List Char) : Bool :=
  match rest with
  | [] => true
  | c :: _ => ¬ wordChar c

/-- Build the parsed reference from the captured groups: the book code is the
first three characters of the matched alternative, upper-cased, sent through
the abbreviation table. -/
def mkParsed (alt : String) (chd vd : List Char) (endv : Option Nat) : ParsedRef :=
  let bookRaw : String := String.mk ((alt.data.take 3).map Char.toUpper)
  { book := (bookMapLookup bookRaw).getD bookRaw
    chapter := digitsToNat chd
    verse := digitsToNat vd
    endVerse := endv }

/-- The optional `(?:\\s*-\\s*(\\d+))?` group (its leading `\\s*` already
consumed), followed by the final `\\b`. -/
def matchEndGroup (alt : String) (chd vd : List Char) :
    List Char → Option (ParsedRef × List Char)
  | '-' :: r7 =>
    let r8 := r7.dropWhile wsChar
    let ed := r8.takeWhile Char.isDigit
    let r9 := r8.dropWhile Char.isDigit
    if ed.isEmpty then none
    else if boundaryAfterDigit r9 then
      some (mkParsed alt chd vd (some (digitsToNat ed)), r9)
    else none
  | _ => none

/-- After the verse digits: first try to take the optional end-verse group,
otherwise close the match at the verse digits (regex backtracking on the
optional group). -/
def matchEnd (alt : String) (chd vd : List Char) (r6 : List Char) :
    Option (ParsedRef × List Char) :=
  match matchEndGroup alt chd vd (r6.dropWhile wsChar) with
  | some res => some res
  | none =>
    if boundaryAfterDigit r6 then some (mkParsed alt chd vd none, r6) else none

/-- After the colon and its trailing whitespace: the verse digits. -/
def matchVerse (alt : String) (chd : List Char) (r5 : List Char) :
    Option (ParsedRef × List Char) :=
  let vd := r5.takeWhile Char.isDigit
  if vd.isEmpty then none else matchEnd alt chd vd (r5.dropWhile Char.isDigit)

/-- After the chapter digits: optional whitespace, a colon, optional
whitespace, then the verse. -/
def matchColon (alt : String) (chd : List Char) (r4 : List Char) :
    Option (ParsedRef × List Char) :=
  match r4.dropWhile wsChar with
  | ':' :: r5 => matchVerse alt chd (r5.dropWhile wsChar)
  | _ => none

/-- After the matched book alternative: the lowercase run, at least one
whitespace character, then the chapter digits. -/
def matchAfterName (alt : String) (r1 : List Char) : Option (ParsedRef × List Char) :=
  match r1.dropWhile Char.isLower with
  | [] => none
  | c :: r2 =>
    if ¬ wsChar c then none
    else
      let r3 := (c :: r2).dropWhile wsChar
      let chd := r3.takeWhile Char.isDigit
      if chd.isEmpty then none else matchColon alt chd (r3.dropWhile Char.isDigit)

/-- Attempt to match the reference pattern at the head of the input (the
leading word boundary is handled by the scanner).  Returns the parsed
reference and the unconsumed input. -/
def tryMatch (cs : List Char) : Option (ParsedRef × List Char) :=
  match findAlt bookAlts cs with
  | none => none
  | some (alt, r1) => matchAfterName alt r1

theorem length_dropWhile_le (p : Char → Bool) (l : List Char) :
    (l.dropWhile p).length ≤ l.length := by
  induction l with
  | nil => simp [List.dropWhile]
  | cons c cs ih =>
    simp only [List.dropWhile]
    split
    · exact Nat.le_succ_of_le ih
    · exact Nat.le_refl _

theorem stripWord_length {p l r : List Char} (h : stripWord p l = some r) :
    r.length + p.length = l.length := by
  induction p generalizing l with
  | nil =>
    simp [stripWord] at h
    simp [h]
  | cons a as ih =>
    match l with
    | [] => simp [stripWord] at h
    | c :: cs =>
      simp only [stripWord] at h
      split at h
      · have := ih h
        simp only [List.length_cons]
        omega
      · exact absurd h (by simp)

theorem findAlt_spec {alts : List String} {cs : List Char} {a : String}
    {r : List Char} (h : findAlt alts cs = some (a, r)) :
    a ∈ alts ∧ stripWord a.data cs = some r := by
  induction alts with
  | nil => simp [findAlt] at h
  | cons x xs ih =>
    simp only [findAlt] at h
    split at h
    · next heq =>
      cases h
      exact ⟨List.mem_cons_self _ _, heq⟩
    · have := ih h
      exact ⟨List.mem_cons_of_mem _ this.1, this.2⟩

theorem bookAlts_nonempty : ∀ a ∈ bookAlts, a.data ≠ [] := by decide

theorem matchEndGroup_rest_le {alt : String} {chd vd t rest : List Char}
    {r : ParsedRef} (h : matchEndGroup alt chd vd t = some (r, rest)) :
    rest.length ≤ t.length := by
  unfold matchEndGroup at h
  split at h
  · next r7 =>
    simp only at h
    split at h
    · exact absurd h (by simp)
    · split at h
      · cases h
        have h1 := length_dropWhile_le wsChar r7
        have h2 := length_dropWhile_le Char.isDigit (r7.dropWhile wsChar)
        simp only [List.length_cons]
        omega
      · exact absurd h (by simp)
  · exact absurd h (by simp)

theorem matchEnd_rest_le {alt : String} {chd vd r6 rest : List Char}
    {r : ParsedRef} (h : matchEnd alt chd vd r6 = some (r, rest)) :
    rest.length ≤ r6.length := by
  unfold matchEnd at h
  split at h
  · next res hres =>
    cases h
    have h1 := matchEndGroup_rest_le hres
    have h2 := length_dropWhile_le wsChar r6
    omega
  · split at h
    · cases h
      exact Nat.le_refl _
    · exact absurd h (by simp)

theorem matchVerse_rest_le {alt : String} {chd r5 rest : List Char}
    {r : ParsedRef} (h : matchVerse alt chd r5 = some (r, rest)) :
    rest.length ≤ r5.length := by
  unfold matchVerse at h
  simp only at h
  split at h
  · exact absurd h (by simp)
  · have h1 := matchEnd_rest_le h
    have h2 := length_dropWhile_le Char.isDigit r5
    omega

theorem matchColon_rest_le {alt : String} {chd r4 rest : List Char}
    {r : ParsedRef} (h : matchColon alt chd r4 = some (r, rest)) :
    rest.length ≤ r4.length := by
  unfold matchColon at h
  split at h
  · next r5 hcol =>
    have h1 := matchVerse_rest_le h
    have h2 := length_dropWhile_le wsChar r4
    have h3 := length_dropWhile_le wsChar r5
    have h4 : r5.length + 1 = (r4.dropWhile wsChar).length := by
      rw [hcol]
      simp
    omega
  · exact absurd h (by simp)

theorem matchAfterName_rest_le {alt : String} {r1 rest : List Char}
    {r : ParsedRef} (h : matchAfterName alt r1 = some (r, rest)) :
    rest.length ≤ r1.length := by
  unfold matchAfterName at h
  split at h
  · exact absurd h (by simp)
  · next c r2 hr2 =>
    split at h
    · exact absurd h (by simp)
    · simp only at h
      split at h
      · exact absurd h (by simp)
      · have h1 := matchColon_rest_le h
        have h2 := length_dropWhile_le Char.isDigit ((c :: r2).dropWhile wsChar)
        have h3 := length_dropWhile_le wsChar (c :: r2)
        have h4 : (c :: r2).length ≤ r1.length := by
          rw [← hr2]
          exact length_dropWhile_le Char.isLower r1
        simp only [List.length_cons] at h3 h4
        omega

theorem tryMatch_rest_lt {cs rest : List Char} {r : ParsedRef}
    (h : tryMatch cs = some (r, rest)) : rest.length < cs.length := by
  unfold tryMatch at h
  split at h
  · exact absurd h (by simp)
  · next alt r1 hfa =>
    obtain ⟨hmem, hstrip⟩ := findAlt_spec hfa
    have halt : alt.data ≠ [] := bookAlts_nonempty alt hmem
    have hlen := stripWord_length hstrip
    have haltpos : 0 < alt.data.length := by
      cases hd : alt.data with
      | nil => exact absurd hd halt
      | cons x xs => simp [hd]
    have h1 := matchAfterName_rest_le h
    omega

/-- The `exec` loop: walk the input; at each position where the previous
character is not a word character, attempt a match; on success emit the
reference and resume after the consumed span (whose last character is a
digit, hence a word character).  The `fuel` argument, initialised to the
input length, only makes the recursion structural: `tryMatch` consumes at
least one character, so fuel never actually runs out. -/
def scanRefsAux : Nat → Bool → List Char → List ParsedRef
  | 0, _, _ => []
  | _ + 1, _, [] => []
  | fuel + 1, true, c :: rest => scanRefsAux fuel (wordChar c) rest
  | fuel + 1, false, c :: rest =>
    match tryMatch (c :: rest) with
    | some (r, rest2) => r :: scanRefsAux fuel true rest2
    | none => scanRefsAux fuel (wordChar c) rest

/-- Any fuel at least the input length gives the same scan result. -/
theorem scanRefsAux_nil (n : Nat) (pw : Bool) : scanRefsAux n pw [] = [] := by
  cases n with
  | zero => rfl
  | succ n =>
    cases pw with
    | true => rfl
    | false => rfl

theorem scanRefsAux_fuel : ∀ (n m : Nat) (pw : Bool) (cs : List Char),
    cs.length ≤ n → cs.length ≤ m → scanRefsAux n pw cs = scanRefsAux m pw cs := by
  intro n
  induction n using Nat.strong_induction_on with
  | _ n ih =>
    intro m pw cs hn hm
    cases cs with
    | nil => rw [scanRefsAux_nil, scanRefsAux_nil]
    | cons c rest =>
      simp only [List.length_cons] at hn hm
      cases n with
      | zero => omega
      | succ n =>
        cases m with
        | zero => omega
        | succ m =>
          cases pw with
          | true =>
            simp only [scanRefsAux]
            exact ih n (Nat.lt_succ_self n) m (wordChar c) rest (by omega) (by omega)
          | false =>
            simp only [scanRefsAux]
            cases htm : tryMatch (c :: rest) with
            | none =>
              exact ih n (Nat.lt_succ_self n) m (wordChar c) rest (by omega) (by omega)
            | some pr =>
              obtain ⟨r, rest2⟩ := pr
              have hlt := tryMatch_rest_lt htm
              simp only [List.length_cons] at hlt
              exact congrArg (List.cons r)
                (ih n (Nat.lt_succ_self n) m true rest2 (by omega) (by omega))

/-- `extractDirectReferences(query)` from `retrieval.ts`. -/
def extractDirectReferences (query : String) : List ParsedRef :=
  scanRefsAux query.data.length false query.data

/-! ## Decimal rendering of numbers (JS template-literal interpolation) -/

/-- The decimal digit character for `d < 10`. -/
def digitChar : Nat → Char
  | 0 => '0' | 1 => '1' | 2 => '2' | 3 => '3' | 4 => '4'
  | 5 => '5' | 6 => '6' | 7 => '7' | 8 => '8' | 9 => '9'
  | _ => '*'

/-- Fuel-driven most-significant-first digit accumulation (structural, so it
evaluates in the kernel). -/
def natDigitsF : Nat → Nat → List Char → List Char
  | 0, _, acc => acc
  | f + 1, n, acc =>
    if n = 0 then acc else natDigitsF f (n / 10) (digitChar (n % 10) :: acc)

/-- The decimal digits of `n` (`['0']` for zero). -/
def natDigits (n : Nat) : List Char :=
  if n = 0 then ['0'] else natDigitsF n n []

/-- JS `String(n)` for a nonnegative integer. -/
def natToString (n : Nat) : String := String.mk (natDigits n)

/-- Reference list of digits, used only in proofs. -/
def natDigitsCore (n : Nat) : List Char :=
  if h : n = 0 then [] else natDigitsCore (n / 10) ++ [digitChar (n % 10)]
decreasing_by exact Nat.div_lt_self (Nat.pos_of_ne_zero h) (by decide)

theorem natDigitsF_eq (f : Nat) : ∀ (n : Nat) (acc : List Char), n ≤ f →
    natDigitsF f n acc = natDigitsCore n ++ acc := by
  induction f with
  | zero =>
    intro n acc h
    have : n = 0 := Nat.le_zero.mp h
    subst this
    rw [natDigitsCore]
    simp [natDigitsF]
  | succ f ih =>
    intro n acc h
    by_cases h0 : n = 0
    · subst h0
      rw [natDigitsCore]
      simp [natDigitsF]
    · rw [natDigitsCore]
      simp only [natDigitsF, h0, if_neg, dif_neg]
      rw [ih (n / 10) _ ?_]
      · simp
      · have h1 : n / 10 < n := Nat.div_lt_self (Nat.pos_of_ne_zero h0) (by decide)
        omega

theorem digitChar_toNat {d : Nat} (h : d < 10) : (digitChar d).toNat = 48 + d := by
  interval_cases d <;> rfl

theorem digitChar_isDigit {d : Nat} (h : d < 10) : (digitChar d).isDigit = true := by
  interval_cases d <;> rfl

theorem digitsToNat_append_digit (l : List Char) (c : Char) :
    digitsToNat (l ++ [c]) = digitsToNat l * 10 + (c.toNat - 48) := by
  simp [digitsToNat, List.foldl_append]

theorem digitsToNat_natDigitsCore (n : Nat) : digitsToNat (natDigitsCore n) = n := by
  induction n using Nat.strong_induction_on with
  | _ n ih =>
    by_cases h0 : n = 0
    · subst h0
      rw [natDigitsCore]
      simp [digitsToNat]
    · rw [natDigitsCore, dif_neg h0]
      rw [digitsToNat_append_digit]
      have hd : n % 10 < 10 := Nat.mod_lt _ (by decide)
      rw [ih (n / 10) (Nat.div_lt_self (Nat.pos_of_ne_zero h0) (by decide))]
      rw [digitChar_toNat hd]
      omega

theorem natDigitsCore_isDigit (n : Nat) :
    ∀ c ∈ natDigitsCore n, c.isDigit = true := by
  induction n using Nat.strong_induction_on with
  | _ n ih =>
    intro c hc
    by_cases h0 : n = 0
    · subst h0
      rw [natDigitsCore] at hc
      simp at hc
    · rw [natDigitsCore, dif_neg h0] at hc
      simp only [List.mem_append, List.mem_singleton] at hc
      rcases hc with hc | hc
      · exact ih (n / 10) (Nat.div_lt_self (Nat.pos_of_ne_zero h0) (by decide)) c hc
      · subst hc
        exact digitChar_isDigit (Nat.mod_lt _ (by decide))

theorem natDigits_eq (n : Nat) : natDigits n = if n = 0 then ['0'] else natDigitsCore n := by
  unfold natDigits
  by_cases h0 : n = 0
  · simp [h0]
  · simp only [h0, if_neg]
    exact natDigitsF_eq n n [] (Nat.le_refl n) |>.trans (by simp)

theorem natDigits_isDigit (n : Nat) : ∀ c ∈ natDigits n, c.isDigit = true := by
  rw [natDigits_eq]
  by_cases h0 : n = 0
  · intro c hc
    simp only [h0, if_pos, List.mem_singleton] at hc
    subst hc
    rfl
  · simp only [h0, if_neg]
    exact natDigitsCore_isDigit n

theorem natDigits_ne_nil (n : Nat) : natDigits n ≠ [] := by
  rw [natDigits_eq]
  by_cases h0 : n = 0
  · simp [h0]
  · simp only [h0, if_neg]
    rw [natDigitsCore, dif_neg h0]
    simp

theorem digitsToNat_natDigits (n : Nat) : digitsToNat (natDigits n) = n := by
  rw [natDigits_eq]
  by_cases h0 : n = 0
  · subst h0
    rfl
  · simp only [h0, if_neg]
    exact digitsToNat_natDigitsCore n

/-! ## Reference keys and the TSK key parser -/

/-- A `(book, chapter, verse)` key. -/
structure RefKey where
  book : String
  chapter : Nat
  verse : Nat
  deriving Repr, DecidableEq

/-- The canonical reference string built by the source as
`` `${book} ${chapter}:${verse}` ``. -/
def refString (k : RefKey) : String :=
  k.book ++ " " ++ natToString k.chapter ++ ":" ++ natToString k.verse

/-- The character class `[A-Z0-9]` under the `i` flag. -/
def bookChar (c : Char) : Bool := c.isAlpha || c.isDigit

/-- `parseReferenceKey` from `getTskCrossReferences`: the anchored regex
`^([A-Z0-9]{3})\s+(\d+):(\d+)` with the `i` flag, on the trimmed reference,
upper-casing the book. -/
def parseReferenceKey (reference : String) : Option RefKey :=
  match (jsTrim reference).data with
  | c1 :: c2 :: c3 :: rest =>
    if bookChar c1 && bookChar c2 && bookChar c3 then
      match rest with
      | [] => none
      | d :: _ =>
        if ¬ wsChar d then none
        else
          let r1 := rest.dropWhile wsChar
          let chd := r1.takeWhile Char.isDigit
          if chd.isEmpty then none
          else
            match r1.dropWhile Char.isDigit with
            | ':' :: r2 =>
              let vd := r2.takeWhile Char.isDigit
              if vd.isEmpty then none
              else
                some ⟨String.mk ([c1, c2, c3].map Char.toUpper),
                  digitsToNat chd, digitsToNat vd⟩
            | _ => none
    else none
  | _ => none

/-- Well-formed store book code: exactly three characters, each an
upper-case letter or digit (as produced by the seeding scripts). -/
def goodBook (b : String) : Bool :=
  b.data.length = 3 && b.data.all (fun c => bookChar c && Char.toUpper c = c)

theorem bookChar_not_ws {c : Char} (h : bookChar c = true) : wsChar c = false := by
  simp only [bookChar, Bool.or_eq_true] at h
  rcases h with h | h
  · simp only [Char.isAlpha, Char.isUpper, Char.isLower, Bool.or_eq_true,
      Bool.and_eq_true, decide_eq_true_eq] at h
    simp only [wsChar]
    rcases h with ⟨h1, h2⟩ | ⟨h1, h2⟩ <;>
      · refine Bool.or_eq_false_iff.mpr ⟨Bool.or_eq_false_iff.mpr
          ⟨Bool.or_eq_false_iff.mpr ⟨?_, ?_⟩, ?_⟩, ?_⟩ <;>
        · simp only [decide_eq_false_iff_not]
          intro hc
          subst hc
          simp_all
  · simp only [Char.isDigit, Bool.and_eq_true, decide_eq_true_eq] at h
    simp only [wsChar]
    refine Bool.or_eq_false_iff.mpr ⟨Bool.or_eq_false_iff.mpr
      ⟨Bool.or_eq_false_iff.mpr ⟨?_, ?_⟩, ?_⟩, ?_⟩ <;>
    · simp only [decide_eq_false_iff_not]
      intro hc
      subst hc
      simp_all

theorem digit_not_ws {c : Char} (h : c.isDigit = true) : wsChar c = false := by
  simp only [Char.isDigit, Bool.and_eq_true, decide_eq_true_eq] at h
  simp only [wsChar]
  refine Bool.or_eq_false_iff.mpr ⟨Bool.or_eq_false_iff.mpr
    ⟨Bool.or_eq_false_iff.mpr ⟨?_, ?_⟩, ?_⟩, ?_⟩ <;>
  · simp only [decide_eq_false_iff_not]
    intro hc
    subst hc
    simp_all

theorem takeWhile_append_stop (p : Char → Bool) :
    ∀ (l : List Char) (c : Char) (t : List Char),
    (∀ x ∈ l, p x = true) → p c = false →
    (l ++ c :: t).takeWhile p = l ∧ (l ++ c :: t).dropWhile p = c :: t := by
  intro l
  induction l with
  | nil =>
    intro c t _ hc
    simp [List.takeWhile, List.dropWhile, hc]
  | cons x xs ih =>
    intro c t hl hc
    have hx : p x = true := hl x (List.mem_cons_self _ _)
    have := ih c t (fun y hy => hl y (List.mem_cons_of_mem _ hy)) hc
    simp [List.takeWhile, List.dropWhile, hx, this.1, this.2]

theorem takeWhile_all (p : Char → Bool) :
    ∀ (l : List Char), (∀ x ∈ l, p x = true) → l.takeWhile p = l := by
  intro l
  induction l with
  | nil => simp
  | cons x xs ih =>
    intro hl
    have hx : p x = true := hl x (List.mem_cons_self _ _)
    simp [List.takeWhile, hx, ih (fun y hy => hl y (List.mem_cons_of_mem _ hy))]

theorem dropWhile_cons_false (p : Char → Bool) (c : Char) (t : List Char)
    (hc : p c = false) : (c :: t).dropWhile p = c :: t := by
  simp [List.dropWhile, hc]

theorem string_append_data (a b : String) : (a ++ b).data = a.data ++ b.data := by
  cases a
  cases b
  rfl

/-- Round trip: a canonical reference string built from a well-formed book
code parses back to its key. -/
theorem parseReferenceKey_refString {k : RefKey} (hb : goodBook k.book = true) :
    parseReferenceKey (refString k) = some k := by
  obtain ⟨b, c, v⟩ := k
  simp only [goodBook, Bool.and_eq_true, decide_eq_true_eq, List.all_eq_true] at hb
  obtain ⟨hlen, hall⟩ := hb
  obtain ⟨b1, b2, b3, hb3⟩ := List.length_eq_three.mp hlen
  -- the character list of the rendered reference
  have hdata : (refString ⟨b, c, v⟩).data
      = b1 :: b2 :: b3 :: (' ' :: (natDigits c ++ ':' :: natDigits v)) := by
    simp only [refString, natToString]
    rw [string_append_data, string_append_data, string_append_data,
      string_append_data]
    simp [hb3]
  obtain ⟨dc, dcs, hdc⟩ : ∃ x xs, natDigits c = x :: xs := by
    cases hnc : natDigits c with
    | nil => exact absurd hnc (natDigits_ne_nil c)
    | cons x xs => exact ⟨x, xs, rfl⟩
  have hb1 : bookChar b1 = true ∧ Char.toUpper b1 = b1 := by
    have := hall b1 (by rw [hb3]; exact List.mem_cons_self _ _)
    exact ⟨this.1, this.2⟩
  have hb2 : bookChar b2 = true ∧ Char.toUpper b2 = b2 := by
    have := hall b2 (by rw [hb3]; simp)
    exact ⟨this.1, this.2⟩
  have hb3' : bookChar b3 = true ∧ Char.toUpper b3 = b3 := by
    have := hall b3 (by rw [hb3]; simp)
    exact ⟨this.1, this.2⟩
  -- trimming is the identity here
  obtain ⟨vl, ve, hve⟩ : ∃ l e, natDigits v = l ++ [e] := by
    rcases List.eq_nil_or_concat (natDigits v) with hnil | ⟨l, e, hle⟩
    · exact absurd hnil (natDigits_ne_nil v)
    · exact ⟨l, e, by simpa using hle⟩
  have hveMem : ve ∈ natDigits v := by
    rw [hve]
    simp
  have hsplit : b1 :: b2 :: b3 :: (' ' :: (natDigits c ++ ':' :: natDigits v))
      = (b1 :: b2 :: b3 :: (' ' :: (natDigits c ++ ':' :: vl))) ++ [ve] := by
    simp [hve]
  have htrim : (jsTrim (refString ⟨b, c, v⟩)).data
      = b1 :: b2 :: b3 :: (' ' :: (natDigits c ++ ':' :: natDigits v)) := by
    simp only [jsTrim, hdata]
    rw [dropWhile_cons_false _ _ _ (bookChar_not_ws hb1.1)]
    rw [hsplit, List.reverse_append, List.reverse_singleton, List.singleton_append]
    rw [dropWhile_cons_false _ _ _ (digit_not_ws (natDigits_isDigit v ve hveMem))]
    simp
  -- now evaluate the parser
  unfold parseReferenceKey
  rw [htrim]
  simp only [hb1.1, hb2.1, hb3'.1, Bool.and_self, if_pos]
  have hws : wsChar ' ' = true := by decide
  simp only [hws, not_true_eq_false, if_neg, Bool.not_true]
  have hX : (' ' :: (natDigits c ++ ':' :: natDigits v)).dropWhile wsChar
      = natDigits c ++ ':' :: natDigits v := by
    rw [List.dropWhile_cons_of_pos hws]
    rw [hdc]
    exact dropWhile_cons_false _ _ _
      (digit_not_ws (natDigits_isDigit c dc (by rw [hdc]; exact List.mem_cons_self _ _)))
  have hstop := takeWhile_append_stop Char.isDigit (natDigits c) ':' (natDigits v)
    (natDigits_isDigit c) (by decide)
  have hchd : (natDigits c ++ ':' :: natDigits v).takeWhile Char.isDigit
      = natDigits c := hstop.1
  have hdrop : (natDigits c ++ ':' :: natDigits v).dropWhile Char.isDigit
      = ':' :: natDigits v := hstop.2
  simp only [hX, hchd, hdrop]
  have hne : (natDigits c).isEmpty = false := by
    rw [hdc]; rfl
  simp only [hne, Bool.false_eq_true, if_neg, not_false_eq_true]
  have hvd : (natDigits v).takeWhile Char.isDigit = natDigits v :=
    takeWhile_all _ _ (natDigits_isDigit v)
  simp only [hvd]
  have hnev : (natDigits v).isEmpty = false := by
    obtain ⟨dv, dvs, hdv⟩ : ∃ y ys, natDigits v = y :: ys := by
      cases hnv : natDigits v with
      | nil => exact absurd hnv (natDigits_ne_nil v)
      | cons y ys => exact ⟨y, ys, rfl⟩
    rw [hdv]; rfl
  simp only [hnev, Bool.false_eq_true, if_neg, not_false_eq_true]
  have hbook : String.mk [b1.toUpper, b2.toUpper, b3.toUpper] = b := by
    rw [hb1.2, hb2.2, hb3'.2, ← hb3]
  simp [hbook, digitsToNat_natDigits]

/-! ## Store model -/

/-- A row of the `verses` relation; `hasEmbedding` models
`embedding IS NOT NULL`. -/
structure VerseRow where
  book : String
  chapter : Nat
  verse : Nat
  text : String
  translation : String
  hasEmbedding : Bool
  deriving Repr, DecidableEq

/-- A row of the `cross_references` relation (`votes` is nullable). -/
structure CrossRow where
  sourceBook : String
  sourceChapter : Nat
  sourceVerse : Nat
  targetBook : String
  targetChapter : Nat
  targetVerse : Nat
  votes : Option Int
  deriving Repr, DecidableEq

/-- The read-only corpus store. -/
structure Db where
  verses : List VerseRow
  crossRefs : List CrossRow
  deriving Repr

/-- Row-to-`VerseContext` conversion used by both store queries. -/
def rowToVerse (r : VerseRow) : VerseContext :=
  { reference := refString ⟨r.book, r.chapter, r.verse⟩
    translation := r.translation
    text := r.text
    original := [] }

/-! ## Effects, environment and the state-and-trace monad -/

/-- One observable external operation. -/
inductive Eff where
  | cacheGet (key : String)
  | cacheSet (key : String)
  | dbQuery
  | embedHttp
  | verseFetch
  | dictFetch
  | bollsFetch
  | genText
  deriving Repr, DecidableEq

/-- A value stored in the Redis cache (embedding vector or context snapshot). -/
inductive CacheVal where
  | emb (vec : List Rat)
  | ctx (verses : List VerseContext)
  deriving Repr

/-- A cache entry with its absolute expiry time. -/
structure CacheEntry where
  key : String
  expiresAt : Nat
  val : CacheVal

/-- Mutable state: the cache contents (later entries shadow earlier ones). -/
structure St where
  cache : List CacheEntry

def emptySt : St := ⟨[]⟩

/-- The first element of the embedding response body (`data[0]`): a numeric
vector, a list of vectors (token embeddings to be mean-pooled), or anything
else. -/
inductive EmbedRaw where
  | flat (v : List Rat)
  | nested (vs : List (List Rat))
  | other

/-- A Strong's dictionary entry (bundled JSON or the live dictionary
service); absent fields are `none`. -/
structure DictEntry where
  shortDefinition : Option String := none
  definition : Option String := none
  transliteration : Option String := none

/-- One verse of a bolls.life tagged chapter. -/
structure BollsVerse where
  verse : Nat
  text : String

/-- The environment: responses of every external collaborator, fixed for one
retrieval call. -/
structure Env where
  now : Nat
  cacheErr : Bool
  db : Except String Db
  hfToken : Bool
  hfResponse : Except String (List EmbedRaw)
  vectorOrder : List Rat → List VerseRow → List VerseRow
  groqKey : Bool
  groqGen : String → Except String String
  helloAO : String → String → Nat → Nat → Option Nat → Option String
  fallbackFetch : String → String → Option String
  strongsApi : String → Option DictEntry
  bollsChapter : String → String → Option (List BollsVerse)
  bibleIndex : String → Option VerseContext
  strongsDict : String → Option DictEntry

deriving instance DecidableEq for Except

/-- Result of running one computation: outcome, final state, effect trace. -/
structure Out (α : Type) where
  res : Except String α
  st : St
  tr : List Eff

/-- The deterministic state-and-trace monad. -/
def M (α : Type) : Type := St → Out α

instance : Monad M where
  pure a := fun s => ⟨.ok a, s, []⟩
  bind x f := fun s =>
    match x s with
    | ⟨.ok a, s1, t1⟩ =>
      let o := f a s1
      ⟨o.res, o.st, t1 ++ o.tr⟩
    | ⟨.error e, s1, t1⟩ => ⟨.error e, s1, t1⟩

/-- `throw` (a JS exception carrying a message). -/
def throwM {α : Type} (e : String) : M α := fun s => ⟨.error e, s, []⟩

/-- `try`/`catch`: state changes and effects before the failure persist. -/
def tryCatchM {α : Type} (x : M α) (handle : String → M α) : M α := fun s =>
  match x s with
  | ⟨.ok a, s1, t1⟩ => ⟨.ok a, s1, t1⟩
  | ⟨.error e, s1, t1⟩ =>
    let o := handle e s1
    ⟨o.res, o.st, t1 ++ o.tr⟩

/-- Record one external operation. -/
def emitEff (e : Eff) : M Unit := fun s => ⟨.ok (), s, [e]⟩

theorem run_pure {α : Type} (a : α) (s : St) : (pure a : M α) s = ⟨.ok a, s, []⟩ := rfl

theorem run_bind {α β : Type} (x : M α) (f : α → M β) (s : St) :
    (x >>= f) s = match x s with
      | ⟨.ok a, s1, t1⟩ => ⟨(f a s1).res, (f a s1).st, t1 ++ (f a s1).tr⟩
      | ⟨.error e, s1, t1⟩ => ⟨.error e, s1, t1⟩ := rfl

theorem run_bind_ok {α β : Type} {x : M α} {s s1 : St} {a : α} {t1 : List Eff}
    (f : α → M β) (h : x s = ⟨.ok a, s1, t1⟩) :
    (x >>= f) s = ⟨(f a s1).res, (f a s1).st, t1 ++ (f a s1).tr⟩ := by
  rw [run_bind, h]

theorem run_bind_err {α β : Type} {x : M α} {s s1 : St} {e : String}
    {t1 : List Eff} (f : α → M β) (h : x s = ⟨.error e, s1, t1⟩) :
    (x >>= f) s = ⟨.error e, s1, t1⟩ := by
  rw [run_bind, h]

theorem run_tryCatch_ok {α : Type} {x : M α} {s s1 : St} {a : α} {t1 : List Eff}
    (handle : String → M α) (h : x s = ⟨.ok a, s1, t1⟩) :
    tryCatchM x handle s = ⟨.ok a, s1, t1⟩ := by
  unfold tryCatchM
  rw [h]

theorem run_tryCatch_err {α : Type} {x : M α} {s s1 : St} {e : String}
    {t1 : List Eff} (handle : String → M α) (h : x s = ⟨.error e, s1, t1⟩) :
    tryCatchM x handle s
      = ⟨(handle e s1).res, (handle e s1).st, t1 ++ (handle e s1).tr⟩ := by
  unfold tryCatchM
  rw [h]

/-! ## Cache layer (`getCached` / `setCached` over Upstash Redis) -/

def CACHE_TTL_SECONDS : Nat := 3600
def CONTEXT_CACHE_VERSION : String := "v2"
def VECTOR_LIMIT : Nat := 6
def HF_EMBEDDING_MODEL : String := "intfloat/multilingual-e5-small"

/-- Unexpired lookup; the most recent entry for a key wins. -/
def lookupCache (now : Nat) (cache : List CacheEntry) (key : String) : Option CacheVal :=
  match cache.find? (fun e => e.key = key) with
  | some e => if now < e.expiresAt then some e.val else none
  | none => none

/-- `redis.get`: raises when the backend is failing. -/
def redisGet (env : Env) (key : String) : M (Option CacheVal) := fun s =>
  if env.cacheErr then ⟨.error "Redis get failed", s, [.cacheGet key]⟩
  else ⟨.ok (lookupCache env.now s.cache key), s, [.cacheGet key]⟩

/-- `getCached`: best-effort read, a backend error degrades to a miss. -/
def getCached (env : Env) (key : String) : M (Option CacheVal) :=
  tryCatchM (redisGet env key) (fun _ => pure none)

/-- `redis.set` with TTL: raises when the backend is failing. -/
def redisSet (env : Env) (key : String) (val : CacheVal) (ttl : Nat) : M Unit := fun s =>
  if env.cacheErr then ⟨.error "Redis set failed", s, [.cacheSet key]⟩
  else ⟨.ok (), ⟨⟨key, env.now + ttl, val⟩ :: s.cache⟩, [.cacheSet key]⟩

/-- `setCached`: best-effort write, a backend error degrades to a no-op. -/
def setCached (env : Env) (key : String) (val : CacheVal) (ttl : Nat) : M Unit :=
  tryCatchM (redisSet env key val ttl) (fun _ => pure ())

/-! ## Embedding (`embedQuery`) -/

/-- `meanPool` over exact rationals (the claims never inspect numeric
values, only vector dimensions, so modelling JS floats by `ℚ` is sound). -/
def meanPool (vectors : List (List Rat)) : List Rat :=
  match vectors with
  | [] => []
  | v0 :: _ =>
    (List.range v0.length).map (fun i =>
      (vectors.map (fun v => v.getD i 0)).sum / (vectors.length : Rat))

/-- `normalizeEmbedding`: a nonempty numeric vector passes through, a
nonempty vector of vectors is mean-pooled, anything else is an error. -/
def normalizeEmbedding : EmbedRaw → Except String (List Rat)
  | .flat v => if v.isEmpty then .error "Unexpected embedding response shape" else .ok v
  | .nested vs =>
    if vs.isEmpty then .error "Unexpected embedding response shape"
    else .ok (meanPool vs)
  | .other => .error "Unexpected embedding response shape"

def embedCacheKey (query : String) : String :=
  "embed:" ++ HF_EMBEDDING_MODEL ++ ":" ++ jsToLower (jsTrim query)

/-- `embedQuery`: cache read, token check, HTTP call, shape normalisation,
dimension check, cache write.  (A cached value of the wrong shape cannot
occur, because the two key namespaces are disjoint; the model treats it as a
miss.) -/
def embedQuery (env : Env) (query : String) : M (List Rat) := do
  let cached ← getCached env (embedCacheKey query)
  match cached with
  | some (.emb v) => pure v
  | _ => do
    if ¬ env.hfToken then throwM "HF_TOKEN is not set"
    else do
      emitEff .embedHttp
      match env.hfResponse with
      | .error e => throwM ("HF embeddings failed: " ++ e)
      | .ok [] => throwM "HF embeddings response was not an array"
      | .ok (raw :: _) =>
        match normalizeEmbedding raw with
        | .error e => throwM e
        | .ok embedding =>
          if embedding.length ≠ 384 then
            throwM "Embedding dimension mismatch; expected 384"
          else do
            setCached env (embedCacheKey query) (.emb embedding) CACHE_TTL_SECONDS
            pure embedding

/-! ## Store queries -/

/-- The rows produced by `fetchVersesByRefs` (the SQL join, one output row
per matching `(verse row, ref)` pair, in store order). -/
def versesByRefs (db : Db) (refs : List RefKey) (translation : String) :
    List VerseContext :=
  db.verses.bind (fun row =>
    if row.translation = translation then
      (refs.filter (fun r =>
        r.book = row.book && r.chapter = row.chapter && r.verse = row.verse)).map
        (fun _ => rowToVerse row)
    else [])

def fetchVersesByRefs (env : Env) (db : Db) (refs : List RefKey)
    (translation : String) : M (List VerseContext) :=
  if refs.isEmpty then pure []
  else do
    emitEff .dbQuery
    pure (versesByRefs db refs translation)

/-- The candidate rows of the vector query: rows of the requested translation
with a stored embedding, ordered by distance to the query vector.  The
floating-point distance order is an environment oracle; the `LIMIT` is
structural. -/
def vectorSearchVerses (env : Env) (db : Db) (embedding : List Rat)
    (translation : String) (limit : Nat) : M (List VerseContext) := do
  emitEff .dbQuery
  pure (((env.vectorOrder embedding
    (db.verses.filter (fun r => r.translation = translation && r.hasEmbedding))).take
      limit).map rowToVerse)

/-! ## TSK cross-references (`getTskCrossReferences`) -/

/-- `COALESCE(votes, 0)`. -/
def voteKey (r : CrossRow) : Int := r.votes.getD 0

def insertByVotes (r : CrossRow) : List CrossRow → List CrossRow
  | [] => [r]
  | x :: xs => if voteKey x < voteKey r then r :: x :: xs else x :: insertByVotes r xs

/-- `ORDER BY COALESCE(votes, 0) DESC` as an insertion sort. -/
def sortByVotesDesc : List CrossRow → List CrossRow
  | [] => []
  | x :: xs => insertByVotes x (sortByVotesDesc xs)

/-- The SQL filter `(source) IN refs AND votes > 10` with sort and `LIMIT 3`. -/
def tskEdges (db : Db) (refs : List RefKey) : List CrossRow :=
  (sortByVotesDesc (db.crossRefs.filter (fun r =>
    refs.any (fun k =>
      k.book = r.sourceBook && k.chapter = r.sourceChapter && k.verse = r.sourceVerse)
    && (match r.votes with | some vv => decide (10 < vv) | none => false)))).take 3

/-- Target deduplication against the parsed primary keys and against earlier
targets (the `seenTargets` set). -/
def tskTargetKeys (rows : List CrossRow) (primaryKeys : List RefKey) : List RefKey :=
  (rows.map (fun row => RefKey.mk row.targetBook row.targetChapter row.targetVerse)).foldl
    (fun acc k =>
      if (primaryKeys.map refString).contains (refString k)
          || (acc.map refString).contains (refString k) then acc
      else acc ++ [k]) []

def getTskCrossReferences (env : Env) (db : Db) (primaryVerses : List VerseContext)
    (translation : String) : M (List VerseContext) :=
  if primaryVerses.isEmpty then pure []
  else
    let refs := primaryVerses.filterMap (fun v => parseReferenceKey v.reference)
    if refs.isEmpty then pure []
    else do
      emitEff .dbQuery
      let rows := tskEdges db refs
      if rows.isEmpty then pure []
      else
        let targetRefs := tskTargetKeys rows refs
        if targetRefs.isEmpty then pure []
        else do
          let crossRefVerses ← fetchVersesByRefs env db targetRefs translation
          pure (crossRefVerses.map (fun v => { v with isCrossReference := true }))

/-! ## Store-backed pipeline (`retrieveContextFromDb`) -/

/-- One prioritized Decalogue reference with its trigger keywords. -/
structure CommandRef where
  reference : String
  keywords : List String

def tenCommandmentRefs : List CommandRef := [
  ⟨"EXO 20:3", ["other gods", "idolatry", "idol", "false gods", "worship other"]⟩,
  ⟨"EXO 20:4", ["graven image", "carved image", "image worship", "idols"]⟩,
  ⟨"EXO 20:7", ["take the lord's name", "blaspheme", "blasphemy", "curse god", "vain name"]⟩,
  ⟨"EXO 20:8", ["sabbath", "rest day"]⟩,
  ⟨"EXO 20:12", ["honor father", "honour father", "honor mother", "honour mother", "disobey parents"]⟩,
  ⟨"EXO 20:13", ["murder", "kill", "killing", "homicide"]⟩,
  ⟨"EXO 20:14", ["adultery", "unfaithful spouse", "cheat on spouse"]⟩,
  ⟨"EXO 20:15", ["theft", "steal", "stealing", "rob", "robbery"]⟩,
  ⟨"EXO 20:16", ["false witness", "perjury", "lie in court", "slander"]⟩,
  ⟨"EXO 20:17", ["covet", "coveting", "envy your neighbor", "envy thy neighbor"]⟩]

def freedomRefs : List String := ["GAL 3:28", "GAL 4:7", "ROM 6:6", "1CO 7:22", "PHM 1:16"]

def freedomKeywords : List String :=
  ["slav", "slave", "servant", "bondservant", "bond servant", "bond", "doulos", "freedom", "free"]

/-- JS `split` on a single character. -/
def splitOnChar (sep : Char) : List Char → List (List Char)
  | [] => [[]]
  | c :: cs =>
    let rest := splitOnChar sep cs
    if c = sep then [] :: rest
    else
      match rest with
      | [] => [[c]]
      | r :: rs => (c :: r) :: rs

def jsSplitChar (sep : Char) (s : String) : List String :=
  (splitOnChar sep s.data).map String.mk

/-- `Number.parseInt(s, 10)` restricted to nonnegative inputs: leading
whitespace skipped, leading digit run parsed, `NaN` (`none`) otherwise. -/
def jsParseInt (s : String) : Option Nat :=
  let t := (s.data.dropWhile wsChar).takeWhile Char.isDigit
  if t.isEmpty then none else some (digitsToNat t)

/-- `ref.split(' ')` / `cv.split(':')` parsing of a priority table entry. -/
def parsePrioritizedRef (ref : String) : RefKey :=
  match jsSplitChar ' ' ref with
  | book :: cv :: _ =>
    (match jsSplitChar ':' cv with
     | c :: v :: _ => ⟨book, (jsParseInt c).getD 0, (jsParseInt v).getD 0⟩
     | _ => ⟨book, 0, 0⟩)
  | _ => ⟨"", 0, 0⟩

/-- The keyword-triggered priority references (Decalogue, then the freedom
block), in source order. -/
def prioritizedRefStrings (normalizedQuery : String) : List String :=
  (tenCommandmentRefs.filter (fun item =>
    item.keywords.any (fun k => strContains normalizedQuery k))).map (·.reference)
  ++ (if freedomKeywords.any (fun k => strContains normalizedQuery k) then freedomRefs
      else [])

/-- `addUnique`: push unless an entry with the same normalized reference or
the same trimmed text is already present. -/
def addUnique (verses : List VerseContext) (row : VerseContext) : List VerseContext :=
  if !(verses.any (fun v => jsToUpper (jsTrim v.reference) = jsToUpper (jsTrim row.reference)))
      && !(verses.any (fun v => jsTrim v.text = jsTrim row.text)) then
    verses ++ [row]
  else verses

def mergeUnique (init : List VerseContext) (rows : List VerseContext) :
    List VerseContext :=
  rows.foldl addUnique init

def directKeys (query : String) : List RefKey :=
  (extractDirectReferences query).map (fun r => ⟨r.book, r.chapter, r.verse⟩)

/-- The candidate list after the priority and direct-reference merges (pure
view of the store reads). -/
def dbBaseVerses (db : Db) (query translation : String) : List VerseContext :=
  let normalizedQuery := jsToLower query
  let directRows := versesByRefs db (directKeys query) translation
  let priorityRows :=
    versesByRefs db ((prioritizedRefStrings normalizedQuery).map parsePrioritizedRef)
      translation
  mergeUnique [] (priorityRows ++ directRows)

/-- `attachIndexedOriginals`: attach bundled lexical tags by reference. -/
def attachIndexedOriginals (env : Env) (verses : List VerseContext) :
    List VerseContext :=
  verses.map (fun verse =>
    match env.bibleIndex verse.reference with
    | some indexed =>
      if ¬ indexed.original.isEmpty then { verse with original := indexed.original }
      else verse
    | none => verse)

/-- `ensureDbReady` and `getDbPool`: one readiness check that yields the
store or raises. -/
def ensureDbReadyM (env : Env) : M Db := do
  emitEff .dbQuery
  match env.db with
  | .error e => throwM e
  | .ok d => pure d

/-- The vector-search stage: skip check, embedding with failure recovery,
nearest-verse query and merge. -/
def dbVectorStage (env : Env) (db : Db) (query translation : String)
    (base : List VerseContext) : M (List VerseContext) :=
  if VECTOR_LIMIT ≤ base.length ∨ (0 < base.length ∧ (jsToLower query).length ≤ 12) then
    pure base
  else do
    let embedding ← tryCatchM (do
        let e ← embedQuery env query
        pure (some e)) (fun _ => pure none)
    match embedding with
    | none =>
      if base.isEmpty then
        throwM "Vector retrieval unavailable and no direct references found."
      else pure base
    | some emb => do
      let limit := VECTOR_LIMIT - base.length
      if 0 < limit then do
        let vectorRows ← vectorSearchVerses env db emb translation limit
        pure (mergeUnique base vectorRows)
      else pure base

/-- The tail of the store-backed pipeline: topic guards, curated lists,
best-effort TSK cross-references, lexical-index attachment. -/
def dbFinish (env : Env) (db : Db) (query translation : String)
    (verses : List VerseContext) : M (List VerseContext) := do
  let finalVerses ← tryCatchM (do
      let tsk ← getTskCrossReferences env db
        (applyCuratedTopicalLists query (applyTopicGuards query verses)) translation
      pure (applyCuratedTopicalLists query (applyTopicGuards query verses) ++ tsk))
    (fun _ => pure (applyCuratedTopicalLists query (applyTopicGuards query verses)))
  pure (attachIndexedOriginals env finalVerses)

def retrieveContextFromDb (env : Env) (query translation : String) :
    M (List VerseContext) := do
  let db ← ensureDbReadyM env
  let directRows ← fetchVersesByRefs env db (directKeys query) translation
  let priorityRows ← fetchVersesByRefs env db
    ((prioritizedRefStrings (jsToLower query)).map parsePrioritizedRef) translation
  let verses ← dbVectorStage env db query translation
    (mergeUnique [] (priorityRows ++ directRows))
  dbFinish env db query translation verses

/-! ## Lexical enrichment (`enrichOriginalLanguages`) -/

/-- JS `a || b` on possibly-absent strings (empty string is falsy). -/
def orFalsy : Option String → Option String → Option String
  | some s, b => if s = "" then b else some s
  | none, b => b

/-- `dictEntry.short_definition || dictEntry.definition` (may stay absent). -/
def glossOfDict (d : DictEntry) : Option String := orFalsy d.shortDefinition d.definition

/-- `String(x.short_definition || x.definition || '')`. -/
def glossOfFetched (d : DictEntry) : String :=
  (orFalsy d.shortDefinition (orFalsy d.definition (some ""))).getD ""

/-- `String(x.transliteration || '')`. -/
def translitOfFetched (d : DictEntry) : String :=
  (orFalsy d.transliteration (some "")).getD ""

/-- Enrich one original-language tag that came from the static index. -/
def enrichTagIndexed (env : Env) (orig : OriginalWord) : M OriginalWord :=
  match env.strongsDict orig.strongs with
  | some d =>
    pure { orig with gloss := glossOfDict d, transliteration := d.transliteration }
  | none => do
    emitEff .dictFetch
    match env.strongsApi orig.strongs with
    | some f =>
      pure { orig with
        gloss := some (glossOfFetched f)
        transliteration := some (translitOfFetched f) }
    | none => pure orig

/-- Enrich one tag parsed from a bolls.life chapter (dictionary first, then
the live service; `String(...)` coercions in both). -/
def enrichTagBolls (env : Env) (tag : OriginalWord) : M OriginalWord :=
  match env.strongsDict tag.strongs with
  | some d =>
    pure { tag with
      gloss := some (glossOfFetched d)
      transliteration := some (translitOfFetched d) }
  | none => do
    emitEff .dictFetch
    match env.strongsApi tag.strongs with
    | some f =>
      pure { tag with
        gloss := some (glossOfFetched f)
        transliteration := some (translitOfFetched f) }
    | none => pure tag

def otBooks : List String :=
  ["GEN", "EXO", "LEV", "NUM", "DEU", "JOS", "JDG", "RUT", "1SA", "2SA",
   "1KI", "2KI", "1CH", "2CH", "EZR", "NEH", "EST", "JOB", "PSA", "PRO",
   "ECC", "SNG", "ISA", "JER", "LAM", "EZK", "DAN", "HOS", "JOL", "AMO",
   "OBA", "JON", "MIC", "NAM", "HAB", "ZEP", "HAG", "ZEC", "MAL"]

/-- `bkbToBollsPath` book numbering. -/
def bollsBookNum (bookCode : String) : Option Nat :=
  (([("GEN", 1), ("EXO", 2), ("LEV", 3), ("NUM", 4), ("DEU", 5),
     ("JOS", 6), ("JDG", 7), ("RUT", 8), ("1SA", 9), ("2SA", 10),
     ("1KI", 11), ("2KI", 12), ("1CH", 13), ("2CH", 14), ("EZR", 15),
     ("NEH", 16), ("EST", 17), ("JOB", 18), ("PSA", 19), ("PRO", 20),
     ("ECC", 21), ("SNG", 22), ("ISA", 23), ("JER", 24), ("LAM", 25),
     ("EZK", 26), ("DAN", 27), ("HOS", 28), ("JOL", 29), ("AMO", 30),
     ("OBA", 31), ("JON", 32), ("MIC", 33), ("NAM", 34), ("HAB", 35),
     ("ZEP", 36), ("HAG", 37), ("ZEC", 38), ("MAL", 39),
     ("MAT", 40), ("MRK", 41), ("LUK", 42), ("JHN", 43), ("ACT", 44),
     ("ROM", 45), ("1CO", 46), ("2CO", 47), ("GAL", 48), ("EPH", 49),
     ("PHP", 50), ("COL", 51), ("1TH", 52), ("2TH", 53), ("1TI", 54),
     ("2TI", 55), ("TIT", 56), ("PHM", 57), ("HEB", 58), ("JAS", 59),
     ("1PE", 60), ("2PE", 61), ("1JN", 62), ("2JN", 63), ("3JN", 64),
     ("JUD", 65), ("REV", 66)] : List (String × Nat)).find?
    (fun p => p.1 = bookCode)).map (·.2)

/-- `` `${map[bookCode]}/${chapter}` ``, including the JS renderings of a
missing map entry (`undefined`) and an unparsable chapter (`NaN`). -/
def bollsPath (bookCode : String) (chapter : Option Nat) : String :=
  (match bollsBookNum bookCode with
   | some n => natToString n
   | none => "undefined")
  ++ "/" ++
  (match chapter with
   | some c => natToString c
   | none => "NaN")

/-- Find `>` lazily (the regex `.` does not cross a newline). -/
def findGtNoNewline : List Char → Option (List Char)
  | [] => none
  | '>' :: t => some t
  | '\n' :: _ => none
  | _ :: t => findGtNoNewline t

/-- `replace(/<span.*?>/g, '')` (fuel-driven scan). -/
def removeSpanAux : Nat → List Char → List Char
  | 0, l => l
  | _ + 1, [] => []
  | fuel + 1, c :: cs =>
    if startsSeq (c :: cs) "<span".data then
      match findGtNoNewline ((c :: cs).drop 5) with
      | some rest => removeSpanAux fuel rest
      | none => c :: removeSpanAux fuel cs
    else c :: removeSpanAux fuel cs

/-- `replace(/<\/\span>/g, '')` — the source's escape makes this the
seven-character pattern `<`, `/`, whitespace, `p`, `a`, `n`, `>`. -/
def removeSlashWsPan : Nat → List Char → List Char
  | 0, l => l
  | _ + 1, [] => []
  | fuel + 1, c1 :: cs =>
    match cs with
    | c2 :: c3 :: c4 :: c5 :: c6 :: c7 :: rest =>
      if c1 = '<' && c2 = '/' && wsChar c3 && c4 = 'p' && c5 = 'a' && c6 = 'n'
          && c7 = '>' then
        removeSlashWsPan fuel rest
      else c1 :: removeSlashWsPan fuel cs
    | _ => c1 :: removeSlashWsPan fuel cs

/-- `replace(/<\/\S>/g, '')`: `<`, `/`, one non-whitespace, `>`. -/
def removeCloseTagNonWs : Nat → List Char → List Char
  | 0, l => l
  | _ + 1, [] => []
  | fuel + 1, c1 :: cs =>
    match cs with
    | c2 :: c3 :: c4 :: rest =>
      if c1 = '<' && c2 = '/' && ¬ wsChar c3 && c4 = '>' then
        removeCloseTagNonWs fuel rest
      else c1 :: removeCloseTagNonWs fuel cs
    | _ => c1 :: removeCloseTagNonWs fuel cs

/-- JS `split` on a multi-character separator. -/
def splitSeq (sep : List Char) : Nat → List Char → List (List Char)
  | 0, l => [l]
  | _ + 1, [] => [[]]
  | fuel + 1, c :: cs =>
    if startsSeq (c :: cs) sep && ¬ sep.isEmpty then
      [] :: splitSeq sep fuel ((c :: cs).drop sep.length)
    else
      match splitSeq sep fuel cs with
      | [] => [[c]]
      | r :: rs => (c :: r) :: rs

/-- `indexOf` of a character sequence. -/
def indexOfSeq (needle : List Char) : List Char → Option Nat
  | [] => if needle.isEmpty then some 0 else none
  | c :: cs =>
    if startsSeq (c :: cs) needle then some 0
    else (indexOfSeq needle cs).map (· + 1)

/-- Trim a character list (JS `trim`). -/
def trimList (l : List Char) : List Char :=
  ((l.dropWhile wsChar).reverse.dropWhile wsChar).reverse

/-- The token after the last space (`lastIndexOf(' ')` plus `substring`). -/
def lastToken (l : List Char) : List Char :=
  (l.reverse.takeWhile (fun c => ¬ (c = ' '))).reverse

/-- `replace(/[,.;:!?]/g, '')`. -/
def cleanPunct (l : List Char) : List Char :=
  l.filter (fun c => ¬ (c = ',' || c = '.' || c = ';' || c = ':' || c = '!' || c = '?'))

/-- `parseOriginalTags`: strip span markup, split on `<S>`, and pair each
Strong's number with the word just before its tag. -/
def parseOriginalTags (text : String) : List OriginalWord :=
  let n := text.data.length
  let cleanLine := removeSlashWsPan n (removeSpanAux n text.data)
  let parts := splitSeq "<S>".data n cleanLine
  ((parts.drop 1).zip parts).foldl (fun acc pp =>
    match indexOfSeq "</S>".data pp.1 with
    | none => acc
    | some idx =>
      let strongs := pp.1.take idx
      let wordPart := trimList (removeCloseTagNonWs pp.2.length pp.2)
      let cleanWord := cleanPunct (lastToken wordPart)
      if ¬ cleanWord.isEmpty && ¬ strongs.isEmpty then
        acc ++ [⟨String.mk cleanWord, String.mk strongs, none, none⟩]
      else acc) []

/-- The bolls.life branch of enrichment for a verse with no attached tags. -/
def bollsBranch (env : Env) (verse : VerseContext) : M VerseContext :=
  match jsSplitChar ' ' verse.reference with
  | book :: cv :: _ => do
    let trans := if otBooks.contains book then "WLC" else "TR"
    match jsSplitChar ':' cv with
    | chapterS :: rest => do
      let vNum : Option Nat := (match rest with | v :: _ => jsParseInt v | [] => none)
      emitEff .bollsFetch
      match env.bollsChapter trans (bollsPath book (jsParseInt chapterS)) with
      | none => pure verse
      | some chapterData =>
        match chapterData.find? (fun bv =>
            match vNum with | some m => bv.verse = m | none => false) with
        | none => pure verse
        | some matchV => do
          let tags := parseOriginalTags matchV.text
          let tags2 ← tags.mapM (enrichTagBolls env)
          pure { verse with original := tags2 }
    | [] => pure verse
  | _ => throwM "Cannot read properties of undefined (reading 'split')"

/-- `enrichOriginalLanguages` for one verse. -/
def enrichVerse (env : Env) (verse : VerseContext) : M VerseContext :=
  if ¬ verse.original.isEmpty then do
    let newOrig ← verse.original.mapM (enrichTagIndexed env)
    pure { verse with original := newOrig }
  else
    tryCatchM (bollsBranch env verse) (fun _ => pure verse)

def enrichOriginalLanguages (env : Env) (verses : List VerseContext) :
    M (List VerseContext) :=
  verses.mapM (enrichVerse env)

/-! ## Pure-API fallback (`retrieveContextViaApis`) -/

/-- An ASV verse literal of the fallback Decalogue table. -/
def pva (ref text : String) : VerseContext :=
  { reference := ref, text := text, translation := "ASV", original := [] }

/-- A WEB verse literal of the freedom block. -/
def pvw (ref text : String) : VerseContext :=
  { reference := ref, text := text, translation := "WEB", original := [] }

def tenCommandmentsASV : List VerseContext := [
  pva "EXO 20:3" "Thou shalt have no other gods before me.",
  pva "EXO 20:4" "Thou shalt not make unto thee a graven image, nor any likeness of anything that is in heaven above, or that is in the earth beneath, or that is in the water under the earth.",
  pva "EXO 20:7" "Thou shalt not take the name of Jehovah thy God in vain; for Jehovah will not hold him guiltless that taketh his name in vain.",
  pva "EXO 20:8" "Remember the sabbath day, to keep it holy.",
  pva "EXO 20:12" "Honor thy father and thy mother, that thy days may be long in the land which Jehovah thy God giveth thee.",
  pva "EXO 20:13" "Thou shalt not kill.",
  pva "EXO 20:14" "Thou shalt not commit adultery.",
  pva "EXO 20:15" "Thou shalt not steal.",
  pva "EXO 20:16" "Thou shalt not bear false witness against thy neighbor.",
  pva "EXO 20:17" "Thou shalt not covet thy neighbor's house, thou shalt not covet thy neighbor's wife, nor his man-servant, nor his maid-servant, nor his ox, nor his ass, nor anything that is thy neighbor's."]

def freedomFromSlaveryVerses : List VerseContext := [
  pvw "GAL 3:28" "There can be neither Jew nor Greek, there can be neither bond nor free, there can be no male and female; for ye all are one in Christ Jesus.",
  pvw "GAL 4:7" "So that thou art no longer a bondservant, but a son; and if a son, then an heir through God.",
  pvw "ROM 6:6" "knowing this, that our old man was crucified with him, that the body of sin might be done away, that so we should no longer be in bondage to sin;",
  pvw "1CO 7:22" "For he that was called in the Lord being a bondservant, is the Lord's freedman: likewise he that was called being free, is Christ's bondservant.",
  pvw "PHM 1:16" "no longer as a bondservant, but more than a bondservant, a beloved brother, especially to me, but how much rather to thee, both in the flesh and in the Lord."]

/-- The ten `addPriority(index, keywords)` calls: verses paired with the same
keyword sets as the store-side table. -/
def apiPriorityPairs : List (VerseContext × List String) :=
  tenCommandmentsASV.zip (tenCommandmentRefs.map (·.keywords))

/-- The `prioritized` accumulator (the `verses` list is empty at this point
in the source, but the double dedup check is kept). -/
def apiPrioritized (normalizedQuery : String) (verses : List VerseContext) :
    List VerseContext :=
  apiPriorityPairs.foldl (fun prioritized p =>
    if p.2.any (fun k => strContains normalizedQuery k) then
      if ¬ verses.any (fun v => v.reference = p.1.reference)
          && ¬ prioritized.any (fun v => v.reference = p.1.reference) then
        prioritized ++ [p.1]
      else prioritized
    else prioritized) []

/-- `for (const verse of list.reverse()) verses.unshift(verse)`. -/
def unshiftAll (vs : List VerseContext) (target : List VerseContext) :
    List VerseContext :=
  vs.reverse.foldl (fun acc v => v :: acc) target

/-- The freedom-verse unshift loop with its per-verse reference check. -/
def unshiftFreedom (verses : List VerseContext) : List VerseContext :=
  freedomFromSlaveryVerses.reverse.foldl (fun acc v =>
    if acc.any (fun w => w.reference = v.reference) then acc else v :: acc) verses

def jsStartsWith (s pre : String) : Bool := startsSeq s.data pre.data

/-- `` `${book} ${chapter}:${verse}${endVerse ? '-' + endVerse : ''}` ``
(`endVerse` equal to `0` is falsy). -/
def refWithEnd (r : ParsedRef) : String :=
  refString ⟨r.book, r.chapter, r.verse⟩ ++
    (match r.endVerse with
     | some e => if e = 0 then "" else "-" ++ natToString e
     | none => "")

/-- The direct-reference resolution loop of the API path. -/
def apiDirectLoop (env : Env) (translation : String) :
    List ParsedRef → List VerseContext → M (List VerseContext)
  | [], verses => pure verses
  | ref :: rest, verses => do
    let refKey := refString ⟨ref.book, ref.chapter, ref.verse⟩
    if verses.any (fun v => jsStartsWith v.reference refKey) then
      apiDirectLoop env translation rest verses
    else
      match env.bibleIndex refKey with
      | some dbMatch => apiDirectLoop env translation rest (verses ++ [dbMatch])
      | none => do
        emitEff .verseFetch
        let vText ← (match env.helloAO translation ref.book ref.chapter ref.verse
            ref.endVerse with
          | some t =>
            if t = "" then do
              emitEff .verseFetch
              pure (env.fallbackFetch (refWithEnd ref) translation)
            else pure (some t)
          | none => do
            emitEff .verseFetch
            pure (env.fallbackFetch (refWithEnd ref) translation))
        match vText with
        | some t =>
          if t = "" then apiDirectLoop env translation rest verses
          else
            apiDirectLoop env translation rest
              (verses ++ [⟨refWithEnd ref, translation, t, [], false⟩])
        | none => apiDirectLoop env translation rest verses

/-- The `generateText` model loop of the API path: first success wins, all
failures leave the empty text. -/
def tryGenModels (env : Env) : List String → M (Option String)
  | [] => pure none
  | m :: ms => do
    emitEff .genText
    match env.groqGen m with
    | .ok t => pure (some t)
    | .error _ => tryGenModels env ms

def apiModelCandidates : List String :=
  ["llama-3.1-8b-instant", "llama-3.1-70b-versatile", "llama3-8b-8192", "llama3-70b-8192"]

/-- The anchored suggestion-line regex `^([A-Z0-9]{3})\s+(\d+):(\d+)$` with
the `i` flag. -/
def parseSuggestLine (line : String) : Option RefKey :=
  match line.data with
  | c1 :: c2 :: c3 :: rest =>
    if bookChar c1 && bookChar c2 && bookChar c3 then
      match rest with
      | [] => none
      | d :: _ =>
        if ¬ wsChar d then none
        else
          let r1 := rest.dropWhile wsChar
          let chd := r1.takeWhile Char.isDigit
          if chd.isEmpty then none
          else
            match r1.dropWhile Char.isDigit with
            | ':' :: r2 =>
              let vd := r2.takeWhile Char.isDigit
              if vd.isEmpty then none
              else if (r2.dropWhile Char.isDigit).isEmpty then
                some ⟨String.mk ([c1, c2, c3].map Char.toUpper),
                  digitsToNat chd, digitsToNat vd⟩
              else none
            | _ => none
    else none
  | _ => none

/-- `split(/\r?\n/)`. -/
def jsSplitLines (s : String) : List String :=
  (splitOnChar '\n' s.data).map (fun l =>
    String.mk (if l.getLast? = some '\r' then l.dropLast else l))

/-- The suggested-reference resolution loop. -/
def apiSuggestLoop (env : Env) (translation : String) :
    List String → List VerseContext → M (List VerseContext)
  | [], verses => pure verses
  | line :: rest, verses =>
    match parseSuggestLine line with
    | none => apiSuggestLoop env translation rest verses
    | some key => do
      let refStr := refString key
      if verses.any (fun v => jsStartsWith v.reference refStr) then
        apiSuggestLoop env translation rest verses
      else
        match env.bibleIndex refStr with
        | some iv =>
          apiSuggestLoop env translation rest (verses ++ [{ iv with translation := "WEB" }])
        | none => do
          emitEff .verseFetch
          let vText ← (match env.helloAO translation key.book key.chapter key.verse none with
            | some t =>
              if t = "" then do
                emitEff .verseFetch
                pure (env.fallbackFetch refStr translation)
              else pure (some t)
            | none => do
              emitEff .verseFetch
              pure (env.fallbackFetch refStr translation))
          match vText with
          | some t =>
            if t = "" then apiSuggestLoop env translation rest verses
            else
              apiSuggestLoop env translation rest
                (verses ++ [⟨refStr, translation, t, [], false⟩])
          | none => apiSuggestLoop env translation rest verses

def retrieveContextViaApis (env : Env) (query translation : String)
    (apiKey : Bool) : M (List VerseContext) := do
  let normalizedQuery := jsToLower query
  let prioritized := apiPrioritized normalizedQuery []
  let verses0 := unshiftAll prioritized []
  let verses1 :=
    if freedomKeywords.any (fun k => strContains normalizedQuery k) then
      unshiftFreedom verses0
    else verses0
  let verses2 ← apiDirectLoop env translation (extractDirectReferences query) verses1
  if verses2.length < 2 then
    if ¬ (apiKey || env.groqKey) then
      enrichOriginalLanguages env verses2
    else do
      let text ← tryGenModels env apiModelCandidates
      match text with
      | none => enrichOriginalLanguages env verses2
      | some t =>
        if t = "" then enrichOriginalLanguages env verses2
        else do
          let lines := ((jsSplitLines t).map jsTrim).filter
            (fun l => l ≠ "" && jsToUpper l ≠ "NONE")
          let verses3 ← apiSuggestLoop env translation lines verses2
          let guarded := applyTopicGuards query verses3
          let finalVerses := applyCuratedTopicalLists query guarded
          enrichOriginalLanguages env finalVerses
  else do
    let guarded := applyTopicGuards query verses2
    let finalVerses := applyCuratedTopicalLists query guarded
    enrichOriginalLanguages env finalVerses

/-! ## Orchestrator (`retrieveContextForQuery`) -/

def contextCacheKey (query translation : String) : String :=
  "context:" ++ CONTEXT_CACHE_VERSION ++ ":" ++ translation ++ ":" ++ jsToLower (jsTrim query)

/-- `cloneVerses`: a deep copy (the identity on immutable Lean values). -/
def cloneVerses (verses : List VerseContext) : List VerseContext :=
  verses.map (fun verse => { verse with original := verse.original.map (fun o => o) })

def retrieveContextForQuery (env : Env) (query translation : String)
    (apiKey : Bool) : M (List VerseContext) := do
  let cached ← getCached env (contextCacheKey query translation)
  match cached with
  | some (.ctx vs) => pure (cloneVerses vs)
  | _ => do
    let dbres ← tryCatchM (do
        let vs ← retrieveContextFromDb env query translation
        pure (some vs)) (fun _ => pure none)
    match dbres with
    | none => do
      let apiVerses ← retrieveContextViaApis env query translation apiKey
      setCached env (contextCacheKey query translation) (.ctx apiVerses) CACHE_TTL_SECONDS
      pure (cloneVerses apiVerses)
    | some verses => do
      let enriched ← enrichOriginalLanguages env verses
      setCached env (contextCacheKey query translation) (.ctx enriched) CACHE_TTL_SECONDS
      pure (cloneVerses enriched)

/-! ## Chat route model loop (`POST` in `src/app/api/chat/route.ts`) -/

/-- The ordered model-candidate list (larger model first when the caller
supplies a key). -/
def routeModelCandidates (customApiKey : Bool) : List String :=
  if customApiKey then
    ["llama-3.1-70b-versatile", "llama-3.1-8b-instant", "llama3-70b-8192", "llama3-8b-8192"]
  else
    ["llama-3.1-8b-instant", "llama-3.1-70b-versatile", "llama3-8b-8192", "llama3-70b-8192"]

/-- The `streamText` retry loop: return the first success, remember the last
error, and rethrow it once every candidate failed.  The second component is
the list of candidates actually tried, in order. -/
def attemptModels {α : Type} (run : String → Except String α) :
    List String → Option String → Except String α × List String
  | [], lastErr => (.error (lastErr.getD "undefined"), [])
  | m :: ms, lastErr =>
    match run m with
    | .ok a => (.ok a, [m])
    | .error e =>
      let p := attemptModels run ms (some e)
      (p.1, m :: p.2)

/-! ## Properties of the guard stage (claims C1 and C10) -/

theorem dedupAppend_nil (acc : List VerseContext) : dedupAppend acc [] = acc := rfl

theorem dedupAppend_cons (acc : List VerseContext) (v : VerseContext)
    (vs : List VerseContext) :
    dedupAppend acc (v :: vs)
      = dedupAppend (if acc.any (fun w => w.reference = v.reference) then acc
          else acc ++ [v]) vs := by
  simp [dedupAppend]

theorem dedupAppend_ref_mono :
    ∀ (vs acc : List VerseContext) (r : String),
    r ∈ acc.map (·.reference) → r ∈ (dedupAppend acc vs).map (·.reference) := by
  intro vs
  induction vs with
  | nil =>
    intro acc r h
    rw [dedupAppend_nil]
    exact h
  | cons v vs ih =>
    intro acc r h
    rw [dedupAppend_cons]
    apply ih
    split
    · exact h
    · simp only [List.map_append, List.mem_append]
      exact Or.inl h

theorem dedupAppend_ref_mem :
    ∀ (vs acc : List VerseContext) (v : VerseContext),
    v ∈ vs → v.reference ∈ (dedupAppend acc vs).map (·.reference) := by
  intro vs
  induction vs with
  | nil =>
    intro acc v h
    exact absurd h (List.not_mem_nil v)
  | cons u vs ih =>
    intro acc v h
    rw [dedupAppend_cons]
    rcases List.mem_cons.mp h with h | h
    · subst h
      apply dedupAppend_ref_mono
      split
      · next hany =>
        obtain ⟨w, hw, hwr⟩ := List.any_eq_true.mp hany
        simp only [decide_eq_true_eq] at hwr
        rw [← hwr]
        exact List.mem_map_of_mem _ hw
      · simp
    · exact ih _ v h

theorem guardStep_ref_mono (query : String) (g : TopicGuard)
    (acc : List VerseContext) (r : String) (h : r ∈ acc.map (·.reference)) :
    r ∈ (guardStep query acc g).map (·.reference) := by
  unfold guardStep
  split
  · exact dedupAppend_ref_mono _ _ _ (dedupAppend_ref_mono _ _ _ h)
  · exact dedupAppend_ref_mono _ _ _ h

theorem foldl_guardStep_mono (query : String) :
    ∀ (l : List TopicGuard) (acc : List VerseContext) (r : String),
    r ∈ acc.map (·.reference) →
    r ∈ (l.foldl (guardStep query) acc).map (·.reference) := by
  intro l
  induction l with
  | nil =>
    intro acc r h
    exact h
  | cons g gs ih =>
    intro acc r h
    exact ih _ r (guardStep_ref_mono query g acc r h)

theorem foldl_guardStep_priority_mem (query : String) :
    ∀ (l : List TopicGuard) (acc : List VerseContext) (g : TopicGuard)
      (w : VerseContext), g ∈ l → w ∈ g.priority →
    w.reference ∈ (l.foldl (guardStep query) acc).map (·.reference) := by
  intro l
  induction l with
  | nil =>
    intro acc g w h _
    exact absurd h (List.not_mem_nil g)
  | cons gh gt ih =>
    intro acc g w hg hw
    rw [List.foldl_cons]
    rcases List.mem_cons.mp hg with hg | hg
    · subst hg
      apply foldl_guardStep_mono
      unfold guardStep
      split
      · exact dedupAppend_ref_mono _ _ _ (dedupAppend_ref_mem _ _ w hw)
      · exact dedupAppend_ref_mem _ _ w hw
    · exact ih _ g w hg hw

theorem mergedPriority_priority_mem {query : String} {g : TopicGuard}
    {w : VerseContext} (hg : g ∈ firedGuards query) (hw : w ∈ g.priority) :
    w.reference ∈ (mergedPriority query).map (·.reference) :=
  foldl_guardStep_priority_mem query (firedGuards query) [] g w hg hw

theorem topicGuards_priority_nonempty :
    ∀ g ∈ topicGuards, g.priority.isEmpty = false := by
  decide

theorem mergedPriority_ne_nil {query : String}
    (h : 0 < (firedGuards query).length) : mergedPriority query ≠ [] := by
  obtain ⟨g, gs, hgs⟩ : ∃ g gs, firedGuards query = g :: gs := by
    cases hfq : firedGuards query with
    | nil => rw [hfq] at h; simp at h
    | cons g gs => exact ⟨g, gs, rfl⟩
  have hg : g ∈ firedGuards query := by rw [hgs]; exact List.mem_cons_self _ _
  have hgt : g ∈ topicGuards := List.mem_of_mem_filter hg
  have hne := topicGuards_priority_nonempty g hgt
  obtain ⟨w, ws, hws⟩ : ∃ w ws, g.priority = w :: ws := by
    cases hp : g.priority with
    | nil => rw [hp] at hne; simp at hne
    | cons w ws => exact ⟨w, ws, rfl⟩
  have hmem := mergedPriority_priority_mem hg (by rw [hws]; exact List.mem_cons_self _ _)
  intro hnil
  rw [hnil] at hmem
  simp at hmem

theorem applyTopicGuards_eq {query : String} (verses : List VerseContext)
    (h : 0 < (firedGuards query).length) :
    applyTopicGuards query verses
      = mergedPriority query ++ guardSurvivors query verses := by
  unfold applyTopicGuards
  have hne := mergedPriority_ne_nil h
  have hlen : (mergedPriority query).length ≠ 0 := by
    intro h0
    exact hne (List.eq_nil_of_length_eq_zero h0)
  simp [hlen]

theorem guardSurvivors_spec {query : String} {verses : List VerseContext}
    {v : VerseContext} (h : v ∈ guardSurvivors query verses) :
    v ∈ verses
      ∧ (∀ p ∈ combinedExclusions query, strContains (jsToLower v.text) p = false)
      ∧ v.reference ∉ (mergedPriority query).map (·.reference) := by
  unfold guardSurvivors at h
  simp only at h
  have hm := List.mem_filter.mp h
  obtain ⟨hv, hcond⟩ := hm
  simp only [Bool.and_eq_true, Bool.not_eq_true'] at hcond
  obtain ⟨hc1, hc2⟩ := hcond
  refine ⟨hv, ?_, ?_⟩
  · intro p hp
    by_contra hcontra
    have : (combinedExclusions query).any
        (fun p => strContains (jsToLower v.text) p) = true := by
      exact List.any_eq_true.mpr ⟨p, hp, by
        cases hsc : strContains (jsToLower v.text) p with
        | true => simp
        | false => exact absurd hsc hcontra⟩
    rw [this] at hc2
    exact absurd hc2 (by simp)
  · intro hmem
    have : ((mergedPriority query).map (·.reference)).contains v.reference = true := by
      exact List.elem_iff.mpr hmem
    rw [this] at hc1
    exact absurd hc1 (by simp)

/-- C1 (amended): for every query that fires at least one topic guard, the
guard stage returns exactly the merged priority verses of all fired guards
(each guard's `priority` list, then its conditional-priority verses, in
guard declaration order, deduplicated by reference against earlier entries)
followed by the surviving retrieved verses; every surviving retrieved verse
comes from the input and its text contains no exclusion pattern of a fired
guard (case-insensitively); and no fired guard's priority verse is ever
removed — its reference always appears in the output. -/
theorem c1_amended_guard_stage (query : String) (verses : List VerseContext)
    (h : 0 < (firedGuards query).length) :
    applyTopicGuards query verses
        = mergedPriority query ++ guardSurvivors query verses
    ∧ (∀ v ∈ guardSurvivors query verses, v ∈ verses
        ∧ ∀ p ∈ combinedExclusions query, strContains (jsToLower v.text) p = false)
    ∧ (∀ g ∈ firedGuards query, ∀ w ∈ g.priority,
        w.reference ∈ (applyTopicGuards query verses).map (·.reference)) := by
  refine ⟨applyTopicGuards_eq verses h, ?_, ?_⟩
  · intro v hv
    have := guardSurvivors_spec hv
    exact ⟨this.1, this.2.1⟩
  · intro g hg w hw
    rw [applyTopicGuards_eq verses h]
    simp only [List.map_append, List.mem_append]
    exact Or.inl (mergedPriority_priority_mem hg hw)

/-- Witness for C1: the query `"Is lying wrong?"` fires the lying guard; the
guard stage puts the four lying-guard priority verses first, keeps the
ordinary retrieved verse, and its survivors contain no exclusion pattern. -/
theorem c1_amended_guard_stage_witness :
    0 < (firedGuards "Is lying wrong?").length
    ∧ (applyTopicGuards "Is lying wrong?"
        [pv "PSA 1:1" "Blessed is the man."]
        = mergedPriority "Is lying wrong?"
          ++ guardSurvivors "Is lying wrong?" [pv "PSA 1:1" "Blessed is the man."]) := by
  exact ⟨by decide, (c1_amended_guard_stage "Is lying wrong?"
    [pv "PSA 1:1" "Blessed is the man."] (by decide)).1⟩

/-- Counterexample to C1 as stated: the query `"adultery"` contains the
keyword `"adultery"` of the divorce guard, but the guard stage's output does
not begin with the divorce guard's priority verses (the adultery guard,
declared earlier, wins the prefix). -/
theorem c1_counterexample :
    ("adultery" ∈ divorceGuard.keywords
      ∧ divorceGuard ∈ topicGuards
      ∧ strContains (jsToLower "adultery") "adultery" = true)
    ∧ ((applyTopicGuards "adultery" []).map (·.reference)).take 3
        ≠ (divorceGuard.priority.map (·.reference)).take 3 := by
  refine ⟨⟨?_, ?_, by decide⟩, by decide⟩
  · simp [divorceGuard]
  · simp [topicGuards]

/-- C10 (amended): when the query matches the exclusive
`canaanite_conquest` curated list but not the `women` curated list (which is
checked first), the curated stage discards the guard stage's entire output
and returns exactly the canaanite-conquest verses; no topic guard's priority
verse reference occurs among them. -/
theorem c10_amended_curated_precedence (query : String) (verses : List VerseContext)
    (hc : canaaniteConquestList.keywords.any
      (fun k => strContains (jsToLower query) k) = true)
    (hw : womenList.keywords.any (fun k => strContains (jsToLower query) k) = false) :
    applyCuratedTopicalLists query (applyTopicGuards query verses)
        = canaaniteConquestList.verses
    ∧ (∀ g ∈ topicGuards, ∀ w ∈ g.priority,
        w.reference ∉ canaaniteConquestList.verses.map (·.reference)) := by
  constructor
  · unfold applyCuratedTopicalLists curatedTopicalLists applyCuratedAux
    rw [hw]
    simp only [Bool.false_eq_true, if_neg, not_false_eq_true]
    unfold applyCuratedAux
    rw [hc]
    simp
  · decide

/-- Witness for C10: `"the canaanite genocide"` matches only the exclusive
curated list; the guard-stage output is replaced wholesale. -/
theorem c10_amended_curated_precedence_witness :
    applyCuratedTopicalLists "the canaanite genocide"
        (applyTopicGuards "the canaanite genocide" [pv "PSA 1:1" "Blessed is the man."])
      = canaaniteConquestList.verses :=
  (c10_amended_curated_precedence "the canaanite genocide"
    [pv "PSA 1:1" "Blessed is the man."] (by decide) (by decide)).1

/-- Counterexample to C10 as stated: `"female women of the bible canaanite"`
matches the feminism guard and the canaanite-conquest list, but it also
matches the `women` curated list, which is checked first — so the curated
stage does not return the canaanite verses, and the feminism guard's
priority verse `EPH 5:22` survives into the result. -/
theorem c10_counterexample :
    (canaaniteConquestList.keywords.any
        (fun k => strContains (jsToLower "female women of the bible canaanite") k) = true
      ∧ "female" ∈ feminismGuard.keywords
      ∧ feminismGuard ∈ topicGuards
      ∧ strContains (jsToLower "female women of the bible canaanite") "female" = true)
    ∧ applyCuratedTopicalLists "female women of the bible canaanite"
        (applyTopicGuards "female women of the bible canaanite" [])
        ≠ canaaniteConquestList.verses
    ∧ pv "EPH 5:22" "Wives, submit to your husbands as to the Lord."
        ∈ applyCuratedTopicalLists "female women of the bible canaanite"
          (applyTopicGuards "female women of the bible canaanite" []) := by
  refine ⟨⟨by decide, ?_, ?_, by decide⟩, by decide, by decide⟩
  · simp [feminismGuard]
  · simp [topicGuards]

/-! ## Deduplication at the addUnique merge points (claim C4) -/

/-- No two entries share a normalized (upper-cased, trimmed) reference, and
no two entries share a trimmed text. -/
def mergeDistinct (vs : List VerseContext) : Prop :=
  vs.Pairwise (fun a b =>
    jsToUpper (jsTrim a.reference) ≠ jsToUpper (jsTrim b.reference)
    ∧ jsTrim a.text ≠ jsTrim b.text)

theorem addUnique_preserves {vs : List VerseContext} (row : VerseContext)
    (h : mergeDistinct vs) : mergeDistinct (addUnique vs row) := by
  unfold addUnique
  split
  · next hcond =>
    rw [Bool.and_eq_true, Bool.not_eq_true', Bool.not_eq_true'] at hcond
    obtain ⟨h1, h2⟩ := hcond
    rw [List.any_eq_false] at h1 h2
    simp only [decide_eq_true_eq] at h1 h2
    unfold mergeDistinct
    rw [List.pairwise_append]
    refine ⟨h, List.pairwise_singleton _ _, ?_⟩
    intro a ha b hb
    simp only [List.mem_singleton] at hb
    constructor
    · intro heq
      rw [hb] at heq
      exact h1 a ha heq
    · intro heq
      rw [hb] at heq
      exact h2 a ha heq
  · exact h

theorem mergeUnique_distinct :
    ∀ (rows init : List VerseContext), mergeDistinct init →
    mergeDistinct (mergeUnique init rows) := by
  intro rows
  induction rows with
  | nil =>
    intro init h
    exact h
  | cons row rows ih =>
    intro init h
    unfold mergeUnique at ih ⊢
    rw [List.foldl_cons]
    exact ih _ (addUnique_preserves row h)

/-- C4 (amended): equal normalized reference or equal trimmed text counts as
a duplicate at the two `addUnique` merge points (the priority/direct merge
and the vector merge): any list built by `mergeUnique` from a duplicate-free
start — in particular the merged base candidate list of the store path — has
pairwise distinct normalized references and pairwise distinct trimmed texts.
(The guard, curated-list and cross-reference stages deduplicate by reference
only, so the final list may contain two entries with equal trimmed text; see
the counterexample.) -/
theorem c4_amended_merge_dedup (init rows : List VerseContext)
    (h : mergeDistinct init) :
    mergeDistinct (mergeUnique init rows)
    ∧ ∀ (db : Db) (query translation : String),
        mergeDistinct (dbBaseVerses db query translation) := by
  refine ⟨mergeUnique_distinct rows init h, ?_⟩
  intro db query translation
  unfold dbBaseVerses
  exact mergeUnique_distinct _ [] (List.Pairwise.nil)

/-- Witness for C4: a merge of three rows with a repeated reference and
repeated text yields a duplicate-free list. -/
theorem c4_amended_merge_dedup_witness :
    mergeDistinct (mergeUnique []
      [pv "GEN 1:1" "In the beginning", pv "GEN 1:1" "In the beginning",
       pv "EXO 1:1" "These are the names"]) :=
  (c4_amended_merge_dedup []
    [pv "GEN 1:1" "In the beginning", pv "GEN 1:1" "In the beginning",
     pv "EXO 1:1" "These are the names"] List.Pairwise.nil).1

/-- Whether some string occurs twice in the list. -/
def listHasDup : List String → Bool
  | [] => false
  | x :: xs => xs.contains x || listHasDup xs

/-- An environment in which every external collaborator is idle. -/
def idleEnv : Env :=
  { now := 0, cacheErr := false, db := .ok ⟨[], []⟩, hfToken := false,
    hfResponse := .error "boom", vectorOrder := fun _ l => l, groqKey := false,
    groqGen := fun _ => .error "boom", helloAO := fun _ _ _ _ _ => none,
    fallbackFetch := fun _ _ => none, strongsApi := fun _ => none,
    bollsChapter := fun _ _ => none, bibleIndex := fun _ => none,
    strongsDict := fun _ => none }

/-- An environment whose store holds one verse (`DEU 5:20`) whose text
equals the lying guard's `EXO 20:16` priority text, with a healthy embedding
provider. -/
def dupTextEnv : Env :=
  { idleEnv with
    hfToken := true
    hfResponse := .ok [.flat (List.replicate 384 (0 : Rat))]
    db := .ok ⟨[⟨"DEU", 5, 20,
      "You shall not bear false witness against your neighbor.", "BSB", true⟩], []⟩ }

set_option maxRecDepth 100000 in
/-- Counterexample to C4 as stated: on the store-backed path the query
`"lying"` returns both the lying guard's `EXO 20:16` priority verse and the
vector-retrieved `DEU 5:20`, whose trimmed texts are equal — the guard
prepend deduplicates by reference only. -/
theorem c4_counterexample :
    ((retrieveContextFromDb dupTextEnv "lying" "BSB" emptySt).res.map
        (fun vs => vs.map (·.reference)))
      = .ok ["EXO 20:16", "PRO 6:16-19", "EPH 4:25", "PRO 12:22", "DEU 5:20"]
    ∧ ((retrieveContextFromDb dupTextEnv "lying" "BSB" emptySt).res.map
        (fun vs => listHasDup (vs.map (fun v => jsTrim v.text)))) = .ok true := by
  constructor
  · decide
  · decide

/-! ## Run characterizations of the store-backed pipeline -/

theorem run_emit (e : Eff) (s : St) : emitEff e s = ⟨.ok (), s, [e]⟩ := rfl

theorem run_throwM {α : Type} (e : String) (s : St) :
    (throwM e : M α) s = ⟨.error e, s, []⟩ := rfl

/-- The cache value a read would observe (given the backend state). -/
def cachedValue (env : Env) (s : St) (key : String) : Option CacheVal :=
  if env.cacheErr then none else lookupCache env.now s.cache key

theorem run_getCached (env : Env) (key : String) (s : St) :
    getCached env key s = ⟨.ok (cachedValue env s key), s, [.cacheGet key]⟩ := by
  unfold getCached cachedValue
  by_cases h : env.cacheErr
  · have hx : redisGet env key s = ⟨.error "Redis get failed", s, [.cacheGet key]⟩ := by
      simp [redisGet, h]
    rw [run_tryCatch_err _ hx]
    simp [h, run_pure]
  · have hx : redisGet env key s
        = ⟨.ok (lookupCache env.now s.cache key), s, [.cacheGet key]⟩ := by
      simp [redisGet, h]
    rw [run_tryCatch_ok _ hx]
    simp [h]

theorem run_setCached (env : Env) (key : String) (val : CacheVal) (ttl : Nat) (s : St) :
    setCached env key val ttl s
      = ⟨.ok (), if env.cacheErr then s else ⟨⟨key, env.now + ttl, val⟩ :: s.cache⟩,
         [.cacheSet key]⟩ := by
  unfold setCached
  by_cases h : env.cacheErr
  · have hx : redisSet env key val ttl s = ⟨.error "Redis set failed", s, [.cacheSet key]⟩ := by
      simp [redisSet, h]
    rw [run_tryCatch_err _ hx]
    simp [h, run_pure]
  · have hx : redisSet env key val ttl s
        = ⟨.ok (), ⟨⟨key, env.now + ttl, val⟩ :: s.cache⟩, [.cacheSet key]⟩ := by
      simp [redisSet, h]
    rw [run_tryCatch_ok _ hx]
    simp [h]

theorem run_ensureDbReady_ok {env : Env} {db : Db} (hdb : env.db = .ok db) (s : St) :
    ensureDbReadyM env s = ⟨.ok db, s, [.dbQuery]⟩ := by
  unfold ensureDbReadyM
  rw [run_bind_ok _ (run_emit .dbQuery s)]
  simp [hdb, run_pure]

theorem run_ensureDbReady_err {env : Env} {e : String} (hdb : env.db = .error e) (s : St) :
    ensureDbReadyM env s = ⟨.error e, s, [.dbQuery]⟩ := by
  unfold ensureDbReadyM
  rw [run_bind_ok _ (run_emit .dbQuery s)]
  simp [hdb, run_throwM]

theorem versesByRefs_nil (db : Db) (translation : String) :
    versesByRefs db [] translation = [] := by
  simp [versesByRefs]

theorem run_fetchVersesByRefs (env : Env) (db : Db) (refs : List RefKey)
    (translation : String) (s : St) :
    fetchVersesByRefs env db refs translation s
      = ⟨.ok (versesByRefs db refs translation), s,
         if refs.isEmpty then [] else [.dbQuery]⟩ := by
  unfold fetchVersesByRefs
  by_cases h : refs.isEmpty
  · have : refs = [] := by
      cases refs with
      | nil => rfl
      | cons a as => simp at h
    subst this
    simp [h, run_pure, versesByRefs_nil]
  · simp only [h, Bool.false_eq_true, if_neg, not_false_eq_true]
    rw [run_bind_ok _ (run_emit .dbQuery s)]
    simp [run_pure, h]

theorem run_vectorSearchVerses (env : Env) (db : Db) (emb : List Rat)
    (translation : String) (limit : Nat) (s : St) :
    vectorSearchVerses env db emb translation limit s
      = ⟨.ok (((env.vectorOrder emb
          (db.verses.filter (fun r => r.translation = translation && r.hasEmbedding))).take
            limit).map rowToVerse), s, [.dbQuery]⟩ := by
  unfold vectorSearchVerses
  rw [run_bind_ok _ (run_emit .dbQuery s)]
  simp [run_pure]

/-- The pure value of `getTskCrossReferences`. -/
def tskValue (db : Db) (core : List VerseContext) (translation : String) :
    List VerseContext :=
  if core.isEmpty then []
  else
    let refs := core.filterMap (fun v => parseReferenceKey v.reference)
    if refs.isEmpty then []
    else
      let rows := tskEdges db refs
      if rows.isEmpty then []
      else
        let targetRefs := tskTargetKeys rows refs
        if targetRefs.isEmpty then []
        else (versesByRefs db targetRefs translation).map
          (fun v => { v with isCrossReference := true })

theorem run_getTsk (env : Env) (db : Db) (core : List VerseContext)
    (translation : String) (s : St) :
    ∃ tr, getTskCrossReferences env db core translation s
        = ⟨.ok (tskValue db core translation), s, tr⟩
      ∧ ∀ e ∈ tr, e = Eff.dbQuery := by
  unfold getTskCrossReferences tskValue
  by_cases h1 : core.isEmpty
  · exact ⟨[], by simp [h1, run_pure], by simp⟩
  · simp only [h1, Bool.false_eq_true, if_neg, not_false_eq_true]
    by_cases h2 : (core.filterMap (fun v => parseReferenceKey v.reference)).isEmpty
    · exact ⟨[], by simp [h2, run_pure], by simp⟩
    · simp only [h2, Bool.false_eq_true, if_neg, not_false_eq_true]
      by_cases h3 : (tskEdges db (core.filterMap (fun v => parseReferenceKey v.reference))).isEmpty
      · refine ⟨[.dbQuery], ?_, by simp⟩
        rw [run_bind_ok _ (run_emit .dbQuery s)]
        simp [h3, run_pure]
      · by_cases h4 : (tskTargetKeys
            (tskEdges db (core.filterMap (fun v => parseReferenceKey v.reference)))
            (core.filterMap (fun v => parseReferenceKey v.reference))).isEmpty
        · refine ⟨[.dbQuery], ?_, by simp⟩
          rw [run_bind_ok _ (run_emit .dbQuery s)]
          simp [h3, h4, run_pure]
        · refine ⟨[.dbQuery] ++ (if (tskTargetKeys
              (tskEdges db (core.filterMap (fun v => parseReferenceKey v.reference)))
              (core.filterMap (fun v => parseReferenceKey v.reference))).isEmpty then []
              else [.dbQuery]), ?_, ?_⟩
          · rw [run_bind_ok _ (run_emit .dbQuery s)]
            simp only [h3, Bool.false_eq_true, if_neg, not_false_eq_true, h4]
            rw [run_bind_ok _ (run_fetchVersesByRefs env db _ translation s)]
            simp [run_pure, h3, h4]
          · intro e he
            simp only [List.mem_append, List.mem_singleton] at he
            rcases he with he | he
            · exact he
            · split at he
              · simp at he
              · simp only [List.mem_singleton] at he
                exact he

/-- The value of the whole tail stage. -/
def dbFinishValue (env : Env) (db : Db) (query translation : String)
    (verses : List VerseContext) : List VerseContext :=
  attachIndexedOriginals env
    (applyCuratedTopicalLists query (applyTopicGuards query verses)
      ++ tskValue db (applyCuratedTopicalLists query (applyTopicGuards query verses))
        translation)

theorem run_dbFinish (env : Env) (db : Db) (query translation : String)
    (verses : List VerseContext) (s : St) :
    ∃ tr, dbFinish env db query translation verses s
        = ⟨.ok (dbFinishValue env db query translation verses), s, tr⟩
      ∧ ∀ e ∈ tr, e = Eff.dbQuery := by
  obtain ⟨tr, htsk, hmem⟩ := run_getTsk env db
    (applyCuratedTopicalLists query (applyTopicGuards query verses)) translation s
  refine ⟨tr, ?_, hmem⟩
  unfold dbFinish dbFinishValue
  have hinner : ((do
      let tsk ← getTskCrossReferences env db
        (applyCuratedTopicalLists query (applyTopicGuards query verses)) translation
      pure (applyCuratedTopicalLists query (applyTopicGuards query verses) ++ tsk)) : M _) s
      = ⟨.ok (applyCuratedTopicalLists query (applyTopicGuards query verses)
          ++ tskValue db (applyCuratedTopicalLists query (applyTopicGuards query verses))
            translation), s, tr⟩ := by
    rw [run_bind_ok _ htsk]
    simp [run_pure]
  rw [run_bind_ok _ (run_tryCatch_ok _ hinner)]
  simp [run_pure]

theorem run_retrieveFromDb {env : Env} {db : Db} (hdb : env.db = .ok db)
    (query translation : String) (s : St) :
    retrieveContextFromDb env query translation s
      = (let o := (dbVectorStage env db query translation
            (dbBaseVerses db query translation) >>= dbFinish env db query translation) s
         ⟨o.res, o.st,
          ([Eff.dbQuery]
            ++ (if (directKeys query).isEmpty then [] else [Eff.dbQuery])
            ++ (if ((prioritizedRefStrings (jsToLower query)).map
                parsePrioritizedRef).isEmpty then [] else [Eff.dbQuery]))
            ++ o.tr⟩) := by
  unfold retrieveContextFromDb
  rw [run_bind_ok _ (run_ensureDbReady_ok hdb s)]
  rw [run_bind_ok _ (run_fetchVersesByRefs env db (directKeys query) translation s)]
  rw [run_bind_ok _ (run_fetchVersesByRefs env db
    ((prioritizedRefStrings (jsToLower query)).map parsePrioritizedRef) translation s)]
  have hbase : mergeUnique []
      (versesByRefs db ((prioritizedRefStrings (jsToLower query)).map parsePrioritizedRef)
        translation ++ versesByRefs db (directKeys query) translation)
      = dbBaseVerses db query translation := by
    simp [dbBaseVerses]
  simp only [hbase]
  simp [run_bind, List.append_assoc]

/-! ## Claim C5: the vector stage is skipped when the quota is already met -/

theorem run_dbVectorStage_skip {db : Db} {query translation : String}
    {base : List VerseContext} (env : Env)
    (h : VECTOR_LIMIT ≤ base.length
      ∨ (0 < base.length ∧ (jsToLower query).length ≤ 12)) (s : St) :
    dbVectorStage env db query translation base s = ⟨.ok base, s, []⟩ := by
  unfold dbVectorStage
  rw [if_pos h]
  rfl

/-- C5: whenever the direct-reference and priority stages already produced at
least `VECTOR_LIMIT = 6` candidates — or at least one candidate while the
lower-cased query has length at most 12 — the store-backed retrieval makes
no embedding call at all: its trace contains no embedding HTTP request and
no cache read (in particular no embedding-cache read). -/
theorem c5_vector_skip (env : Env) (db : Db) (query translation : String) (s : St)
    (hdb : env.db = .ok db)
    (h : VECTOR_LIMIT ≤ (dbBaseVerses db query translation).length
      ∨ (0 < (dbBaseVerses db query translation).length
          ∧ (jsToLower query).length ≤ 12)) :
    Eff.embedHttp ∉ (retrieveContextFromDb env query translation s).tr
    ∧ ∀ k, Eff.cacheGet k ∉ (retrieveContextFromDb env query translation s).tr := by
  have hall : ∀ e ∈ (retrieveContextFromDb env query translation s).tr,
      e = Eff.dbQuery := by
    rw [run_retrieveFromDb hdb]
    obtain ⟨tr, hfin, hmem⟩ := run_dbFinish env db query translation
      (dbBaseVerses db query translation) s
    have ho : (dbVectorStage env db query translation (dbBaseVerses db query translation)
        >>= dbFinish env db query translation) s
        = ⟨.ok (dbFinishValue env db query translation (dbBaseVerses db query translation)),
           s, [] ++ tr⟩ := by
      rw [run_bind_ok _ (run_dbVectorStage_skip env h s)]
      rw [hfin]
    simp only [ho]
    intro e he
    simp only [List.mem_append, List.mem_singleton, List.nil_append] at he
    rcases he with ((he | he) | he) | he
    · exact he
    · split at he
      · simp at he
      · simp only [List.mem_singleton] at he
        exact he
    · split at he
      · simp at he
      · simp only [List.mem_singleton] at he
        exact he
    · exact hmem e he
  constructor
  · intro hcontra
    exact absurd (hall _ hcontra) (by simp)
  · intro k hcontra
    exact absurd (hall _ hcontra) (by simp)

/-- A store with the six Decalogue rows the witness query triggers. -/
def sixRowDb : Db :=
  ⟨[⟨"EXO", 20, 8, "Remember the sabbath day.", "BSB", false⟩,
    ⟨"EXO", 20, 13, "You shall not murder.", "BSB", false⟩,
    ⟨"EXO", 20, 14, "You shall not commit adultery.", "BSB", false⟩,
    ⟨"EXO", 20, 15, "You shall not steal.", "BSB", false⟩,
    ⟨"EXO", 20, 16, "You shall not bear false witness.", "BSB", false⟩,
    ⟨"EXO", 20, 17, "You shall not covet.", "BSB", false⟩], []⟩

def skipEnv : Env := { idleEnv with db := .ok sixRowDb }

set_option maxRecDepth 100000 in
/-- Witness for C5: a query triggering six priority references against a
store holding all six rows skips the embedding call entirely. -/
theorem c5_vector_skip_witness :
    Eff.embedHttp ∉ (retrieveContextFromDb skipEnv
      "murder adultery theft sabbath covet false witness" "BSB" emptySt).tr :=
  (c5_vector_skip skipEnv sixRowDb
    "murder adultery theft sabbath covet false witness" "BSB" emptySt rfl
    (by decide)).1

/-! ## Claim C6: embedding failure degrades the vector stage -/

/-- The pure outcome of a fresh (uncached) embedding attempt: token check,
HTTP call, shape normalisation and dimension check, as in `embedQuery`. -/
def embedOutcome (env : Env) : Except String (List Rat) :=
  if ¬ env.hfToken then .error "HF_TOKEN is not set"
  else
    match env.hfResponse with
    | .error e => .error ("HF embeddings failed: " ++ e)
    | .ok [] => .error "HF embeddings response was not an array"
    | .ok (raw :: _) =>
      match normalizeEmbedding raw with
      | .error e => .error e
      | .ok embedding =>
        if embedding.length ≠ 384 then
          .error "Embedding dimension mismatch; expected 384"
        else .ok embedding

/-- A failing embedding attempt on a cache miss: `embedQuery` raises the
failure, leaves the state unchanged, and its trace holds only the
embedding-cache read and the HTTP attempt. -/
theorem run_embedQuery_err (env : Env) (query : String) {e : String} (s : St)
    (hmiss : cachedValue env s (embedCacheKey query) = none)
    (hout : embedOutcome env = .error e) :
    ∃ tr, embedQuery env query s = ⟨.error e, s, tr⟩
      ∧ ∀ x ∈ tr, x = Eff.cacheGet (embedCacheKey query) ∨ x = Eff.embedHttp := by
  unfold embedOutcome at hout
  by_cases ht : env.hfToken
  · rw [if_neg (by simp [ht])] at hout
    cases hr : env.hfResponse with
    | error e0 =>
      rw [hr] at hout
      simp only [] at hout
      injection hout with hout
      subst hout
      refine ⟨[.cacheGet (embedCacheKey query), .embedHttp], ?_, by simp⟩
      unfold embedQuery
      rw [run_bind_ok _ (run_getCached env (embedCacheKey query) s), hmiss]
      simp [ht, hr, run_bind, run_emit, run_throwM]
    | ok l =>
      cases l with
      | nil =>
        rw [hr] at hout
        simp only [] at hout
        injection hout with hout
        subst hout
        refine ⟨[.cacheGet (embedCacheKey query), .embedHttp], ?_, by simp⟩
        unfold embedQuery
        rw [run_bind_ok _ (run_getCached env (embedCacheKey query) s), hmiss]
        simp [ht, hr, run_bind, run_emit, run_throwM]
      | cons raw rest =>
        rw [hr] at hout
        simp only [] at hout
        cases hn : normalizeEmbedding raw with
        | error e1 =>
          rw [hn] at hout
          simp only [] at hout
          injection hout with hout
          subst hout
          refine ⟨[.cacheGet (embedCacheKey query), .embedHttp], ?_, by simp⟩
          unfold embedQuery
          rw [run_bind_ok _ (run_getCached env (embedCacheKey query) s), hmiss]
          simp [ht, hr, hn, run_bind, run_emit, run_throwM]
        | ok emb =>
          rw [hn] at hout
          simp only [] at hout
          by_cases hd : emb.length = 384
          · rw [if_neg (by simp [hd])] at hout
            exact absurd hout (by simp)
          · rw [if_pos hd] at hout
            injection hout with hout
            subst hout
            refine ⟨[.cacheGet (embedCacheKey query), .embedHttp], ?_, by simp⟩
            unfold embedQuery
            rw [run_bind_ok _ (run_getCached env (embedCacheKey query) s), hmiss]
            simp [ht, hr, hn, hd, run_bind, run_emit, run_throwM]
  · rw [if_pos ht] at hout
    injection hout with hout
    subst hout
    rw [Bool.not_eq_true] at ht
    refine ⟨[.cacheGet (embedCacheKey query)], ?_, by simp⟩
    unfold embedQuery
    rw [run_bind_ok _ (run_getCached env (embedCacheKey query) s), hmiss]
    simp [ht, run_throwM]

/-- With an uncached failing embedding attempt and no skip, the vector stage
returns the base unchanged (or raises when there is no base at all), makes
no store query, and leaves the state untouched. -/
theorem run_dbVectorStage_embedFail (env : Env) (db : Db)
    (query translation : String) (base : List VerseContext) (s : St)
    (hmiss : cachedValue env s (embedCacheKey query) = none)
    (hfail : ∃ e, embedOutcome env = .error e)
    (hskip : ¬ (VECTOR_LIMIT ≤ base.length
      ∨ (0 < base.length ∧ (jsToLower query).length ≤ 12))) :
    ∃ tr, dbVectorStage env db query translation base s
        = ⟨if base.isEmpty then
             .error "Vector retrieval unavailable and no direct references found."
           else .ok base, s, tr⟩
      ∧ ∀ x ∈ tr, x = Eff.cacheGet (embedCacheKey query) ∨ x = Eff.embedHttp := by
  obtain ⟨e, he⟩ := hfail
  obtain ⟨trE, hrunE, hmemE⟩ := run_embedQuery_err env query s hmiss he
  refine ⟨trE, ?_, hmemE⟩
  unfold dbVectorStage
  rw [if_neg hskip]
  have hin : ((do
      let e ← embedQuery env query
      pure (some e)) : M (Option (List Rat))) s = ⟨.error e, s, trE⟩ :=
    run_bind_err _ hrunE
  have htc : tryCatchM ((do
      let e ← embedQuery env query
      pure (some e)) : M (Option (List Rat))) (fun _ => pure none) s
      = ⟨.ok none, s, trE⟩ := by
    rw [run_tryCatch_err _ hin]
    simp [run_pure]
  rw [run_bind_ok _ htc]
  by_cases hb : base.isEmpty
  · simp [hb, run_throwM]
  · simp [hb, run_pure]

/-- `cloneVerses` is the identity (a deep copy of immutable values). -/
theorem cloneVerses_id (vs : List VerseContext) : cloneVerses vs = vs := by
  unfold cloneVerses
  simp

/-- Orchestrator run on a context-cache miss whose store-backed attempt
fails with the state intact: the caught failure routes the request to the
pure-API path, whose result (cloned on success) is the answer. -/
theorem run_forQuery_dbFail (env : Env) (query translation : String)
    (apiKey : Bool) (s : St) {e : String} {trD : List Eff}
    (hctx : cachedValue env s (contextCacheKey query translation) = none)
    (hD : retrieveContextFromDb env query translation s = ⟨.error e, s, trD⟩) :
    (retrieveContextForQuery env query translation apiKey s).res
      = (retrieveContextViaApis env query translation apiKey s).res.map cloneVerses := by
  unfold retrieveContextForQuery
  rw [run_bind_ok _ (run_getCached env (contextCacheKey query translation) s), hctx]
  have hA : tryCatchM ((do
      let vs ← retrieveContextFromDb env query translation
      pure (some vs)) : M (Option (List VerseContext))) (fun _ => pure none) s
      = ⟨.ok none, s, trD⟩ := by
    have hin : ((do
        let vs ← retrieveContextFromDb env query translation
        pure (some vs)) : M (Option (List VerseContext))) s = ⟨.error e, s, trD⟩ :=
      run_bind_err _ hD
    rw [run_tryCatch_err _ hin]
    simp [run_pure]
  simp only []
  rw [run_bind_ok _ hA]
  simp only []
  rcases hapi : retrieveContextViaApis env query translation apiKey s with ⟨r, s1, t1⟩
  cases r with
  | ok vs =>
    rw [run_bind_ok _ hapi]
    simp only []
    rw [run_bind_ok _ (run_setCached env (contextCacheKey query translation)
      (.ctx vs) CACHE_TTL_SECONDS s1)]
    simp [run_pure, Except.map]
  | error eA =>
    rw [run_bind_err _ hapi]
    simp [Except.map]

/-- C6: on the store-backed path, when the embedding computation fails
(missing token, HTTP failure, malformed response, or a returned vector of
the wrong dimension — `embedQuery` raises on all of them) and the vector
stage is not skipped: with at least one candidate already present the
vector stage is a no-op and the pipeline continues to the guard/TSK tail;
with zero candidates the stage raises, and the orchestrator catches the
failure and answers from the pure-API fallback path. -/
theorem c6_embedding_failure_degrades (env : Env) (db : Db)
    (query translation : String) (apiKey : Bool) (s : St)
    (hdb : env.db = .ok db)
    (hmiss : cachedValue env s (embedCacheKey query) = none)
    (hctx : cachedValue env s (contextCacheKey query translation) = none)
    (hfail : ∃ e, embedOutcome env = .error e)
    (hskip : ¬ (VECTOR_LIMIT ≤ (dbBaseVerses db query translation).length
      ∨ (0 < (dbBaseVerses db query translation).length
          ∧ (jsToLower query).length ≤ 12))) :
    (dbBaseVerses db query translation ≠ [] →
      (retrieveContextFromDb env query translation s).res
        = .ok (dbFinishValue env db query translation (dbBaseVerses db query translation)))
    ∧ (dbBaseVerses db query translation = [] →
        (retrieveContextFromDb env query translation s).res
          = .error "Vector retrieval unavailable and no direct references found."
        ∧ (retrieveContextForQuery env query translation apiKey s).res
          = (retrieveContextViaApis env query translation apiKey s).res) := by
  obtain ⟨trV, hstage, hmemV⟩ := run_dbVectorStage_embedFail env db query translation
    (dbBaseVerses db query translation) s hmiss hfail hskip
  constructor
  · intro hne
    have hb : (dbBaseVerses db query translation).isEmpty = false := by
      rw [← Bool.not_eq_true, List.isEmpty_iff]
      exact hne
    rw [hb] at hstage
    rw [if_neg (by simp)] at hstage
    obtain ⟨trF, hfin, hmemF⟩ := run_dbFinish env db query translation
      (dbBaseVerses db query translation) s
    have ho : (dbVectorStage env db query translation (dbBaseVerses db query translation)
        >>= dbFinish env db query translation) s
        = ⟨.ok (dbFinishValue env db query translation (dbBaseVerses db query translation)),
           s, trV ++ trF⟩ := by
      rw [run_bind_ok _ hstage]
      rw [hfin]
    rw [run_retrieveFromDb hdb]
    simp only [ho]
  · intro hnil
    have hb : (dbBaseVerses db query translation).isEmpty = true := by
      rw [List.isEmpty_iff]
      exact hnil
    rw [hb] at hstage
    rw [if_pos rfl] at hstage
    have ho : (dbVectorStage env db query translation (dbBaseVerses db query translation)
        >>= dbFinish env db query translation) s
        = ⟨.error "Vector retrieval unavailable and no direct references found.", s, trV⟩ :=
      run_bind_err _ hstage
    have hD : retrieveContextFromDb env query translation s
        = ⟨.error "Vector retrieval unavailable and no direct references found.", s,
           ([Eff.dbQuery]
             ++ (if (directKeys query).isEmpty then [] else [Eff.dbQuery])
             ++ (if ((prioritizedRefStrings (jsToLower query)).map
                 parsePrioritizedRef).isEmpty then [] else [Eff.dbQuery]))
             ++ trV⟩ := by
      rw [run_retrieveFromDb hdb]
      simp only [ho]
    refine ⟨by rw [hD], ?_⟩
    rw [run_forQuery_dbFail env query translation apiKey s hctx hD]
    cases hres : (retrieveContextViaApis env query translation apiKey s).res with
    | ok vs => simp [Except.map, cloneVerses_id]
    | error eA => simp [Except.map]

/-- A store holding only the murder commandment. -/
def murderDb : Db :=
  ⟨[⟨"EXO", 20, 13, "You shall not murder.", "BSB", false⟩], []⟩

/-- An idle environment (no HF token, so every embedding attempt fails)
whose store holds the murder commandment. -/
def noTokenEnv : Env := { idleEnv with db := .ok murderDb }

set_option maxRecDepth 100000 in
/-- Witness for C6: with embeddings failing for lack of a token, the query
about murder (one store candidate) still answers from the store, while a
query matching nothing makes the store path raise and the orchestrator
answer from the API path. -/
theorem c6_embedding_failure_degrades_witness :
    ((retrieveContextFromDb noTokenEnv "is murder always wrong" "BSB" emptySt).res
      = .ok (dbFinishValue noTokenEnv murderDb "is murder always wrong" "BSB"
          (dbBaseVerses murderDb "is murder always wrong" "BSB")))
    ∧ ((retrieveContextFromDb idleEnv "qqq www eee" "BSB" emptySt).res
        = .error "Vector retrieval unavailable and no direct references found."
      ∧ (retrieveContextForQuery idleEnv "qqq www eee" "BSB" false emptySt).res
        = (retrieveContextViaApis idleEnv "qqq www eee" "BSB" false emptySt).res) :=
  ⟨(c6_embedding_failure_degrades noTokenEnv murderDb "is murder always wrong" "BSB"
      false emptySt rfl rfl rfl ⟨"HF_TOKEN is not set", rfl⟩ (by decide)).1
      (by decide),
   (c6_embedding_failure_degrades idleEnv ⟨[], []⟩ "qqq www eee" "BSB" false emptySt
      rfl rfl rfl ⟨"HF_TOKEN is not set", rfl⟩ (by decide)).2 (by decide)⟩

/-! ## Claim C9: ordered model fallback in the chat route -/

/-- A success at position `m` after a failing prefix returns that success,
having tried exactly the prefix and `m`. -/
theorem attemptModels_ok {α : Type} (run : String → Except String α) :
    ∀ (pre : List String) (m : String) (post : List String) (a : α)
      (lastErr : Option String),
      (∀ x ∈ pre, ∃ e, run x = .error e) → run m = .ok a →
      attemptModels run (pre ++ m :: post) lastErr = (.ok a, pre ++ [m]) := by
  intro pre
  induction pre with
  | nil =>
    intro m post a lastErr hpre hm
    simp [attemptModels, hm]
  | cons x xs ih =>
    intro m post a lastErr hpre hm
    obtain ⟨e, he⟩ := hpre x (by simp)
    simp only [List.cons_append, attemptModels, he, List.append_eq]
    rw [ih m post a (some e) (fun y hy => hpre y (by simp [hy])) hm]

/-- When every candidate fails, the loop tries them all and ends in an
error. -/
theorem attemptModels_allFail {α : Type} (run : String → Except String α) :
    ∀ (ms : List String) (lastErr : Option String),
      (∀ m ∈ ms, ∃ e, run m = .error e) →
      (∃ e, (attemptModels run ms lastErr).1 = .error e)
      ∧ (attemptModels run ms lastErr).2 = ms := by
  intro ms
  induction ms with
  | nil =>
    intro lastErr h
    exact ⟨⟨lastErr.getD "undefined", rfl⟩, rfl⟩
  | cons x xs ih =>
    intro lastErr h
    obtain ⟨e, he⟩ := h x (by simp)
    obtain ⟨h1, h2⟩ := ih (some e) (fun y hy => h y (by simp [hy]))
    constructor
    · obtain ⟨e2, he2⟩ := h1
      refine ⟨e2, ?_⟩
      simp only [attemptModels, he]
      exact he2
    · simp only [attemptModels, he]
      simp [h2]

/-- C9: the completion call walks the ordered model-candidate list: a
failing model advances to the next candidate, the first success is returned
without trying later candidates (the tried list is the failing prefix plus
the succeeding model), and an error is surfaced only once every candidate
has failed (and then all of them were tried). -/
theorem c9_model_fallback {α : Type} (run : String → Except String α)
    (customApiKey : Bool) :
    (∀ (pre : List String) (m : String) (post : List String) (a : α),
        routeModelCandidates customApiKey = pre ++ m :: post →
        (∀ x ∈ pre, ∃ e, run x = .error e) →
        run m = .ok a →
        attemptModels run (routeModelCandidates customApiKey) none = (.ok a, pre ++ [m]))
    ∧ ((∀ m ∈ routeModelCandidates customApiKey, ∃ e, run m = .error e) →
        (∃ e, (attemptModels run (routeModelCandidates customApiKey) none).1 = .error e)
        ∧ (attemptModels run (routeModelCandidates customApiKey) none).2
            = routeModelCandidates customApiKey) := by
  constructor
  · intro pre m post a hsplit hpre hm
    rw [hsplit]
    exact attemptModels_ok run pre m post a none hpre hm
  · intro hall
    exact attemptModels_allFail run (routeModelCandidates customApiKey) none hall

/-- Witness for C9: without a caller key the 8b model is tried first; when
it fails with a 429 and the 70b model succeeds, the loop returns the 70b
result having tried exactly those two. -/
theorem c9_model_fallback_witness :
    attemptModels (fun m => if m = "llama-3.1-70b-versatile" then Except.ok "answer"
        else Except.error "429") (routeModelCandidates false) none
      = (.ok "answer", ["llama-3.1-8b-instant", "llama-3.1-70b-versatile"]) :=
  (c9_model_fallback (fun m => if m = "llama-3.1-70b-versatile" then Except.ok "answer"
      else Except.error "429") false).1
    ["llama-3.1-8b-instant"] "llama-3.1-70b-versatile"
    ["llama3-8b-8192", "llama3-70b-8192"] "answer" (by decide)
    (by
      intro x hx
      rw [List.mem_singleton] at hx
      subst hx
      exact ⟨"429", by decide⟩)
    (by decide)

/-! ## Claim C8: cache operations are best-effort -/

/-- An idle environment whose cache backend raises on every operation and
whose store holds the murder commandment. -/
def errCacheEnv : Env :=
  { idleEnv with
    cacheErr := true
    db := .ok murderDb }

/-- C8: a cache read or write never surfaces an error (the wrappers catch
the backend failure); under a failing backend the raw operations raise but
`getCached` degrades to a miss and `setCached` to a no-op, both leaving the
state untouched; and a store-backed retrieval request still succeeds with
the cache backend failing the whole time. -/
theorem c8_cache_best_effort (env : Env) (key : String) (val : CacheVal)
    (ttl : Nat) (s : St) :
    ((∃ v, (getCached env key s).res = .ok v)
      ∧ (setCached env key val ttl s).res = .ok ())
    ∧ (env.cacheErr = true →
        redisGet env key s = ⟨.error "Redis get failed", s, [.cacheGet key]⟩
        ∧ getCached env key s = ⟨.ok none, s, [.cacheGet key]⟩
        ∧ redisSet env key val ttl s = ⟨.error "Redis set failed", s, [.cacheSet key]⟩
        ∧ setCached env key val ttl s = ⟨.ok (), s, [.cacheSet key]⟩)
    ∧ (∀ (db : Db) (query translation : String),
        env.cacheErr = true → env.db = .ok db →
        (VECTOR_LIMIT ≤ (dbBaseVerses db query translation).length
          ∨ (0 < (dbBaseVerses db query translation).length
              ∧ (jsToLower query).length ≤ 12)) →
        (retrieveContextFromDb env query translation s).res
          = .ok (dbFinishValue env db query translation
              (dbBaseVerses db query translation))) := by
  refine ⟨⟨⟨cachedValue env s key, by rw [run_getCached]⟩, by rw [run_setCached]⟩,
    ?_, ?_⟩
  · intro herr
    refine ⟨by simp [redisGet, herr], ?_, by simp [redisSet, herr], ?_⟩
    · rw [run_getCached]
      simp [cachedValue, herr]
    · rw [run_setCached]
      simp [herr]
  · intro db query translation herr hdb hskip
    obtain ⟨trF, hfin, hmemF⟩ := run_dbFinish env db query translation
      (dbBaseVerses db query translation) s
    have ho : (dbVectorStage env db query translation (dbBaseVerses db query translation)
        >>= dbFinish env db query translation) s
        = ⟨.ok (dbFinishValue env db query translation (dbBaseVerses db query translation)),
           s, [] ++ trF⟩ := by
      rw [run_bind_ok _ (run_dbVectorStage_skip env hskip s)]
      rw [hfin]
    rw [run_retrieveFromDb hdb]
    simp only [ho]

set_option maxRecDepth 100000 in
/-- Witness for C8: with the cache backend failing on every call, a read is
a miss, a write is a no-op, and the store-backed murder query still answers
from the store. -/
theorem c8_cache_best_effort_witness :
    getCached errCacheEnv "context:v2:BSB:murder bad" emptySt
      = ⟨.ok none, emptySt, [.cacheGet "context:v2:BSB:murder bad"]⟩
    ∧ setCached errCacheEnv "context:v2:BSB:murder bad" (.ctx []) CACHE_TTL_SECONDS emptySt
      = ⟨.ok (), emptySt, [.cacheSet "context:v2:BSB:murder bad"]⟩
    ∧ (retrieveContextFromDb errCacheEnv "murder bad" "BSB" emptySt).res
      = .ok (dbFinishValue errCacheEnv murderDb "murder bad" "BSB"
          (dbBaseVerses murderDb "murder bad" "BSB")) :=
  ⟨((c8_cache_best_effort errCacheEnv "context:v2:BSB:murder bad" (.ctx [])
      CACHE_TTL_SECONDS emptySt).2.1 rfl).2.1,
   ((c8_cache_best_effort errCacheEnv "context:v2:BSB:murder bad" (.ctx [])
      CACHE_TTL_SECONDS emptySt).2.1 rfl).2.2.2,
   (c8_cache_best_effort errCacheEnv "context:v2:BSB:murder bad" (.ctx [])
      CACHE_TTL_SECONDS emptySt).2.2 murderDb "murder bad" "BSB" rfl rfl (by decide)⟩

/-! ## Claim C7: cached idempotence of the orchestrator -/

/-- `try`/`catch` around a value with a pure fallback always succeeds. -/
theorem run_tryCatch_pure {α : Type} (x : M α) (d : α) (s : St) :
    ∃ a s1 t1, tryCatchM x (fun _ => pure d) s = ⟨.ok a, s1, t1⟩ := by
  rcases hx : x s with ⟨r, s1, t1⟩
  cases r with
  | ok a => exact ⟨a, s1, t1, run_tryCatch_ok _ hx⟩
  | error e =>
    refine ⟨d, s1, t1, ?_⟩
    rw [run_tryCatch_err _ hx]
    simp [run_pure]

/-- The shared write-back tail of the orchestrator: cache the produced list
under the context key and return a clone. -/
theorem run_cacheTail (env : Env) (key : String) (x : M (List VerseContext))
    (s : St) (hc : env.cacheErr = false) :
    ((do
      let xs ← x
      setCached env key (.ctx xs) CACHE_TTL_SECONDS
      pure (cloneVerses xs)) : M (List VerseContext)) s
      = match x s with
        | ⟨.ok xs, s1, t1⟩ =>
          ⟨.ok (cloneVerses xs),
           ⟨⟨key, env.now + CACHE_TTL_SECONDS, .ctx xs⟩ :: s1.cache⟩,
           t1 ++ [Eff.cacheSet key]⟩
        | ⟨.error e, s1, t1⟩ => ⟨.error e, s1, t1⟩ := by
  rcases hx : x s with ⟨r, s1, t1⟩
  cases r with
  | ok xs =>
    rw [run_bind_ok _ hx]
    simp only []
    rw [run_bind_ok _ (run_setCached env key (.ctx xs) CACHE_TTL_SECONDS s1)]
    simp [run_pure, hc]
  | error e =>
    simp only []
    rw [run_bind_err _ hx]

/-- A successful orchestrator run that started from a context-cache miss
with a healthy backend ends with the returned list freshly written at the
context key, with the call-time TTL. -/
theorem run_forQuery_miss (env : Env) (query translation : String) (apiKey : Bool)
    (s : St) {vs : List VerseContext}
    (hc : env.cacheErr = false)
    (hctx : cachedValue env s (contextCacheKey query translation) = none)
    (hok : (retrieveContextForQuery env query translation apiKey s).res = .ok vs) :
    ∃ c, (retrieveContextForQuery env query translation apiKey s).st
        = ⟨⟨contextCacheKey query translation, env.now + CACHE_TTL_SECONDS,
            .ctx vs⟩ :: c⟩ := by
  obtain ⟨dbres, s1, t1, htc⟩ := run_tryCatch_pure ((do
      let vs2 ← retrieveContextFromDb env query translation
      pure (some vs2)) : M (Option (List VerseContext))) none s
  cases dbres with
  | none =>
    rcases hapi : retrieveContextViaApis env query translation apiKey s1 with ⟨rA, sA, tA⟩
    cases rA with
    | ok av =>
      have hQ : retrieveContextForQuery env query translation apiKey s
          = ⟨.ok (cloneVerses av),
             ⟨⟨contextCacheKey query translation, env.now + CACHE_TTL_SECONDS,
               .ctx av⟩ :: sA.cache⟩,
             [Eff.cacheGet (contextCacheKey query translation)]
               ++ (t1 ++ (tA ++ [Eff.cacheSet (contextCacheKey query translation)]))⟩ := by
        unfold retrieveContextForQuery
        rw [run_bind_ok _ (run_getCached env (contextCacheKey query translation) s), hctx]
        simp only []
        rw [run_bind_ok _ htc]
        simp only []
        rw [run_cacheTail env (contextCacheKey query translation)
          (retrieveContextViaApis env query translation apiKey) s1 hc]
        rw [hapi]
      rw [hQ] at hok
      simp only [] at hok
      injection hok with hok
      rw [cloneVerses_id] at hok
      refine ⟨sA.cache, ?_⟩
      rw [hQ, hok]
    | error eA =>
      have hQ : retrieveContextForQuery env query translation apiKey s
          = ⟨.error eA, sA,
             [Eff.cacheGet (contextCacheKey query translation)] ++ (t1 ++ tA)⟩ := by
        unfold retrieveContextForQuery
        rw [run_bind_ok _ (run_getCached env (contextCacheKey query translation) s), hctx]
        simp only []
        rw [run_bind_ok _ htc]
        simp only []
        rw [run_cacheTail env (contextCacheKey query translation)
          (retrieveContextViaApis env query translation apiKey) s1 hc]
        rw [hapi]
      rw [hQ] at hok
      simp at hok
  | some verses =>
    rcases hen : enrichOriginalLanguages env verses s1 with ⟨rE, sE, tE⟩
    cases rE with
    | ok ev =>
      have hQ : retrieveContextForQuery env query translation apiKey s
          = ⟨.ok (cloneVerses ev),
             ⟨⟨contextCacheKey query translation, env.now + CACHE_TTL_SECONDS,
               .ctx ev⟩ :: sE.cache⟩,
             [Eff.cacheGet (contextCacheKey query translation)]
               ++ (t1 ++ (tE ++ [Eff.cacheSet (contextCacheKey query translation)]))⟩ := by
        unfold retrieveContextForQuery
        rw [run_bind_ok _ (run_getCached env (contextCacheKey query translation) s), hctx]
        simp only []
        rw [run_bind_ok _ htc]
        simp only []
        rw [run_cacheTail env (contextCacheKey query translation)
          (enrichOriginalLanguages env verses) s1 hc]
        rw [hen]
      rw [hQ] at hok
      simp only [] at hok
      injection hok with hok
      rw [cloneVerses_id] at hok
      refine ⟨sE.cache, ?_⟩
      rw [hQ, hok]
    | error eE =>
      have hQ : retrieveContextForQuery env query translation apiKey s
          = ⟨.error eE, sE,
             [Eff.cacheGet (contextCacheKey query translation)] ++ (t1 ++ tE)⟩ := by
        unfold retrieveContextForQuery
        rw [run_bind_ok _ (run_getCached env (contextCacheKey query translation) s), hctx]
        simp only []
        rw [run_bind_ok _ htc]
        simp only []
        rw [run_cacheTail env (contextCacheKey query translation)
          (enrichOriginalLanguages env verses) s1 hc]
        rw [hen]
      rw [hQ] at hok
      simp at hok

/-- An orchestrator run that hits an unexpired context-cache entry answers
from the cache alone: one cache read, no other effect, state unchanged. -/
theorem run_forQuery_hit (env : Env) (query translation : String) (apiKey : Bool)
    (s : St) {vs : List VerseContext}
    (hhit : cachedValue env s (contextCacheKey query translation) = some (.ctx vs)) :
    retrieveContextForQuery env query translation apiKey s
      = ⟨.ok (cloneVerses vs), s, [.cacheGet (contextCacheKey query translation)]⟩ := by
  unfold retrieveContextForQuery
  rw [run_bind_ok _ (run_getCached env (contextCacheKey query translation) s), hhit]
  simp [run_pure]

/-- C7: when a first orchestrator call (healthy cache backend, fresh
context key) succeeds, a second call with the same translation and the same
trimmed lower-cased query, made while the first entry is unexpired, returns
the exact same verse list from the state the first call left behind, leaves
that state untouched, and performs exactly one cache read — zero store
queries, embedding calls, verse fetches or dictionary calls. -/
theorem c7_cache_idempotent (envA envB : Env) (q1 q2 translation : String)
    (k1 k2 : Bool) (s : St) (vs : List VerseContext)
    (hcA : envA.cacheErr = false) (hcB : envB.cacheErr = false)
    (hnorm : jsToLower (jsTrim q2) = jsToLower (jsTrim q1))
    (hmiss : cachedValue envA s (contextCacheKey q1 translation) = none)
    (hok : (retrieveContextForQuery envA q1 translation k1 s).res = .ok vs)
    (htime : envB.now < envA.now + CACHE_TTL_SECONDS) :
    retrieveContextForQuery envB q2 translation k2
        ((retrieveContextForQuery envA q1 translation k1 s).st)
      = ⟨.ok vs, (retrieveContextForQuery envA q1 translation k1 s).st,
         [.cacheGet (contextCacheKey q2 translation)]⟩ := by
  obtain ⟨c, hcache⟩ := run_forQuery_miss envA q1 translation k1 s hcA hmiss hok
  have hkey : contextCacheKey q2 translation = contextCacheKey q1 translation := by
    unfold contextCacheKey
    rw [hnorm]
  have hhit : cachedValue envB ((retrieveContextForQuery envA q1 translation k1 s).st)
      (contextCacheKey q2 translation) = some (.ctx vs) := by
    rw [hkey, hcache]
    simp [cachedValue, lookupCache, hcB, List.find?, htime]
  have hrun := run_forQuery_hit envB q2 translation k2
    ((retrieveContextForQuery envA q1 translation k1 s).st) hhit
  rw [hrun, cloneVerses_id]

/-- The verse list the first witness call produces. -/
def c7vs : List VerseContext :=
  ((retrieveContextForQuery noTokenEnv "murder bad" "BSB" false emptySt).res.toOption).getD []

set_option maxRecDepth 1000000 in
/-- Witness for C7: after a first store-backed call for "murder bad", a
second call with the differently-spelled query " MURDER BAD " answers the
same list from the cache with a single cache read. -/
theorem c7_cache_idempotent_witness :
    retrieveContextForQuery noTokenEnv " MURDER BAD " "BSB" true
        ((retrieveContextForQuery noTokenEnv "murder bad" "BSB" false emptySt).st)
      = ⟨.ok c7vs, (retrieveContextForQuery noTokenEnv "murder bad" "BSB" false emptySt).st,
         [.cacheGet (contextCacheKey " MURDER BAD " "BSB")]⟩ :=
  c7_cache_idempotent noTokenEnv noTokenEnv "murder bad" " MURDER BAD " "BSB" false true
    emptySt c7vs rfl rfl (by decide) rfl (by decide) (by decide)

/-! ## Claim C2: TSK cross-reference expansion -/

/-- The key match of the SQL join in `fetchVersesByRefs`. -/
def refMatches (row : VerseRow) (r : RefKey) : Bool :=
  r.book = row.book && r.chapter = row.chapter && r.verse = row.verse

theorem versesByRefs_def (db : Db) (refs : List RefKey) (translation : String) :
    versesByRefs db refs translation
      = db.verses.flatMap (fun row =>
          if row.translation = translation then
            (refs.filter (refMatches row)).map (fun _ => rowToVerse row)
          else []) := rfl

theorem refMatches_eq {row : VerseRow} {r : RefKey} (h : refMatches row r = true) :
    r = ⟨row.book, row.chapter, row.verse⟩ := by
  simp only [refMatches, Bool.and_eq_true, decide_eq_true_eq] at h
  obtain ⟨⟨h1, h2⟩, h3⟩ := h
  cases r
  simp_all

theorem versesByRefs_mem {db : Db} {refs : List RefKey} {translation : String}
    {v : VerseContext} (h : v ∈ versesByRefs db refs translation) :
    ∃ row ∈ db.verses, row.translation = translation
      ∧ v = rowToVerse row ∧ RefKey.mk row.book row.chapter row.verse ∈ refs := by
  rw [versesByRefs_def, List.mem_flatMap] at h
  obtain ⟨row, hrow, hv⟩ := h
  by_cases ht : row.translation = translation
  · rw [if_pos ht, List.mem_map] at hv
    obtain ⟨r, hr, hrv⟩ := hv
    rw [List.mem_filter] at hr
    refine ⟨row, hrow, ht, hrv.symm, ?_⟩
    rw [← refMatches_eq hr.2]
    exact hr.1
  · rw [if_neg ht] at hv
    simp at hv

/-- No duplicated `(book, chapter, verse, translation)` key among store
rows (the seeding script creates a UNIQUE index on exactly this tuple). -/
def rowKeyDistinct (a b : VerseRow) : Prop :=
  ¬ (a.book = b.book ∧ a.chapter = b.chapter ∧ a.verse = b.verse
      ∧ a.translation = b.translation)

instance decRowKeyDistinct (a b : VerseRow) : Decidable (rowKeyDistinct a b) := by
  unfold rowKeyDistinct
  infer_instance

theorem versesByRefs_congr (translation : String) :
    ∀ (rows : List VerseRow) (refs refs2 : List RefKey),
      (∀ row ∈ rows, row.translation = translation →
        refs.filter (refMatches row) = refs2.filter (refMatches row)) →
      rows.flatMap (fun row =>
          if row.translation = translation then
            (refs.filter (refMatches row)).map (fun _ => rowToVerse row)
          else [])
        = rows.flatMap (fun row =>
          if row.translation = translation then
            (refs2.filter (refMatches row)).map (fun _ => rowToVerse row)
          else []) := by
  intro rows
  induction rows with
  | nil => intro refs refs2 h; rfl
  | cons row rest ih =>
    intro refs refs2 h
    simp only [List.flatMap_cons]
    rw [ih refs refs2 (fun r hr hrt => h r (by simp [hr]) hrt)]
    by_cases ht : row.translation = translation
    · rw [if_pos ht, if_pos ht, h row (by simp) ht]
    · rw [if_neg ht, if_neg ht]

theorem filter_matches_disjoint {row row2 : VerseRow} (refs : List RefKey)
    (hne : ¬ (row.book = row2.book ∧ row.chapter = row2.chapter
      ∧ row.verse = row2.verse)) :
    refs.filter (refMatches row2)
      = (refs.filter (fun r => !(refMatches row r))).filter (refMatches row2) := by
  rw [List.filter_filter]
  apply List.filter_congr
  intro r _
  by_cases h2 : refMatches row2 r = true
  · have h1 : refMatches row r = false := by
      rw [Bool.eq_false_iff]
      intro hc
      have e1 := refMatches_eq hc
      have e2 := refMatches_eq h2
      rw [e2] at e1
      rw [RefKey.mk.injEq] at e1
      exact hne ⟨e1.1.symm, e1.2.1.symm, e1.2.2.symm⟩
    rw [h2, h1]
    rfl
  · have h2f : refMatches row2 r = false := by
      rw [Bool.eq_false_iff]
      exact h2
    rw [h2f]
    simp

theorem subperm_append_of_subperm_perm {α : Type} {A T B C : List α}
    (h1 : List.Subperm T B) (h2 : List.Perm (A ++ B) C) : List.Subperm (A ++ T) C := by
  obtain ⟨Y, hYperm, hYsub⟩ := h1
  exact List.Subperm.trans
    ⟨A ++ Y, List.Perm.append_left _ hYperm, List.Sublist.append_left hYsub _⟩
    h2.subperm

/-- Under the store uniqueness invariant, the join produces at most one row
per requested key: its reference multiset embeds into the requested keys. -/
theorem versesByRefs_subperm (translation : String) :
    ∀ (rows : List VerseRow),
      rows.Pairwise rowKeyDistinct →
      ∀ (refs : List RefKey),
        List.Subperm
          ((rows.flatMap (fun row =>
            if row.translation = translation then
              (refs.filter (refMatches row)).map (fun _ => rowToVerse row)
            else [])).map (fun v => v.reference))
          (refs.map refString) := by
  intro rows
  induction rows with
  | nil =>
    intro _ refs
    simp only [List.flatMap_nil, List.map_nil]
    exact List.nil_subperm
  | cons row rest ih =>
    intro hpw refs
    rw [List.pairwise_cons] at hpw
    obtain ⟨hhead, htail⟩ := hpw
    rw [List.flatMap_cons, List.map_append]
    by_cases ht : row.translation = translation
    · rw [if_pos ht]
      have hhead_eq : ((refs.filter (refMatches row)).map
            (fun _ => rowToVerse row)).map (fun v => v.reference)
          = (refs.filter (refMatches row)).map refString := by
        rw [List.map_map]
        apply List.map_congr_left
        intro r hr
        rw [List.mem_filter] at hr
        rw [refMatches_eq hr.2]
        rfl
      have htail_eq : rest.flatMap (fun row2 =>
            if row2.translation = translation then
              (refs.filter (refMatches row2)).map (fun _ => rowToVerse row2)
            else [])
          = rest.flatMap (fun row2 =>
            if row2.translation = translation then
              (((refs.filter (fun r => !(refMatches row r))).filter
                (refMatches row2)).map (fun _ => rowToVerse row2))
            else []) := by
        apply versesByRefs_congr
        intro row2 h2 hrt
        apply filter_matches_disjoint
        intro htriple
        exact hhead row2 h2
          ⟨htriple.1, htriple.2.1, htriple.2.2, ht.trans hrt.symm⟩
      rw [hhead_eq, htail_eq]
      refine subperm_append_of_subperm_perm
        (ih htail (refs.filter (fun r => !(refMatches row r)))) ?_
      rw [← List.map_append]
      exact (List.filter_append_perm _ refs).map refString
    · rw [if_neg ht]
      simp only [List.map_nil, List.nil_append]
      exact ih htail refs

/-- The target key of a cross-reference edge. -/
def targetKey (row : CrossRow) : RefKey :=
  ⟨row.targetBook, row.targetChapter, row.targetVerse⟩

theorem tskTargetKeys_def (rows : List CrossRow) (pk : List RefKey) :
    tskTargetKeys rows pk = (rows.map targetKey).foldl
      (fun acc k =>
        if (pk.map refString).contains (refString k)
            || (acc.map refString).contains (refString k) then acc
        else acc ++ [k]) [] := rfl

theorem tskFoldAux (pk : List RefKey) :
    ∀ (ks : List RefKey) (acc : List RefKey),
      (∀ k ∈ acc, ¬ refString k ∈ pk.map refString) →
      (acc.map refString).Nodup →
      (∀ k ∈ List.foldl (fun acc k =>
            if (pk.map refString).contains (refString k)
                || (acc.map refString).contains (refString k) then acc
            else acc ++ [k]) acc ks,
          (k ∈ acc ∨ k ∈ ks) ∧ ¬ refString k ∈ pk.map refString)
        ∧ ((List.foldl (fun acc k =>
            if (pk.map refString).contains (refString k)
                || (acc.map refString).contains (refString k) then acc
            else acc ++ [k]) acc ks).map refString).Nodup
        ∧ (List.foldl (fun acc k =>
            if (pk.map refString).contains (refString k)
                || (acc.map refString).contains (refString k) then acc
            else acc ++ [k]) acc ks).length ≤ acc.length + ks.length := by
  intro ks
  induction ks with
  | nil =>
    intro acc hnp hnd
    exact ⟨fun k hk => ⟨Or.inl hk, hnp k hk⟩, hnd, by simp⟩
  | cons k0 ks ih =>
    intro acc hnp hnd
    rw [List.foldl_cons]
    by_cases hc : ((pk.map refString).contains (refString k0)
        || ((acc.map refString)).contains (refString k0)) = true
    · rw [if_pos hc]
      obtain ⟨hmem, hnd2, hlen⟩ := ih acc hnp hnd
      refine ⟨?_, hnd2, ?_⟩
      · intro k hk
        obtain ⟨hor, hpk⟩ := hmem k hk
        exact ⟨hor.imp id (fun h => List.mem_cons_of_mem _ h), hpk⟩
      · simp only [List.length_cons]
        omega
    · rw [if_neg hc]
      simp only [Bool.or_eq_true, not_or] at hc
      obtain ⟨hc1, hc2⟩ := hc
      have hnp2 : ∀ k ∈ acc ++ [k0], ¬ refString k ∈ pk.map refString := by
        intro k hk
        rcases List.mem_append.mp hk with h | h
        · exact hnp k h
        · rw [List.mem_singleton] at h
          subst h
          intro hcon
          exact hc1 (List.elem_iff.mpr hcon)
      have hnd2 : ((acc ++ [k0]).map refString).Nodup := by
        rw [List.map_append]
        rw [List.nodup_append]
        refine ⟨hnd, by simp, ?_⟩
        intro x hx
        simp only [List.map_cons, List.map_nil, List.mem_singleton]
        intro hx0
        subst hx0
        exact hc2 (by simpa using hx)
      obtain ⟨hmem, hnd3, hlen⟩ := ih (acc ++ [k0]) hnp2 hnd2
      refine ⟨?_, hnd3, ?_⟩
      · intro k hk
        obtain ⟨hor, hpk⟩ := hmem k hk
        refine ⟨?_, hpk⟩
        rcases hor with h | h
        · rcases List.mem_append.mp h with h | h
          · exact Or.inl h
          · rw [List.mem_singleton] at h
            exact Or.inr (by simp [h])
        · exact Or.inr (List.mem_cons_of_mem _ h)
      · simp at hlen ⊢
        omega

theorem tskTargetKeys_spec (rows : List CrossRow) (pk : List RefKey) :
    (∀ k ∈ tskTargetKeys rows pk,
        (∃ row ∈ rows, k = targetKey row) ∧ ¬ refString k ∈ pk.map refString)
      ∧ ((tskTargetKeys rows pk).map refString).Nodup
      ∧ (tskTargetKeys rows pk).length ≤ rows.length := by
  rw [tskTargetKeys_def]
  obtain ⟨hmem, hnd, hlen⟩ := tskFoldAux pk (rows.map targetKey) [] (by simp) (by simp)
  refine ⟨?_, hnd, by simpa using hlen⟩
  intro k hk
  obtain ⟨hor, hpk⟩ := hmem k hk
  rcases hor with h | h
  · simp at h
  · rw [List.mem_map] at h
    obtain ⟨row, hrow, hkr⟩ := h
    exact ⟨⟨row, hrow, hkr.symm⟩, hpk⟩

theorem insertByVotes_mem {x r : CrossRow} :
    ∀ {l : List CrossRow}, x ∈ insertByVotes r l → x = r ∨ x ∈ l := by
  intro l
  induction l with
  | nil =>
    intro h
    simpa [insertByVotes] using h
  | cons y ys ih =>
    intro h
    rw [insertByVotes] at h
    split at h
    · simpa using h
    · rw [List.mem_cons] at h
      rcases h with h | h
      · exact Or.inr (by simp [h])
      · rcases ih h with h | h
        · exact Or.inl h
        · exact Or.inr (by simp [h])

theorem sortByVotesDesc_mem {x : CrossRow} :
    ∀ {l : List CrossRow}, x ∈ sortByVotesDesc l → x ∈ l := by
  intro l
  induction l with
  | nil =>
    intro h
    simpa [sortByVotesDesc] using h
  | cons y ys ih =>
    intro h
    rw [sortByVotesDesc] at h
    rcases insertByVotes_mem h with h | h
    · simp [h]
    · exact List.mem_cons_of_mem _ (ih h)

theorem tskEdges_mem {db : Db} {refs : List RefKey} {row : CrossRow}
    (h : row ∈ tskEdges db refs) :
    row ∈ db.crossRefs
      ∧ (∃ k ∈ refs, k.book = row.sourceBook ∧ k.chapter = row.sourceChapter
          ∧ k.verse = row.sourceVerse)
      ∧ ∃ vv, row.votes = some vv ∧ 10 < vv := by
  unfold tskEdges at h
  have h2 := sortByVotesDesc_mem (List.mem_of_mem_take h)
  rw [List.mem_filter] at h2
  obtain ⟨hrow, hcond⟩ := h2
  rw [Bool.and_eq_true] at hcond
  obtain ⟨hany, hv⟩ := hcond
  refine ⟨hrow, ?_, ?_⟩
  · rw [List.any_eq_true] at hany
    obtain ⟨k, hk, hkm⟩ := hany
    simp only [Bool.and_eq_true, decide_eq_true_eq] at hkm
    exact ⟨k, hk, hkm.1.1, hkm.1.2, hkm.2⟩
  · cases hvv : row.votes with
    | none =>
      rw [hvv] at hv
      simp at hv
    | some vv =>
      rw [hvv] at hv
      simp only [decide_eq_true_eq] at hv
      exact ⟨vv, rfl, hv⟩

theorem tskEdges_length (db : Db) (refs : List RefKey) :
    (tskEdges db refs).length ≤ 3 := by
  unfold tskEdges
  exact List.length_take_le 3 _

theorem tskValue_cases (db : Db) (core : List VerseContext) (translation : String) :
    tskValue db core translation = []
    ∨ tskValue db core translation
        = (versesByRefs db
            (tskTargetKeys
              (tskEdges db (core.filterMap (fun v => parseReferenceKey v.reference)))
              (core.filterMap (fun v => parseReferenceKey v.reference)))
            translation).map (fun v => { v with isCrossReference := true }) := by
  unfold tskValue
  by_cases h1 : core.isEmpty
  · simp [h1]
  · by_cases h2 : (core.filterMap (fun v => parseReferenceKey v.reference)).isEmpty
    · simp [h1, h2]
    · by_cases h3 : (tskEdges db
          (core.filterMap (fun v => parseReferenceKey v.reference))).isEmpty
      · simp [h1, h2, h3]
      · by_cases h4 : (tskTargetKeys
            (tskEdges db (core.filterMap (fun v => parseReferenceKey v.reference)))
            (core.filterMap (fun v => parseReferenceKey v.reference))).isEmpty
        · simp [h1, h2, h3, h4]
        · simp [h1, h2, h3, h4]

theorem tskValue_flag (db : Db) (core : List VerseContext) (translation : String) :
    ∀ v ∈ tskValue db core translation, v.isCrossReference = true := by
  rcases tskValue_cases db core translation with h | h
  · rw [h]
    intro v hv
    simp at hv
  · rw [h]
    intro v hv
    rw [List.mem_map] at hv
    obtain ⟨w, hw, rfl⟩ := hv
    rfl

/-- Generic preservation through the reference-deduplicated push loop. -/
theorem dedupAppend_forall {P : VerseContext → Prop} :
    ∀ (vs acc : List VerseContext), (∀ v ∈ acc, P v) → (∀ v ∈ vs, P v) →
      ∀ v ∈ dedupAppend acc vs, P v := by
  intro vs
  induction vs with
  | nil =>
    intro acc ha _ v hv
    exact ha v hv
  | cons x xs ih =>
    intro acc ha hx v hv
    have hv2 : v ∈ dedupAppend
        (if acc.any (fun w => w.reference = x.reference) then acc else acc ++ [x]) xs := by
      simpa [dedupAppend, List.foldl_cons] using hv
    refine ih _ ?_ (fun y hy => hx y (by simp [hy])) v hv2
    intro y hy
    split at hy
    · exact ha y hy
    · rcases List.mem_append.mp hy with h | h
      · exact ha y h
      · rw [List.mem_singleton] at h
        subst h
        exact hx y (by simp)

theorem topicGuards_priority_false :
    ∀ g ∈ topicGuards, ∀ v ∈ g.priority, v.isCrossReference = false := by
  intro g hg
  simp only [topicGuards, List.mem_cons, List.not_mem_nil, or_false] at hg
  rcases hg with rfl | rfl | rfl | rfl | rfl | rfl | rfl | rfl | rfl | rfl <;> decide

theorem topicGuards_conditional_false :
    ∀ g ∈ topicGuards, ∀ (query : String) (v : VerseContext),
      v ∈ (match g.conditionalPriority with
           | some f => f query
           | none => ([] : List VerseContext)) →
      v.isCrossReference = false := by
  intro g hg query v hv
  simp only [topicGuards, List.mem_cons, List.not_mem_nil, or_false] at hg
  rcases hg with rfl | rfl | rfl | rfl | rfl | rfl | rfl | rfl | rfl | rfl
  · simp [murderGuard] at hv
  · simp [lyingGuard] at hv
  · simp [theftGuard] at hv
  · simp [adulteryGuard] at hv
  · simp [idolatryGuard] at hv
  · simp only [divorceGuard] at hv
    split at hv
    · rw [List.mem_singleton] at hv
      subst hv
      rfl
    · simp at hv
  · simp [feminismGuard] at hv
  · simp [homosexualityGuard] at hv
  · simp [blasphemyGuard] at hv
  · simp [sexualImmoralityGuard] at hv

theorem curatedLists_false :
    ∀ p ∈ curatedTopicalLists, ∀ v ∈ p.2.verses, v.isCrossReference = false := by
  intro p hp
  simp only [curatedTopicalLists, List.mem_cons, List.not_mem_nil, or_false] at hp
  rcases hp with rfl | rfl <;> decide

theorem mergedPriority_flag (query : String) :
    ∀ v ∈ mergedPriority query, v.isCrossReference = false := by
  unfold mergedPriority
  have main : ∀ (gs : List TopicGuard), (∀ g ∈ gs, g ∈ topicGuards) →
      ∀ (acc : List VerseContext), (∀ v ∈ acc, v.isCrossReference = false) →
      ∀ v ∈ gs.foldl (guardStep query) acc, v.isCrossReference = false := by
    intro gs
    induction gs with
    | nil =>
      intro _ acc ha v hv
      rw [List.foldl_nil] at hv
      exact ha v hv
    | cons g rest ih =>
      intro hgs acc ha v hv
      rw [List.foldl_cons] at hv
      refine ih (fun x hx => hgs x (List.mem_cons_of_mem _ hx)) _ ?_ v hv
      intro y hy
      have hgTop := hgs g (List.mem_cons_self _ _)
      cases hcp : g.conditionalPriority with
      | none =>
        simp only [guardStep, hcp] at hy
        exact dedupAppend_forall g.priority acc ha
          (topicGuards_priority_false g hgTop) y hy
      | some f =>
        simp only [guardStep, hcp] at hy
        refine @dedupAppend_forall (fun v => v.isCrossReference = false) (f query)
          (dedupAppend acc g.priority) ?_ ?_ y hy
        · exact dedupAppend_forall g.priority acc ha
            (topicGuards_priority_false g hgTop)
        · intro z hz
          have h2 := topicGuards_conditional_false g hgTop query z
          rw [hcp] at h2
          exact h2 hz
  exact main (firedGuards query) (fun g hg => List.mem_of_mem_filter hg) [] (by simp)

theorem applyTopicGuards_flag (query : String) (verses : List VerseContext)
    (h : ∀ v ∈ verses, v.isCrossReference = false) :
    ∀ v ∈ applyTopicGuards query verses, v.isCrossReference = false := by
  intro v hv
  unfold applyTopicGuards at hv
  split at hv
  · exact h v hv
  · rw [List.mem_append] at hv
    rcases hv with hv | hv
    · exact mergedPriority_flag query v hv
    · unfold guardSurvivors at hv
      rw [List.mem_filter] at hv
      exact h v hv.1

theorem applyCuratedAux_flag (nq : String) :
    ∀ (pairs : List (String × CuratedTopicalList)) (verses : List VerseContext),
      (∀ p ∈ pairs, p ∈ curatedTopicalLists) →
      (∀ v ∈ verses, v.isCrossReference = false) →
      ∀ v ∈ applyCuratedAux nq verses pairs, v.isCrossReference = false := by
  intro pairs
  induction pairs with
  | nil =>
    intro verses _ hvs v hv
    rw [applyCuratedAux] at hv
    exact hvs v hv
  | cons p rest ih =>
    intro verses hps hvs v hv
    obtain ⟨key, list⟩ := p
    have hpc := curatedLists_false (key, list) (hps (key, list) (List.mem_cons_self _ _))
    rw [applyCuratedAux] at hv
    split at hv
    · split at hv
      · exact hpc v hv
      · rw [List.mem_append] at hv
        rcases hv with hv | hv
        · exact hpc v hv
        · rw [List.mem_filter] at hv
          exact hvs v hv.1
    · exact ih verses (fun q hq => hps q (List.mem_cons_of_mem _ hq)) hvs v hv

theorem applyCuratedTopicalLists_flag (query : String) (verses : List VerseContext)
    (h : ∀ v ∈ verses, v.isCrossReference = false) :
    ∀ v ∈ applyCuratedTopicalLists query verses, v.isCrossReference = false := by
  unfold applyCuratedTopicalLists
  exact applyCuratedAux_flag (jsToLower query) curatedTopicalLists verses
    (fun p hp => hp) h

theorem attachIndexedOriginals_append (env : Env) (A B : List VerseContext) :
    attachIndexedOriginals env (A ++ B)
      = attachIndexedOriginals env A ++ attachIndexedOriginals env B := by
  unfold attachIndexedOriginals
  simp

theorem attachIndexedOriginals_flag (env : Env) (vs : List VerseContext)
    (b : Bool) (h : ∀ v ∈ vs, v.isCrossReference = b) :
    ∀ v ∈ attachIndexedOriginals env vs, v.isCrossReference = b := by
  intro v hv
  unfold attachIndexedOriginals at hv
  rw [List.mem_map] at hv
  obtain ⟨w, hw, rfl⟩ := hv
  cases hbi : env.bibleIndex w.reference with
  | some idx =>
    simp only [hbi]
    split
    · exact h w hw
    · exact h w hw
  | none =>
    simp only [hbi]
    exact h w hw

/-- C2: with the store satisfying its uniqueness invariant and well-formed
target book codes, the cross-reference expansion returns at most 3 entries,
all marked `isCrossReference`, with pairwise-distinct references, none of
which equals a primary verse's reference; every entry originates from an
edge with more than 10 votes whose source is among the parsed primary
references; and the pipeline tail places every cross-reference entry after
every primary (non-cross-reference) verse. -/
theorem c2_cross_reference_expansion (env : Env) (db : Db)
    (primaryVerses : List VerseContext) (translation : String) (s : St)
    (hW1 : db.verses.Pairwise rowKeyDistinct)
    (hW0 : ∀ r ∈ db.crossRefs, goodBook r.targetBook = true)
    (hne : primaryVerses ≠ []) :
    (getTskCrossReferences env db primaryVerses translation s).res
      = .ok (tskValue db primaryVerses translation)
    ∧ (tskValue db primaryVerses translation).length ≤ 3
    ∧ (∀ v ∈ tskValue db primaryVerses translation, v.isCrossReference = true)
    ∧ ((tskValue db primaryVerses translation).map (fun v => v.reference)).Nodup
    ∧ (∀ v ∈ tskValue db primaryVerses translation, ∀ p ∈ primaryVerses,
        v.reference ≠ p.reference)
    ∧ (∀ v ∈ tskValue db primaryVerses translation, ∃ row ∈ db.crossRefs,
        (∃ vv, row.votes = some vv ∧ 10 < vv)
        ∧ (∃ k ∈ primaryVerses.filterMap (fun p => parseReferenceKey p.reference),
            k.book = row.sourceBook ∧ k.chapter = row.sourceChapter
              ∧ k.verse = row.sourceVerse)
        ∧ v.reference = refString (targetKey row))
    ∧ (∀ (query : String) (verses : List VerseContext),
        (∀ x ∈ verses, x.isCrossReference = false) →
        ∃ A B, dbFinishValue env db query translation verses = A ++ B
          ∧ (∀ a ∈ A, a.isCrossReference = false)
          ∧ (∀ b ∈ B, b.isCrossReference = true)) := by
  obtain ⟨tr, hrun, hmemtr⟩ := run_getTsk env db primaryVerses translation s
  have hcon1 : (getTskCrossReferences env db primaryVerses translation s).res
      = .ok (tskValue db primaryVerses translation) := by
    rw [hrun]
  have hposition : ∀ (query : String) (verses : List VerseContext),
      (∀ x ∈ verses, x.isCrossReference = false) →
      ∃ A B, dbFinishValue env db query translation verses = A ++ B
        ∧ (∀ a ∈ A, a.isCrossReference = false)
        ∧ (∀ b ∈ B, b.isCrossReference = true) := by
    intro query verses hflags
    refine ⟨attachIndexedOriginals env
        (applyCuratedTopicalLists query (applyTopicGuards query verses)),
      attachIndexedOriginals env (tskValue db
        (applyCuratedTopicalLists query (applyTopicGuards query verses)) translation),
      ?_, ?_, ?_⟩
    · unfold dbFinishValue
      exact attachIndexedOriginals_append env _ _
    · exact attachIndexedOriginals_flag env _ false
        (applyCuratedTopicalLists_flag query _
          (applyTopicGuards_flag query verses hflags))
    · exact attachIndexedOriginals_flag env _ true (tskValue_flag db _ translation)
  rcases tskValue_cases db primaryVerses translation with hT | hT
  · refine ⟨hcon1, ?_, ?_, ?_, ?_, ?_, hposition⟩
    · rw [hT]
      simp
    · rw [hT]
      intro v hv
      simp at hv
    · rw [hT]
      simp
    · rw [hT]
      intro v hv
      simp at hv
    · rw [hT]
      intro v hv
      simp at hv
  · set pk := primaryVerses.filterMap (fun v => parseReferenceKey v.reference) with hpk
    set rows := tskEdges db pk with hrows
    set tks := tskTargetKeys rows pk with htks
    obtain ⟨hmemT, hndT, hlenT⟩ := tskTargetKeys_spec rows pk
    rw [← htks] at hmemT hndT hlenT
    have hsp : List.Subperm
        ((versesByRefs db tks translation).map (fun v => v.reference))
        (tks.map refString) := by
      rw [versesByRefs_def]
      exact versesByRefs_subperm translation db.verses hW1 tks
    have hlen2 : (tskValue db primaryVerses translation).length ≤ 3 := by
      rw [hT, List.length_map]
      have h1 := hsp.length_le
      rw [List.length_map, List.length_map] at h1
      have h3 := tskEdges_length db pk
      rw [← hrows] at h3
      omega
    have hnd4 : ((tskValue db primaryVerses translation).map
        (fun v => v.reference)).Nodup := by
      rw [hT, List.map_map]
      obtain ⟨mid, hmperm, hmsub⟩ := hsp
      have hmid : mid.Nodup := List.Nodup.sublist hmsub hndT
      exact hmperm.nodup_iff.mp hmid
    have hdecomp : ∀ v ∈ tskValue db primaryVerses translation,
        ∃ vrow crow, vrow ∈ db.verses ∧ crow ∈ rows
          ∧ RefKey.mk vrow.book vrow.chapter vrow.verse = targetKey crow
          ∧ v.reference = refString (RefKey.mk vrow.book vrow.chapter vrow.verse)
          ∧ ¬ refString (RefKey.mk vrow.book vrow.chapter vrow.verse)
              ∈ pk.map refString := by
      intro v hv
      rw [hT, List.mem_map] at hv
      obtain ⟨w, hw, rfl⟩ := hv
      obtain ⟨vrow, hvrowdb, hvrt, hwrow, hkey⟩ := versesByRefs_mem hw
      obtain ⟨⟨crow, hcrow, hkeq⟩, hnotpk⟩ := hmemT _ hkey
      subst hwrow
      exact ⟨vrow, crow, hvrowdb, hcrow, hkeq, rfl, hnotpk⟩
    have hcon5 : ∀ v ∈ tskValue db primaryVerses translation,
        ∀ p ∈ primaryVerses, v.reference ≠ p.reference := by
      intro v hv p hp heq
      obtain ⟨vrow, crow, hvrowdb, hcrow, hkeq, hvref, hnotpk⟩ := hdecomp v hv
      have hgb : goodBook (RefKey.mk vrow.book vrow.chapter vrow.verse).book = true := by
        rw [hkeq]
        exact hW0 crow (tskEdges_mem hcrow).1
      have hparse : parseReferenceKey p.reference
          = some (RefKey.mk vrow.book vrow.chapter vrow.verse) := by
        rw [← heq, hvref]
        exact parseReferenceKey_refString hgb
      apply hnotpk
      rw [List.mem_map]
      refine ⟨RefKey.mk vrow.book vrow.chapter vrow.verse, ?_, rfl⟩
      rw [hpk, List.mem_filterMap]
      exact ⟨p, hp, hparse⟩
    have hcon6 : ∀ v ∈ tskValue db primaryVerses translation, ∃ row ∈ db.crossRefs,
        (∃ vv, row.votes = some vv ∧ 10 < vv)
        ∧ (∃ k ∈ primaryVerses.filterMap (fun p => parseReferenceKey p.reference),
            k.book = row.sourceBook ∧ k.chapter = row.sourceChapter
              ∧ k.verse = row.sourceVerse)
        ∧ v.reference = refString (targetKey row) := by
      intro v hv
      obtain ⟨vrow, crow, hvrowdb, hcrow, hkeq, hvref, hnotpk⟩ := hdecomp v hv
      obtain ⟨hcrowdb, hsource, hvotes⟩ := tskEdges_mem hcrow
      refine ⟨crow, hcrowdb, hvotes, hsource, ?_⟩
      rw [hvref]
      exact congrArg refString hkeq
    exact ⟨hcon1, hlen2, tskValue_flag db primaryVerses translation, hnd4,
      hcon5, hcon6, hposition⟩

/-- A store for the C2 witness: the murder commandment with three TSK
edges above the vote threshold (one of them pointing back at the primary
itself) and one below it. -/
def tskDb : Db :=
  ⟨[⟨"EXO", 20, 13, "You shall not murder.", "BSB", false⟩,
    ⟨"GEN", 9, 6, "Whoever sheds the blood of man, by man his blood will be shed.",
      "BSB", false⟩,
    ⟨"MAT", 5, 21, "You have heard that it was said, You shall not murder.",
      "BSB", false⟩],
   [⟨"EXO", 20, 13, "GEN", 9, 6, some 25⟩,
    ⟨"EXO", 20, 13, "MAT", 5, 21, some 15⟩,
    ⟨"EXO", 20, 13, "EXO", 20, 13, some 12⟩,
    ⟨"EXO", 20, 13, "DEU", 5, 17, some 5⟩]⟩

def tskPrimary : List VerseContext :=
  [⟨"EXO 20:13", "BSB", "You shall not murder.", [], false⟩]

set_option maxRecDepth 100000 in
/-- Witness for C2: one primary verse with three heavy edges yields at most
three flagged entries whose references avoid the primary. -/
theorem c2_cross_reference_expansion_witness :
    (getTskCrossReferences idleEnv tskDb tskPrimary "BSB" emptySt).res
      = .ok (tskValue tskDb tskPrimary "BSB")
    ∧ (tskValue tskDb tskPrimary "BSB").length ≤ 3
    ∧ (∀ v ∈ tskValue tskDb tskPrimary "BSB", v.isCrossReference = true)
    ∧ (∀ v ∈ tskValue tskDb tskPrimary "BSB", ∀ p ∈ tskPrimary,
        v.reference ≠ p.reference) :=
  ⟨(c2_cross_reference_expansion idleEnv tskDb tskPrimary "BSB" emptySt
      (by decide) (by decide) (by decide)).1,
   (c2_cross_reference_expansion idleEnv tskDb tskPrimary "BSB" emptySt
      (by decide) (by decide) (by decide)).2.1,
   (c2_cross_reference_expansion idleEnv tskDb tskPrimary "BSB" emptySt
      (by decide) (by decide) (by decide)).2.2.1,
   (c2_cross_reference_expansion idleEnv tskDb tskPrimary "BSB" emptySt
      (by decide) (by decide) (by decide)).2.2.2.2.1⟩

/-! ## Claim C3: extraction of a delimited John 3:16 token -/

/-- The characters of the reference token `John 3:16`. -/
def tokList : List Char := ['J', 'o', 'h', 'n', ' ', '3', ':', '1', '6']

/-- A run stopped by a failing character passes over the prefix. -/
theorem seg_dropWhile (p : Char → Bool) {c : Char} (t : List Char)
    (hc : p c = false) :
    ∀ u : List Char, (u ++ c :: t).dropWhile p = u.dropWhile p ++ c :: t := by
  intro u
  induction u with
  | nil => simp [List.dropWhile, hc]
  | cons x xs ih =>
    simp only [List.cons_append, List.dropWhile]
    split
    · exact ih
    · rfl

theorem seg_takeWhile (p : Char → Bool) {c : Char} (t : List Char)
    (hc : p c = false) :
    ∀ u : List Char, (u ++ c :: t).takeWhile p = u.takeWhile p := by
  intro u
  induction u with
  | nil => simp [List.takeWhile, hc]
  | cons x xs ih =>
    simp only [List.cons_append, List.takeWhile]
    split
    · exact congrArg (List.cons x) ih
    · rfl

/-- A character that no consuming run of the reference pattern can absorb:
it is a word character (so the final boundary fails on it), but neither a
lowercase letter, whitespace, digit, colon nor dash. -/
def sepChar (c : Char) : Prop :=
  c.isLower = false ∧ wsChar c = false ∧ c.isDigit = false
    ∧ c ≠ ':' ∧ c ≠ '-' ∧ wordChar c = true

/-- Outcome shape of a match attempt on `u ++ v`: failure, or a success
whose remainder keeps `v` intact behind a nonempty suffix of `u`. -/
def segOut (v u : List Char) (x : Option (ParsedRef × List Char)) : Prop :=
  x = none ∨ ∃ r w, x = some (r, w ++ v) ∧ w ≠ [] ∧ List.IsSuffix w u

theorem matchEndGroup_seg {vc : Char} {vt : List Char} (hsep : sepChar vc)
    (alt : String) (chd vd : List Char) :
    ∀ u : List Char, segOut (vc :: vt) u (matchEndGroup alt chd vd (u ++ vc :: vt)) := by
  obtain ⟨hlow, hws, hdig, hcol, hdash, hword⟩ := hsep
  intro u
  cases u with
  | nil =>
    left
    simp only [List.nil_append]
    unfold matchEndGroup
    split
    · next r7 heq =>
      injection heq with h1 h2
      exact absurd h1 hdash
    · rfl
  | cons x u' =>
    simp only [List.cons_append]
    unfold matchEndGroup
    split
    · next r7 heq =>
      injection heq with h1 h2
      subst h1
      subst h2
      simp only []
      rw [seg_dropWhile wsChar vt hws u']
      rw [seg_takeWhile Char.isDigit vt hdig (u'.dropWhile wsChar)]
      rw [seg_dropWhile Char.isDigit vt hdig (u'.dropWhile wsChar)]
      split
      · left
        rfl
      · cases h9 : (u'.dropWhile wsChar).dropWhile Char.isDigit with
        | nil =>
          left
          simp only [List.nil_append]
          rw [if_neg]
          simp only [boundaryAfterDigit, hword]
          simp
        | cons c9 t9 =>
          simp only [List.cons_append]
          split
          · right
            refine ⟨_, c9 :: t9, rfl, by simp, ?_⟩
            have hs1 : List.IsSuffix (c9 :: t9) (u'.dropWhile wsChar) := by
              rw [← h9]
              exact List.dropWhile_suffix Char.isDigit
            exact (hs1.trans (List.dropWhile_suffix wsChar)).trans (List.suffix_cons '-' u')
          · left
            rfl
    · left
      rfl

theorem matchEnd_seg {vc : Char} {vt : List Char} (hsep : sepChar vc)
    (alt : String) (chd vd : List Char) :
    ∀ u : List Char, segOut (vc :: vt) u (matchEnd alt chd vd (u ++ vc :: vt)) := by
  intro u
  obtain ⟨hlow, hws, hdig, hcol, hdash, hword⟩ := hsep
  unfold matchEnd
  rw [seg_dropWhile wsChar vt hws u]
  rcases matchEndGroup_seg ⟨hlow, hws, hdig, hcol, hdash, hword⟩ alt chd vd
      (u.dropWhile wsChar) with h | ⟨r, w, hw, hwne, hwsuf⟩
  · rw [h]
    cases hu : u with
    | nil =>
      left
      simp only [List.nil_append]
      rw [if_neg]
      simp only [boundaryAfterDigit, hword]
      simp
    | cons x u' =>
      simp only [List.cons_append]
      split
      · right
        exact ⟨_, x :: u', rfl, by simp, List.suffix_rfl⟩
      · left
        rfl
  · rw [hw]
    right
    exact ⟨r, w, rfl, hwne, hwsuf.trans (List.dropWhile_suffix wsChar)⟩

theorem matchVerse_seg {vc : Char} {vt : List Char} (hsep : sepChar vc)
    (alt : String) (chd : List Char) :
    ∀ u : List Char, segOut (vc :: vt) u (matchVerse alt chd (u ++ vc :: vt)) := by
  intro u
  unfold matchVerse
  simp only []
  rw [seg_takeWhile Char.isDigit vt hsep.2.2.1 u]
  rw [seg_dropWhile Char.isDigit vt hsep.2.2.1 u]
  split
  · left
    rfl
  · rcases matchEnd_seg hsep alt chd (u.takeWhile Char.isDigit)
        (u.dropWhile Char.isDigit) with h | ⟨r, w, hw, hwne, hwsuf⟩
    · left
      exact h
    · right
      exact ⟨r, w, hw, hwne, hwsuf.trans (List.dropWhile_suffix Char.isDigit)⟩

theorem matchColon_seg {vc : Char} {vt : List Char} (hsep : sepChar vc)
    (alt : String) (chd : List Char) :
    ∀ u : List Char, segOut (vc :: vt) u (matchColon alt chd (u ++ vc :: vt)) := by
  intro u
  unfold matchColon
  rw [seg_dropWhile wsChar vt hsep.2.1 u]
  cases h4 : u.dropWhile wsChar with
  | nil =>
    left
    simp only [List.nil_append]
    split
    · next r5 heq =>
      injection heq with h1 h2
      exact absurd h1 hsep.2.2.2.1
    · rfl
  | cons x u5 =>
    simp only [List.cons_append]
    split
    · next r5 heq =>
      injection heq with h1 h2
      subst h2
      rw [seg_dropWhile wsChar vt hsep.2.1 u5]
      rcases matchVerse_seg hsep alt chd (u5.dropWhile wsChar) with h | ⟨r, w, hw, hwne, hwsuf⟩
      · left
        exact h
      · right
        refine ⟨r, w, hw, hwne, ?_⟩
        have hs1 : List.IsSuffix u5 (u.dropWhile wsChar) := by
          rw [h4]
          exact List.suffix_cons x u5
        exact ((hwsuf.trans (List.dropWhile_suffix wsChar)).trans hs1).trans
          (List.dropWhile_suffix wsChar)
    · left
      rfl

theorem matchAfterName_seg {vc : Char} {vt : List Char} (hsep : sepChar vc)
    (alt : String) :
    ∀ u : List Char, segOut (vc :: vt) u (matchAfterName alt (u ++ vc :: vt)) := by
  intro u
  unfold matchAfterName
  rw [seg_dropWhile Char.isLower vt hsep.1 u]
  cases h1 : u.dropWhile Char.isLower with
  | nil =>
    left
    simp only [List.nil_append]
    simp [hsep.2.1]
  | cons c1 u2 =>
    simp only [List.cons_append]
    by_cases hc1 : wsChar c1 = true
    · simp only [hc1, not_true_eq_false, Bool.false_eq_true, if_false, ite_false]
      rw [← List.cons_append, seg_dropWhile wsChar vt hsep.2.1 (c1 :: u2)]
      rw [seg_takeWhile Char.isDigit vt hsep.2.2.1 ((c1 :: u2).dropWhile wsChar)]
      rw [seg_dropWhile Char.isDigit vt hsep.2.2.1 ((c1 :: u2).dropWhile wsChar)]
      split
      · left
        rfl
      · rcases matchColon_seg hsep alt (((c1 :: u2).dropWhile wsChar).takeWhile Char.isDigit)
            (((c1 :: u2).dropWhile wsChar).dropWhile Char.isDigit) with h | ⟨r, w, hw, hwne, hwsuf⟩
        · left
          exact h
        · right
          refine ⟨r, w, hw, hwne, ?_⟩
          have hs1 : List.IsSuffix (c1 :: u2) u := by
            rw [← h1]
            exact List.dropWhile_suffix Char.isLower
          exact (((hwsuf.trans (List.dropWhile_suffix Char.isDigit)).trans
            (List.dropWhile_suffix wsChar))).trans hs1
    · left
      simp [hc1]

theorem stripWord_seg {vc : Char} {vt : List Char} (hword : wordChar vc = true) :
    ∀ (p u : List Char), (∀ x ∈ p, wordChar x = true) →
      u ≠ [] → (∀ z c, u = z ++ [c] → wordChar c = false) →
      stripWord p (u ++ vc :: vt) = none
      ∨ ∃ w, stripWord p (u ++ vc :: vt) = some (w ++ vc :: vt)
          ∧ w ≠ [] ∧ List.IsSuffix w u := by
  intro p
  induction p with
  | nil =>
    intro u hp hu hlast
    right
    exact ⟨u, by simp [stripWord], hu, List.suffix_rfl⟩
  | cons pc ps ih =>
    intro u hp hu hlast
    cases u with
    | nil => exact absurd rfl hu
    | cons c u' =>
      simp only [List.cons_append, stripWord]
      split
      · next hpc =>
        cases u' with
        | nil =>
          exfalso
          have h1 := hlast [] c rfl
          have h2 := hp pc (List.mem_cons_self _ _)
          rw [hpc, h1] at h2
          exact absurd h2 (by simp)
        | cons c2 u2 =>
          rcases ih (c2 :: u2) (fun x hx => hp x (List.mem_cons_of_mem _ hx))
              (by simp) (fun z d hz => hlast (c :: z) d (by rw [hz]; rfl)) with
            h | ⟨w, hw, hwne, hwsuf⟩
          · left
            exact h
          · right
            exact ⟨w, hw, hwne, hwsuf.trans (List.suffix_cons c (c2 :: u2))⟩
      · left
        rfl

theorem bookAlts_word : ∀ a ∈ bookAlts, ∀ x ∈ a.data, wordChar x = true := by decide

theorem findAlt_seg {vc : Char} {vt : List Char} (hword : wordChar vc = true) :
    ∀ (alts : List String) (u : List Char),
      (∀ a ∈ alts, ∀ x ∈ a.data, wordChar x = true) →
      u ≠ [] → (∀ z c, u = z ++ [c] → wordChar c = false) →
      findAlt alts (u ++ vc :: vt) = none
      ∨ ∃ a w, findAlt alts (u ++ vc :: vt) = some (a, w ++ vc :: vt)
          ∧ w ≠ [] ∧ List.IsSuffix w u := by
  intro alts
  induction alts with
  | nil =>
    intro u _ _ _
    left
    rfl
  | cons a as ih =>
    intro u halts hu hlast
    simp only [findAlt]
    rcases stripWord_seg hword a.data u (halts a (List.mem_cons_self _ _)) hu hlast with
      h | ⟨w, hw, hwne, hwsuf⟩
    · rw [h]
      rcases ih u (fun a2 h2 => halts a2 (List.mem_cons_of_mem _ h2)) hu hlast with
        h2 | ⟨a2, w2, hw2, hw2ne, hw2suf⟩
      · left
        exact h2
      · right
        exact ⟨a2, w2, hw2, hw2ne, hw2suf⟩
    · rw [hw]
      right
      exact ⟨a, w, rfl, hwne, hwsuf⟩

theorem tryMatch_seg {vc : Char} {vt : List Char} (hsep : sepChar vc)
    (u : List Char) (hu : u ≠ [])
    (hlast : ∀ z c, u = z ++ [c] → wordChar c = false) :
    tryMatch (u ++ vc :: vt) = none
    ∨ ∃ r w, tryMatch (u ++ vc :: vt) = some (r, w ++ vc :: vt)
        ∧ w ≠ [] ∧ List.IsSuffix w u := by
  unfold tryMatch
  rcases findAlt_seg hsep.2.2.2.2.2 bookAlts u bookAlts_word hu hlast with
    h | ⟨a, w, hw, hwne, hwsuf⟩
  · rw [h]
    left
    rfl
  · rw [hw]
    rcases matchAfterName_seg hsep a w with h2 | ⟨r, w2, hw2, hw2ne, hw2suf⟩
    · left
      simp only []
      exact h2
    · right
      refine ⟨r, w2, ?_, hw2ne, hw2suf.trans hwsuf⟩
      simp only []
      exact hw2

/-- Every success of the optional end-verse group has the fixed book,
chapter and verse captures. -/
theorem matchEndGroup_fields {alt : String} {chd vd t rest : List Char}
    {r : ParsedRef} (h : matchEndGroup alt chd vd t = some (r, rest)) :
    ∃ d, r = mkParsed alt chd vd (some d) := by
  unfold matchEndGroup at h
  split at h
  · simp only at h
    split at h
    · exact absurd h (by simp)
    · split at h
      · cases h
        exact ⟨_, rfl⟩
      · exact absurd h (by simp)
  · exact absurd h (by simp)

/-- `stripWord` results survive appending to the input. -/
theorem stripWord_append_some {p u r : List Char} (b : List Char)
    (h : stripWord p u = some r) : stripWord p (u ++ b) = some (r ++ b) := by
  induction p generalizing u with
  | nil =>
    simp [stripWord] at h ⊢
    rw [h]
  | cons pc ps ih =>
    cases u with
    | nil => simp [stripWord] at h
    | cons x u2 =>
      simp only [stripWord] at h
      simp only [List.cons_append, stripWord]
      split at h
      · next hpx =>
        rw [if_pos hpx]
        exact ih h
      · exact absurd h (by simp)

/-- A failure that happens strictly inside the input also survives
appending. -/
theorem stripWord_append_none {p u : List Char} (b : List Char)
    (hlen : p.length ≤ u.length) (h : stripWord p u = none) :
    stripWord p (u ++ b) = none := by
  induction p generalizing u with
  | nil => simp [stripWord] at h
  | cons pc ps ih =>
    cases u with
    | nil => simp at hlen
    | cons x u2 =>
      simp only [stripWord] at h
      simp only [List.cons_append, stripWord]
      split at h
      · next hpx =>
        rw [if_pos hpx]
        simp only [List.length_cons] at hlen
        exact ih (by omega) h
      · next hpx =>
        rw [if_neg hpx]

/-- A `findAlt` success decided inside the input survives appending. -/
theorem findAlt_append {alts : List String} {u : List Char} {a : String}
    {r : List Char} (b : List Char)
    (hlen : ∀ x ∈ alts, x.data.length ≤ u.length)
    (h : findAlt alts u = some (a, r)) :
    findAlt alts (u ++ b) = some (a, r ++ b) := by
  induction alts with
  | nil => simp [findAlt] at h
  | cons x xs ih =>
    simp only [findAlt] at h ⊢
    cases hs : stripWord x.data u with
    | some ra =>
      rw [hs] at h
      have h2 : some (x, ra) = some (a, r) := h
      have h3 : x = a ∧ ra = r := by
        injection h2 with h4
        exact ⟨congrArg Prod.fst h4, congrArg Prod.snd h4⟩
      obtain ⟨rfl, rfl⟩ := h3
      rw [stripWord_append_some b hs]
    | none =>
      rw [hs] at h
      rw [stripWord_append_none b (hlen x (List.mem_cons_self _ _)) hs]
      exact ih (fun y hy => hlen y (List.mem_cons_of_mem _ hy)) h

/-- A match attempt at the head of the delimited token succeeds and
captures `JHN 3:16`. -/
theorem tryMatch_token (b : List Char)
    (hb : b = [] ∨ ∃ c t, b = c :: t ∧ wordChar c = false) :
    ∃ r rest, tryMatch (tokList ++ b) = some (r, rest)
      ∧ r.book = "JHN" ∧ r.chapter = 3 ∧ r.verse = 16 := by
  rcases hb with rfl | ⟨c, t, rfl, hw⟩
  · exact ⟨⟨"JHN", 3, 16, none⟩, [], by decide, rfl, rfl, rfl⟩
  · have hdig : c.isDigit = false := by
      simp only [wordChar, Bool.or_eq_false_iff] at hw
      exact hw.1.2
    have hf : findAlt bookAlts (tokList ++ c :: t)
        = some ("John", [' ', '3', ':', '1', '6'] ++ c :: t) :=
      findAlt_append (c :: t) (by decide) (by decide)
    have hta : tryMatch (tokList ++ c :: t)
        = matchVerse "John" ['3'] ('1' :: ('6' :: (c :: t))) := by
      unfold tryMatch
      rw [hf]
      rfl
    rw [hta]
    unfold matchVerse
    simp only []
    have htk : ('1' :: ('6' :: (c :: t))).takeWhile Char.isDigit = ['1', '6'] := by
      rw [show ('1' :: ('6' :: (c :: t))) = ['1', '6'] ++ c :: t from rfl,
        seg_takeWhile Char.isDigit t hdig]
      rfl
    have hdr : ('1' :: ('6' :: (c :: t))).dropWhile Char.isDigit = c :: t := by
      rw [show ('1' :: ('6' :: (c :: t))) = ['1', '6'] ++ c :: t from rfl,
        seg_dropWhile Char.isDigit t hdig]
      rfl
    rw [htk, hdr]
    rw [if_neg (by decide)]
    unfold matchEnd
    cases hmg : matchEndGroup "John" ['3'] ['1', '6'] ((c :: t).dropWhile wsChar) with
    | some res =>
      obtain ⟨r0, rest0⟩ := res
      obtain ⟨d, hd⟩ := matchEndGroup_fields hmg
      subst hd
      exact ⟨mkParsed "John" ['3'] ['1', '6'] (some d), rest0, rfl, rfl, rfl, rfl⟩
    | none =>
      rw [if_pos (by simp [boundaryAfterDigit, hw])]
      exact ⟨mkParsed "John" ['3'] ['1', '6'] none, c :: t, rfl, by decide, by decide,
        by decide⟩

/-- The scanner emits the parsed `JHN 3:16` whenever the input is a
properly delimited occurrence of the token. -/
theorem scanRefsAux_token (b : List Char)
    (hb : b = [] ∨ ∃ c t, b = c :: t ∧ wordChar c = false) :
    ∀ n : Nat, ∀ (y : List Char) (pw : Bool),
      (y ++ (tokList ++ b)).length ≤ n →
      (y = [] → pw = false) →
      (∀ z c, y = z ++ [c] → wordChar c = false) →
      ∃ r ∈ scanRefsAux n pw (y ++ (tokList ++ b)),
        r.book = "JHN" ∧ r.chapter = 3 ∧ r.verse = 16 := by
  intro n
  induction n using Nat.strong_induction_on with
  | _ n ih =>
    intro y pw hfuel h0 hlast
    cases y with
    | nil =>
      have hpw := h0 rfl
      subst hpw
      obtain ⟨r, rest, hm, hb1, hb2, hb3⟩ := tryMatch_token b hb
      cases n with
      | zero =>
        simp [tokList] at hfuel
      | succ n =>
        simp only [List.nil_append]
        rw [show tokList ++ b = 'J' :: (['o', 'h', 'n', ' ', '3', ':', '1', '6'] ++ b)
          from rfl]
        simp only [scanRefsAux]
        rw [show tryMatch ('J' :: (['o', 'h', 'n', ' ', '3', ':', '1', '6'] ++ b))
          = some (r, rest) from hm]
        exact ⟨r, List.mem_cons_self _ _, hb1, hb2, hb3⟩
    | cons x y' =>
      cases n with
      | zero => simp at hfuel
      | succ n =>
        simp only [List.cons_append, List.length_cons] at hfuel
        simp only [List.cons_append]
        have hrecNone : ∃ r ∈ scanRefsAux n (wordChar x) (y' ++ (tokList ++ b)),
            r.book = "JHN" ∧ r.chapter = 3 ∧ r.verse = 16 := by
          refine ih n (Nat.lt_succ_self n) y' (wordChar x) (by omega) ?_ ?_
          · intro hy'
            subst hy'
            exact hlast [] x rfl
          · intro z d hz
            exact hlast (x :: z) d (by rw [hz]; rfl)
        cases pw with
        | true =>
          simp only [scanRefsAux]
          exact hrecNone
        | false =>
          simp only [scanRefsAux]
          have hsep : sepChar 'J' := by
            unfold sepChar
            refine ⟨by decide, by decide, by decide, by decide, by decide, by decide⟩
          rcases tryMatch_seg hsep (x :: y') (by simp) hlast with h | ⟨r0, w, hw, hwne, hwsuf⟩
          · have h2 : tryMatch (x :: (y' ++ (tokList ++ b))) = none := h
            rw [h2]
            exact hrecNone
          · have h2 : tryMatch (x :: (y' ++ (tokList ++ b)))
                = some (r0, w ++ (tokList ++ b)) := hw
            rw [h2]
            have hlt := tryMatch_rest_lt h2
            simp only [List.length_cons] at hlt
            have hrec := ih n (Nat.lt_succ_self n) w true (by omega)
              (fun hwe => absurd hwe hwne) ?_
            · obtain ⟨r, hr, hp⟩ := hrec
              exact ⟨r, List.mem_cons_of_mem _ hr, hp⟩
            · intro z d hz
              obtain ⟨pre, hpre⟩ := hwsuf
              refine hlast (pre ++ z) d ?_
              rw [← hpre, hz, List.append_assoc]

/-- C3: the original claim fails (a query can contain the token twice, and
a token followed by a word character is not matched as `3:16`); amended, a
`John 3:16` token delimited by the string edges or non-word characters on
both sides always contributes a parsed reference with book `JHN`, chapter 3
and verse 16, and the token alone extracts to exactly that single
reference. -/
theorem c3_token_extraction :
    (∀ (a b : List Char),
      (a = [] ∨ ∃ z c, a = z ++ [c] ∧ wordChar c = false) →
      (b = [] ∨ ∃ c t, b = c :: t ∧ wordChar c = false) →
      ∃ r ∈ extractDirectReferences (String.mk (a ++ (tokList ++ b))),
        r.book = "JHN" ∧ r.chapter = 3 ∧ r.verse = 16)
    ∧ extractDirectReferences "John 3:16" = [⟨"JHN", 3, 16, none⟩] := by
  constructor
  · intro a b ha hb
    unfold extractDirectReferences
    have hdata : (String.mk (a ++ (tokList ++ b))).data = a ++ (tokList ++ b) := rfl
    rw [hdata]
    refine scanRefsAux_token b hb _ a false (Nat.le_refl _) (fun _ => rfl) ?_
    intro z c hz
    rcases ha with ha | ⟨z0, c0, ha0, hc0⟩
    · rw [ha] at hz
      exact absurd hz.symm (by simp)
    · have he : z ++ [c] = z0 ++ [c0] := hz.symm.trans ha0
      have h1 : (z ++ [c]).getLast? = some c := List.getLast?_concat z
      rw [he, List.getLast?_concat] at h1
      injection h1 with h1
      rw [← h1]
      exact hc0
  · decide

set_option maxRecDepth 100000 in
/-- Counterexample to C3 as stated: a query containing the token twice
yields two parsed references, and a query where the token is followed by a
digit yields a different verse — so neither `exactly one` nor the
unconditioned containment reading holds. -/
theorem c3_counterexample :
    extractDirectReferences "John 3:16 and John 3:16"
      = [⟨"JHN", 3, 16, none⟩, ⟨"JHN", 3, 16, none⟩]
    ∧ extractDirectReferences "John 3:165" = [⟨"JHN", 3, 165, none⟩] := by
  constructor
  · decide
  · decide

/-- Witness for the amended C3: the token inside a sentence is extracted. -/
theorem c3_token_extraction_witness :
    ∃ r ∈ extractDirectReferences (String.mk (['w', 'h', 'a', 't', ' ']
        ++ (tokList ++ [' ', 'm', 'e', 'a', 'n', 's']))),
      r.book = "JHN" ∧ r.chapter = 3 ∧ r.verse = 16 :=
  c3_token_extraction.1 ['w', 'h', 'a', 't', ' '] [' ', 'm', 'e', 'a', 'n', 's']
    (Or.inr ⟨['w', 'h', 'a', 't'], ' ', rfl, by decide⟩)
    (Or.inr ⟨' ', ['m', 'e', 'a', 'n', 's'], rfl, by decide⟩)

end BibleLM
